import Mathlib

/-!
# tvm: Time Value of Money calculator (asgn1/tvm.c)

A shallow embedding of `tvm.c`.  The five global `double` variables become an
explicit `FinancialState`; `die_line` (which prints to stderr and calls
`exit(1)`) becomes the `die` constructor of `Outcome`; `printf` becomes a list
of `Printed` records.  The C `double` type, its operators and the libm / libc
functions the program calls (`pow`, `log`, `floor`, `ceil`, `fabs`,
`isfinite`, `strtod`) are a parameter of the embedding (`CDouble`), so that
every control-flow fact holds for any arithmetic, IEEE-754 included.
The instance `realDouble` interprets them over the real numbers, for the
properties that are stated under real arithmetic.
-/

namespace TVM

/-! ## The `double` type -/

/-- The C type `double` with the operations `tvm.c` uses on it.
`lt`, `le` and `eq` are the C operators `<`, `<=` and `==` (on IEEE doubles `==` is
not structural equality: a NaN is not `==` to itself).  `strtod s` is the value
converted from the longest prefix of `s` that is a floating-point literal, and the
length of that prefix (`end - num` in the source). -/
class CDouble (α : Type) where
  add : α → α → α
  sub : α → α → α
  mul : α → α → α
  div : α → α → α
  neg : α → α
  lit : Nat → Bool → Nat → α
  lt : α → α → Prop
  le : α → α → Prop
  eq : α → α → Bool
  decLt : DecidableRel lt
  decLe : DecidableRel le
  pow : α → α → α
  log : α → α
  floor : α → α
  ceil : α → α
  fabs : α → α
  isfinite : α → Bool
  strtod : List Char → α × Nat

section Operators
variable {α : Type} [CDouble α]

instance (priority := low) instAdd : Add α := ⟨CDouble.add⟩
instance (priority := low) instSub : Sub α := ⟨CDouble.sub⟩
instance (priority := low) instMul : Mul α := ⟨CDouble.mul⟩
instance (priority := low) instDiv : Div α := ⟨CDouble.div⟩
instance (priority := low) instNeg : Neg α := ⟨CDouble.neg⟩
instance (priority := low) instOfScientific : OfScientific α := ⟨CDouble.lit⟩
instance (priority := low) instLT : LT α := ⟨CDouble.lt⟩
instance (priority := low) instLE : LE α := ⟨CDouble.le⟩
instance (priority := low) instBEq : BEq α := ⟨CDouble.eq⟩
instance (priority := low) instDecLt : DecidableRel (fun x y : α => x < y) := CDouble.decLt
instance (priority := low) instDecLe : DecidableRel (fun x y : α => x ≤ y) := CDouble.decLe

end Operators

open CDouble (pow log floor ceil fabs isfinite strtod)

/-! ## State, output and termination -/

/-- The financial calculator's variables: `double n, i, PV, PMT, FV;`. -/
structure FinancialState (α : Type) where
  n : α
  i : α
  PV : α
  PMT : α
  FV : α

/-- One `printf` call: the format string and its `double` argument. -/
structure Printed (α : Type) where
  fmt : String
  value : α

/-- How a call ends: it returns (`ok`: the variables and what was printed to stdout), or
`die_line(line_number, msg)` ended the process with exit status 1 (`die`: the message, the
variables at that moment and what had been printed). -/
inductive Outcome (α : Type) where
  | ok (st : FinancialState α) (out : List (Printed α))
  | die (line_number : Nat) (msg : String) (st : FinancialState α) (out : List (Printed α))

/-- A C string: the bytes before the terminating NUL. -/
abbrev CString := List Char

/-! ## The functions of `tvm.c` -/

section Program
variable {α : Type} [CDouble α]

/-- Source `is_integer_double`: `isfinite(x) && floor(x) == x`. -/
def is_integer_double (x : α) : Bool :=
  isfinite x && floor x == x

/-- Source `fn`: the function f(n) used by the Newton-Raphson root finder,
`(PV + PMT/i) * (1+i)^x - PMT/i + FV`. -/
def fn (st : FinancialState α) (n_param : α) : α :=
  let a := 1.0 + st.i
  let term := st.PV + (st.PMT / st.i)
  term * pow a n_param - (st.PMT / st.i) + st.FV

/-- Source `fi`: the function f(i) used by the Newton-Raphson root finder. -/
def fi (st : FinancialState α) (i_param : α) : α :=
  let a := 1.0 + i_param
  let term := st.PV + (st.PMT / i_param)
  term * pow a st.n - (st.PMT / i_param) + st.FV

/-- Source `fn_prime`: `ln(1+i) * (PV + PMT/i) * (1+i)^n`. -/
def fn_prime (st : FinancialState α) (n_param : α) : α :=
  let a := 1.0 + st.i
  log a * (st.PV + (st.PMT / st.i)) * pow a n_param

/-- Source `fi_prime`: `n*(PV+PMT/i)*(1+i)^(n-1) - PMT * ((1+i)^n + 1)/i^2`. -/
def fi_prime (st : FinancialState α) (i_param : α) : α :=
  let a := 1.0 + i_param
  let a_to_n := pow a st.n
  let first := st.n * (st.PV + (st.PMT / i_param)) * pow a (st.n - 1.0)
  let second := st.PMT * (a_to_n + 1.0) / (i_param * i_param)
  first - second

/-- The `for` loop of `newton_raphson_n`; the first argument counts the iterations that
remain (`100000 - iter`), the second is `x`. -/
def newton_raphson_n_loop (st : FinancialState α) (line_number : Nat) :
    Nat → α → Except (Nat × String) α
  | 0, _ => .error (line_number, "solver did not converge")
  | k + 1, x =>
    let f := fn st x
    let fp := fn_prime st x
    if !isfinite f || !isfinite fp || fp == 0.0 then
      .error (line_number, "solver did not converge")
    else
      let delta := f / fp
      let x := x - delta
      if !isfinite x then .error (line_number, "solver did not converge")
      else if fabs delta < 1e-8 then
        if x ≤ 0.0 then .error (line_number, "solver did not converge")
        else .ok (ceil x)
      else newton_raphson_n_loop st line_number k x

/-- Source `newton_raphson_n`: find `x` such that `fn(x) == 0`; an `error` is a call of
`die_line`. -/
def newton_raphson_n (st : FinancialState α) (line_number : Nat) : Except (Nat × String) α :=
  let x : α := 360.0
  if ¬ (st.i > 0.0) then .error (line_number, "i must be positive")
  else newton_raphson_n_loop st line_number 100000 x

/-- The `for` loop of `newton_raphson_i`; the first argument counts the iterations that
remain, the second is `x`. -/
def newton_raphson_i_loop (st : FinancialState α) (line_number : Nat) :
    Nat → α → Except (Nat × String) α
  | 0, _ => .error (line_number, "solver did not converge")
  | k + 1, x =>
    if ¬ (x > 0.0) then .error (line_number, "solver did not converge")
    else
      let f := fi st x
      let fp := fi_prime st x
      if !isfinite f || !isfinite fp || fp == 0.0 then
        .error (line_number, "solver did not converge")
      else
        let delta := f / fp
        let x := x - delta
        if !isfinite x then .error (line_number, "solver did not converge")
        else if fabs delta < 1e-8 then
          if ¬ (x > 0.0) then .error (line_number, "solver did not converge")
          else .ok x
        else newton_raphson_i_loop st line_number k x

/-- Source `newton_raphson_i`: find `x` such that `fi(x) == 0`. -/
def newton_raphson_i (st : FinancialState α) (line_number : Nat) : Except (Nat × String) α :=
  let x : α := 0.0025
  newton_raphson_i_loop st line_number 100000 x

/-- Source `check_i`: report "i must be positive" unless `i > 0.0`. -/
def check_i (st : FinancialState α) (line_number : Nat) : Except (Nat × String) Unit :=
  if ¬ (st.i > 0.0) then .error (line_number, "i must be positive") else .ok ()

/-- Source `tvm_compute_variable`: compute and print a variable's new value. -/
def tvm_compute_variable (st : FinancialState α) (name : CString) (line_number : Nat) :
    Outcome α :=
  if name = "n".toList then
    match newton_raphson_n st line_number with
    | .error e => .die e.1 e.2 st []
    | .ok v => .ok { st with n := v } [⟨"n = %.0f\n", v⟩]
  else if name = "i".toList then
    match newton_raphson_i st line_number with
    | .error e => .die e.1 e.2 st []
    | .ok v => .ok { st with i := v } [⟨"i = %.6f\n", v⟩]
  else if name = "PV".toList then
    match check_i st line_number with
    | .error e => .die e.1 e.2 st []
    | .ok _ =>
      let a := 1.0 + st.i
      let disc := pow a (-st.n)
      let v := -st.PMT * (1.0 - disc) / st.i - st.FV * disc
      .ok { st with PV := v } [⟨"PV = %.2f\n", v⟩]
  else if name = "PMT".toList then
    match check_i st line_number with
    | .error e => .die e.1 e.2 st []
    | .ok _ =>
      let a := 1.0 + st.i
      let a_to_n := pow a st.n
      let denom := 1.0 - a_to_n
      if denom == 0.0 then .die line_number "solver did not converge" st []
      else
        let v := st.i * (st.PV * a_to_n + st.FV) / denom
        .ok { st with PMT := v } [⟨"PMT = %.2f\n", v⟩]
  else if name = "FV".toList then
    match check_i st line_number with
    | .error e => .die e.1 e.2 st []
    | .ok _ =>
      let a := 1.0 + st.i
      let a_to_n := pow a st.n
      let v := -st.PV * a_to_n - st.PMT * (a_to_n - 1.0) / st.i
      .ok { st with FV := v } [⟨"FV = %.2f\n", v⟩]
  else .die line_number "invalid variable name" st []

/-- Source `tvm_set_variable`: set a variable's new value. -/
def tvm_set_variable (st : FinancialState α) (name : CString) (value : α)
    (line_number : Nat) : Outcome α :=
  if name = "n".toList then
    if ¬ (value > 0.0) || !is_integer_double value then
      .die line_number "n must be a positive integer" st []
    else .ok { st with n := value } []
  else if name = "i".toList then
    if ¬ (value > 0.0) then .die line_number "i must be positive" st []
    else .ok { st with i := value } []
  else if name = "PV".toList then .ok { st with PV := value } []
  else if name = "PMT".toList then .ok { st with PMT := value } []
  else if name = "FV".toList then .ok { st with FV := value } []
  else .die line_number "invalid variable name" st []

/-- Source `tvm_clear`: clear all of the financial variables. -/
def tvm_clear : FinancialState α :=
  { n := 0.0, i := 0.0, PV := 0.0, PMT := 0.0, FV := 0.0 }

/-- The delimiters of `strtok(_, " \t")`. -/
def isDelim (c : Char) : Bool := c == ' ' || c == '\t'

/-- One call of `strtok` with delimiters `" \t"` on the text that is left: skip the leading
delimiters; `none` (NULL) when nothing is left; otherwise the token runs up to the next
delimiter, which is overwritten with NUL, and the scan resumes after it. -/
def strtok (s : CString) : Option (CString × CString) :=
  match s.dropWhile isDelim with
  | [] => none
  | c :: cs =>
    some ((c :: cs).takeWhile (fun d => !isDelim d),
      ((c :: cs).dropWhile (fun d => !isDelim d)).drop 1)

/-- Source `tvm_process_command`: process `set VAR NUMBER`, `compute VAR` or `clear`, or print an
error and exit. -/
def tvm_process_command (st : FinancialState α) (command : CString) (line_number : Nat) :
    Outcome α :=
  if command = [] then .ok st []
  else
    let buf := command.take 39
    match strtok buf with
    | none => .ok st []
    | some (tok, rest1) =>
      if tok = "clear".toList then
        if (strtok rest1).isSome then .die line_number "invalid command" st []
        else .ok tvm_clear []
      else if tok = "compute".toList then
        match strtok rest1 with
        | none => .die line_number "invalid command" st []
        | some (var, rest2) =>
          if (strtok rest2).isSome then .die line_number "invalid command" st []
          else tvm_compute_variable st var line_number
      else if tok = "set".toList then
        match strtok rest1 with
        | none => .die line_number "invalid command" st []
        | some (var, rest2) =>
          match strtok rest2 with
          | none => .die line_number "invalid command" st []
          | some (num, rest3) =>
            if (strtok rest3).isSome then .die line_number "invalid command" st []
            else
              let val : α := (strtod num).1
              let consumed := (strtod (α := α) num).2
              if consumed = 0 ∨ consumed ≠ num.length then
                .die line_number "invalid command" st []
              else tvm_set_variable st var val line_number
      else .die line_number "invalid command" st []

/-- Source `truncate_at_newline`: truncate the string at the first occurrence of a
newline.  The scan `while (s[i] != 0 && s[i] != newline)` also stops at the first NUL, so
the bytes that `fgets` stored after a NUL byte of the input are not part of the command. -/
def truncate_at_newline (s : List Char) : CString :=
  s.takeWhile (fun c => c.toNat != 0 && c != '\n')

/-- What `fgets(command, size, stdin)` stores when `stdin` is not at its end: characters
up to and including the first newline, at most `size - 1` of them; the argument counts
the characters that still fit. -/
def fgetsLine : Nat → List Char → CString
  | 0, _ => []
  | _, [] => []
  | k + 1, c :: cs => if c = '\n' then [c] else c :: fgetsLine k cs

/-- The `while (1)` loop of `main` on the unread part of `stdin`: `fgets` returns NULL at
the end of the input, else the next piece of text is processed as a command.  The counter
`int line_number` holds at most `INT_MAX = 2147483647`; `++line_number` beyond that is
undefined behaviour in C, for which the result is `none`. -/
def main_loop (st : FinancialState α) (out : List (Printed α)) :
    Nat → List Char → Option (Outcome α)
  | _, [] => some (.ok st out)
  | line_number, c :: cs =>
    if 2147483647 ≤ line_number then none
    else
      let command := fgetsLine 39 (c :: cs)
      match tvm_process_command st (truncate_at_newline command) (line_number + 1) with
      | .die l msg st1 out1 => some (.die l msg st1 (out ++ out1))
      | .ok st1 out1 =>
        main_loop st1 (out ++ out1) (line_number + 1) ((c :: cs).drop command.length)
termination_by _ stdin => stdin.length
decreasing_by
  simp only [List.length_drop, List.length_cons]
  have h : 0 < (fgetsLine 39 (c :: cs)).length := by
    by_cases hc : c = '\n' <;> simp [fgetsLine, hc]
  omega

/-- Source `main`: read commands from stdin and process them (the input is read without
error); `some (ok ..)` is exit code 0, `some (die ..)` exit code 1. -/
def main (stdin : List Char) : Option (Outcome α) :=
  main_loop tvm_clear [] 0 stdin

end Program

/-! ## Tokens of a command line -/

/-- The tokens that successive calls of `strtok` return, with a bound on their number. -/
def tokensUpTo : Nat → CString → List CString
  | 0, _ => []
  | k + 1, s =>
    match strtok s with
    | none => []
    | some (t, rest) => t :: tokensUpTo k rest

/-- The tokens of a command line: what successive `strtok` calls return until NULL. -/
def tokens (s : CString) : List CString := tokensUpTo s.length s

/-! ## Real arithmetic

The interpretation of `double` used for the properties stated "under real arithmetic":
every value is a real number, so nothing is rounded, nothing overflows and every value is
finite.  On every path of the program the partial operations are applied inside their
domain (`/ i`, `log (1+i)` and `pow (1+i) _` run after `i > 0` was checked, `/ fp` and
`/ denom` after the divisor was compared with zero, `/ x` after `x > 0`), where the real
operation is the one the double operation approximates. -/

/-- The value of a decimal digit. -/
def digitVal (c : Char) : Nat := c.toNat - 48

/-- The number written by a string of decimal digits (most significant first). -/
def digitsVal (ds : List Char) : Nat := ds.foldl (fun acc c => 10 * acc + digitVal c) 0

/-- The white-space characters `strtod` skips before the number (`isspace`). -/
def isSpaceC (c : Char) : Bool :=
  c == ' ' || c == '\t' || c == '\n' || c == '\r' || c.toNat == 11 || c.toNat == 12

/-- An optional sign: whether it is `-`, and the text after it. -/
def takeSign : List Char → Bool × List Char
  | '-' :: cs => (true, cs)
  | '+' :: cs => (false, cs)
  | cs => (false, cs)

/-- An optional exponent part `e`/`E`, optional sign, at least one digit: its value and the
text after it; without a digit nothing is consumed. -/
def takeExponent : List Char → Int × List Char
  | c :: cs =>
    if c = 'e' ∨ c = 'E' then
      let sg := takeSign cs
      let ds := sg.2.takeWhile Char.isDigit
      if ds = [] then (0, c :: cs)
      else ((if sg.1 then -(digitsVal ds : Int) else (digitsVal ds : Int)),
        sg.2.dropWhile Char.isDigit)
    else (0, c :: cs)
  | [] => (0, [])

/-- The decimal form of `strtod`: white space, optional sign, digits with an optional
radix point (at least one digit), optional exponent.  Returns the exact value and the
number of characters consumed, `(0, 0)` when no conversion can be performed.  The
hexadecimal, `INF` and `NAN` forms are not part of the real-number interpretation. -/
def strtodRat (s : List Char) : ℚ × Nat :=
  let s0 := s.dropWhile isSpaceC
  let sg := takeSign s0
  let ip := sg.2.takeWhile Char.isDigit
  let r1 := sg.2.dropWhile Char.isDigit
  let fp := match r1 with
    | '.' :: cs => cs.takeWhile Char.isDigit
    | _ => []
  let r2 := match r1 with
    | '.' :: cs => cs.dropWhile Char.isDigit
    | cs => cs
  if ip = [] ∧ fp = [] then (0, 0)
  else
    let ex := takeExponent r2
    let mant : ℚ := (digitsVal (ip ++ fp) : ℚ) / (10 : ℚ) ^ fp.length
    let v : ℚ := mant * (10 : ℚ) ^ ex.1
    ((if sg.1 then -v else v), s.length - ex.2.length)

/-- The operations of `double` over the real numbers. -/
noncomputable instance (priority := low) realDouble : CDouble ℝ where
  add x y := x + y
  sub x y := x - y
  mul x y := x * y
  div x y := x / y
  neg x := -x
  lit m s e := OfScientific.ofScientific m s e
  lt x y := x < y
  le x y := x ≤ y
  eq x y := decide (x = y)
  decLt := fun _ _ => Classical.propDecidable _
  decLe := fun _ _ => Classical.propDecidable _
  pow x y := Real.rpow x y
  log x := Real.log x
  floor x := (⌊x⌋ : ℝ)
  ceil x := (⌈x⌉ : ℝ)
  fabs x := |x|
  isfinite _ := true
  strtod s := (((strtodRat s).1 : ℝ), (strtodRat s).2)

/-! ## IEEE-754 arithmetic

The interpretation of `double` as IEEE-754 binary64 with the default rounding (to nearest,
ties to even).  The four operations and `strtod` are correctly rounded, as the standard
requires; `pow` and `log` follow Annex F of the C standard for the special cases and are
taken correctly rounded elsewhere (libm promises an error below one unit in the last
place; the theorems below use `pow` where its value is exact, or through conditions on
the values it returns, and `log` through a bound).
Two simplifications: zero has no sign and NaN no payload.  The program never divides by a
negative zero (its divisors are `i`, `x`, `fp` and `denom` after a test that excludes zero,
and `x * x`), and it prints no payload. -/

/-- A value of type `double`: finite (the real number it stands for), an infinity or a
NaN.  The operations return only finite values of the binary64 format. -/
inductive Dbl where
  | fin (x : ℝ)
  | pinf
  | ninf
  | nan

namespace Dbl

/-- The integer nearest to `q`, the even one of the two when `q` is half-way. -/
noncomputable def roundHalfEven (q : ℝ) : ℤ :=
  if q - ⌊q⌋ < 1 / 2 then ⌊q⌋
  else if 1 / 2 < q - ⌊q⌋ then ⌊q⌋ + 1
  else if ⌊q⌋ % 2 = 0 then ⌊q⌋ else ⌊q⌋ + 1

/-- The exponent of the unit in the last place of the binary64 values around `x`:
52 below the binary exponent of `x`, which is at least -1022 (subnormal range). -/
noncomputable def ulpExp (x : ℝ) : ℤ := max (Int.log 2 |x|) (-1022) - 52

/-- Round a real number to binary64: to the nearest multiple of the unit in the last
place, ties to even; a result of magnitude `2^1024` or more overflows to an infinity. -/
noncomputable def roundNearest (x : ℝ) : Dbl :=
  let y : ℝ := (roundHalfEven (x / (2 : ℝ) ^ ulpExp x) : ℝ) * (2 : ℝ) ^ ulpExp x
  if (2 : ℝ) ^ (1024 : ℤ) ≤ |y| then (if 0 < x then pinf else ninf) else fin y

/-- The C operator `+`. -/
noncomputable def add : Dbl → Dbl → Dbl
  | fin x, fin y => roundNearest (x + y)
  | fin _, pinf => pinf
  | fin _, ninf => ninf
  | pinf, fin _ => pinf
  | ninf, fin _ => ninf
  | pinf, pinf => pinf
  | ninf, ninf => ninf
  | _, _ => nan

/-- The C unary operator `-`. -/
noncomputable def neg : Dbl → Dbl
  | fin x => fin (-x)
  | pinf => ninf
  | ninf => pinf
  | nan => nan

/-- The C operator `-`. -/
noncomputable def sub (x y : Dbl) : Dbl := add x (neg y)

/-- The C operator `*`. -/
noncomputable def mul : Dbl → Dbl → Dbl
  | fin x, fin y => roundNearest (x * y)
  | fin x, pinf => if x = 0 then nan else if 0 < x then pinf else ninf
  | fin x, ninf => if x = 0 then nan else if 0 < x then ninf else pinf
  | pinf, fin y => if y = 0 then nan else if 0 < y then pinf else ninf
  | ninf, fin y => if y = 0 then nan else if 0 < y then ninf else pinf
  | pinf, pinf => pinf
  | ninf, ninf => pinf
  | pinf, ninf => ninf
  | ninf, pinf => ninf
  | _, _ => nan

/-- The C operator `/` (a zero divisor is the positive zero). -/
noncomputable def div : Dbl → Dbl → Dbl
  | fin x, fin y =>
    if y = 0 then (if x = 0 then nan else if 0 < x then pinf else ninf)
    else roundNearest (x / y)
  | fin _, pinf => fin 0
  | fin _, ninf => fin 0
  | pinf, fin y => if 0 ≤ y then pinf else ninf
  | ninf, fin y => if 0 ≤ y then ninf else pinf
  | _, _ => nan

/-- The C operator `<`: false when an operand is a NaN. -/
def lt : Dbl → Dbl → Prop
  | fin x, fin y => x < y
  | fin _, pinf => True
  | ninf, fin _ => True
  | ninf, pinf => True
  | _, _ => False

/-- The C operator `<=`: false when an operand is a NaN. -/
def le : Dbl → Dbl → Prop
  | fin x, fin y => x ≤ y
  | fin _, pinf => True
  | ninf, fin _ => True
  | ninf, pinf => True
  | pinf, pinf => True
  | ninf, ninf => True
  | _, _ => False

/-- The C operator `==`: false when an operand is a NaN. -/
noncomputable def eq : Dbl → Dbl → Bool
  | fin x, fin y => decide (x = y)
  | pinf, pinf => true
  | ninf, ninf => true
  | _, _ => false

/-- The libm function `pow` (C standard, F.10.4.4): `pow(x, 0)` and `pow(1, y)` are 1
even for a NaN argument; a negative base with a non-integer exponent is a domain error. -/
noncomputable def pow : Dbl → Dbl → Dbl
  | fin a, fin b =>
    if b = 0 then fin 1
    else if a = 1 then fin 1
    else if a = 0 then (if b < 0 then pinf else fin 0)
    else if 0 < a then roundNearest (a ^ b)
    else if (⌊b⌋ : ℝ) = b then roundNearest (a ^ ⌊b⌋)
    else nan
  | pinf, fin b => if b = 0 then fin 1 else if b < 0 then fin 0 else pinf
  | ninf, fin b =>
    if b = 0 then fin 1
    else if b < 0 then fin 0
    else if (⌊b⌋ : ℝ) = b ∧ ⌊b⌋ % 2 = 1 then ninf else pinf
  | nan, fin b => if b = 0 then fin 1 else nan
  | fin a, pinf => if |a| < 1 then fin 0 else if |a| = 1 then fin 1 else pinf
  | fin a, ninf => if |a| < 1 then pinf else if |a| = 1 then fin 1 else fin 0
  | fin a, nan => if a = 1 then fin 1 else nan
  | pinf, pinf => pinf
  | ninf, pinf => pinf
  | pinf, ninf => fin 0
  | ninf, ninf => fin 0
  | _, _ => nan

/-- The libm function `log`: `log(0)` is minus infinity, a negative argument is a domain
error. -/
noncomputable def log : Dbl → Dbl
  | fin a => if a = 0 then ninf else if a < 0 then nan else roundNearest (Real.log a)
  | pinf => pinf
  | ninf => nan
  | nan => nan

/-- The libm function `floor`. -/
noncomputable def floor : Dbl → Dbl
  | fin a => fin (⌊a⌋ : ℝ)
  | x => x

/-- The libm function `ceil`. -/
noncomputable def ceil : Dbl → Dbl
  | fin a => fin (⌈a⌉ : ℝ)
  | x => x

/-- The libm function `fabs`. -/
noncomputable def fabs : Dbl → Dbl
  | fin a => fin |a|
  | pinf => pinf
  | ninf => pinf
  | nan => nan

/-- The macro `isfinite`. -/
def isfinite : Dbl → Bool
  | fin _ => true
  | _ => false

end Dbl

/-- The operations of `double` in IEEE-754 binary64 arithmetic.  `strtod` converts the
decimal form, correctly rounded; a value too large converts to an infinity. -/
noncomputable instance (priority := low) ieeeDouble : CDouble Dbl where
  add := Dbl.add
  sub := Dbl.sub
  mul := Dbl.mul
  div := Dbl.div
  neg := Dbl.neg
  lit m s e := Dbl.roundNearest (OfScientific.ofScientific m s e)
  lt := Dbl.lt
  le := Dbl.le
  eq := Dbl.eq
  decLt := fun _ _ => Classical.propDecidable _
  decLe := fun _ _ => Classical.propDecidable _
  pow := Dbl.pow
  log := Dbl.log
  floor := Dbl.floor
  ceil := Dbl.ceil
  fabs := Dbl.fabs
  isfinite := Dbl.isfinite
  strtod s := (Dbl.roundNearest ((strtodRat s).1 : ℝ), (strtodRat s).2)

/-! ## Inputs made of lines, and runs line by line

These definitions follow the words of the specification, to be compared with `main`. -/

/-- The input text made of the given lines, each one followed by a newline. -/
def inputOfLines : List CString → List Char
  | [] => []
  | line :: rest => line ++ '\n' :: inputOfLines rest

/-- The run the specification describes: the lines are processed strictly in order, the
line counter advances by one for every line read, and the first command that fails ends
the run; `line_number` is the number of lines read so far and `out` what was printed so
far. -/
def runLines {α : Type} [CDouble α] (st : FinancialState α) (out : List (Printed α)) :
    Nat → List CString → Outcome α
  | _, [] => .ok st out
  | line_number, line :: rest =>
    match tvm_process_command st line (line_number + 1) with
    | .die l msg st1 out1 => .die l msg st1 (out ++ out1)
    | .ok st1 out1 => runLines st1 (out ++ out1) (line_number + 1) rest

/-- The states that can be reached from the initial all-zero state by a sequence of
commands that succeed. -/
inductive Reachable {α : Type} [CDouble α] : FinancialState α → Prop where
  | init : Reachable tvm_clear
  | step {st st1 : FinancialState α} {out : List (Printed α)} (command : CString)
      (line_number : Nat) (h : Reachable st)
      (hok : tvm_process_command st command line_number = .ok st1 out) : Reachable st1

/-! ## Tokens and dispatch -/

/-- Every call of `strtok` that returns a token shortens the text that is left. -/
theorem strtok_length {s t r : CString} (h : strtok s = some (t, r)) : r.length < s.length := by
  unfold strtok at h
  split at h
  · simp at h
  · rename_i c cs hs
    simp only [Option.some.injEq, Prod.mk.injEq] at h
    have hc : isDelim c = false := by
      have := List.head_dropWhile_not isDelim s (by simp [hs])
      simpa [hs] using this
    have h1 : ((c :: cs).dropWhile (fun d => !isDelim d)).length ≤ cs.length := by
      rw [List.dropWhile_cons_of_pos (by simp [hc])]
      exact (List.dropWhile_sublist _).length_le
    have h2 : (c :: cs).length ≤ s.length := by
      rw [← hs]; exact (List.dropWhile_sublist _).length_le
    rw [← h.2]
    simp only [List.length_drop, List.length_cons] at *
    omega

/-- A bound of at least the length of the line does not cut the token list. -/
theorem tokensUpTo_of_le (k : Nat) :
    ∀ (s : CString), s.length ≤ k → tokensUpTo k s = tokens s := by
  induction k using Nat.strong_induction_on with
  | _ k ih =>
    intro s hs
    unfold tokens
    cases k with
    | zero =>
      have : s = [] := List.length_eq_zero.mp (Nat.le_zero.mp hs)
      subst this; rfl
    | succ k =>
      cases hl : s.length with
      | zero =>
        have : s = [] := List.length_eq_zero.mp hl
        subst this; rfl
      | succ m =>
        simp only [tokensUpTo]
        cases hst : strtok s with
        | none => rfl
        | some tr =>
          obtain ⟨t, r⟩ := tr
          have := strtok_length hst
          simp only
          rw [ih k (by omega) r (by omega), ih m (by omega) r (by omega)]

/-- The token list, one `strtok` call at a time. -/
theorem tokens_unfold (s : CString) :
    tokens s = match strtok s with
      | none => []
      | some (t, rest) => t :: tokens rest := by
  cases hl : s.length with
  | zero =>
    have : s = [] := List.length_eq_zero.mp hl
    subst this; rfl
  | succ m =>
    unfold tokens
    rw [hl]
    simp only [tokensUpTo]
    cases hst : strtok s with
    | none => rfl
    | some tr =>
      obtain ⟨t, r⟩ := tr
      have := strtok_length hst
      simp only
      rw [tokensUpTo_of_le m r (by omega)]; rfl

/-- No token: the first `strtok` call returns NULL. -/
theorem tokens_nil {s : CString} (h : tokens s = []) : strtok s = none := by
  rw [tokens_unfold] at h
  cases hst : strtok s with
  | none => rfl
  | some tr => rw [hst] at h; simp at h

/-- A first token `t`: the first `strtok` call returns it, and the other tokens are those
of the text that is left. -/
theorem tokens_cons {s t : CString} {ts : List CString} (h : tokens s = t :: ts) :
    ∃ r, strtok s = some (t, r) ∧ tokens r = ts := by
  rw [tokens_unfold] at h
  cases hst : strtok s with
  | none => rw [hst] at h; simp at h
  | some tr =>
    obtain ⟨t1, r⟩ := tr
    rw [hst] at h
    simp only [List.cons.injEq] at h
    exact ⟨r, by rw [h.1], h.2⟩

/-- The first `strtok` call returns NULL exactly on a line of delimiters. -/
theorem strtok_eq_none_iff (s : CString) : strtok s = none ↔ ∀ c ∈ s, isDelim c = true := by
  unfold strtok
  rw [← List.dropWhile_eq_nil_iff]
  split
  · rename_i h; simp [h]
  · rename_i c cs h; simp [h]

/-- A line has no token exactly when it consists of spaces and tabs. -/
theorem tokens_eq_nil_iff (s : CString) : tokens s = [] ↔ ∀ c ∈ s, isDelim c = true := by
  rw [← strtok_eq_none_iff]
  constructor
  · exact tokens_nil
  · intro h; rw [tokens_unfold, h]

section Dispatch
variable {α : Type} [CDouble α]

/-- A line whose buffer holds no token is ignored. -/
theorem process_no_tokens (st : FinancialState α) (command : CString) (line_number : Nat)
    (htok : tokens (command.take 39) = []) :
    tvm_process_command st command line_number = .ok st [] := by
  unfold tvm_process_command
  split
  · rfl
  · simp only [tokens_nil htok]

/-- The line `clear`. -/
theorem process_clear (st : FinancialState α) (command : CString) (line_number : Nat)
    (htok : tokens (command.take 39) = ["clear".toList]) :
    tvm_process_command st command line_number = .ok tvm_clear [] := by
  obtain ⟨r1, h1, ht1⟩ := tokens_cons htok
  have hne : command ≠ [] := by rintro rfl; simp [strtok] at h1
  simp [tvm_process_command, hne, h1, tokens_nil ht1]

/-- A line `compute VAR` is handed to `tvm_compute_variable`. -/
theorem process_compute (st : FinancialState α) (command var : CString) (line_number : Nat)
    (htok : tokens (command.take 39) = ["compute".toList, var]) :
    tvm_process_command st command line_number = tvm_compute_variable st var line_number := by
  obtain ⟨r1, h1, ht1⟩ := tokens_cons htok
  obtain ⟨r2, h2, ht2⟩ := tokens_cons ht1
  have hne : command ≠ [] := by rintro rfl; simp [strtok] at h1
  simp [tvm_process_command, hne, h1, h2, tokens_nil ht2]

/-- A line `set VAR VALUE` is handed to `tvm_set_variable` when `strtod` converts the whole
of `VALUE`, and is an invalid command otherwise. -/
theorem process_set (st : FinancialState α) (command var num : CString) (line_number : Nat)
    (htok : tokens (command.take 39) = ["set".toList, var, num]) :
    tvm_process_command st command line_number =
      if (strtod (α := α) num).2 = 0 ∨ (strtod (α := α) num).2 ≠ num.length then
        .die line_number "invalid command" st []
      else tvm_set_variable st var (strtod num).1 line_number := by
  obtain ⟨r1, h1, ht1⟩ := tokens_cons htok
  obtain ⟨r2, h2, ht2⟩ := tokens_cons ht1
  obtain ⟨r3, h3, ht3⟩ := tokens_cons ht2
  have hne : command ≠ [] := by rintro rfl; simp [strtok] at h1
  simp [tvm_process_command, hne, h1, h2, h3, tokens_nil ht3]

end Dispatch

/-! ## The real-number operations, unfolded -/

@[simp] theorem real_add (x y : ℝ) :
    @HAdd.hAdd ℝ ℝ ℝ (@instHAdd ℝ (@instAdd ℝ realDouble)) x y = x + y := rfl
@[simp] theorem real_sub (x y : ℝ) :
    @HSub.hSub ℝ ℝ ℝ (@instHSub ℝ (@instSub ℝ realDouble)) x y = x - y := rfl
@[simp] theorem real_mul (x y : ℝ) :
    @HMul.hMul ℝ ℝ ℝ (@instHMul ℝ (@instMul ℝ realDouble)) x y = x * y := rfl
@[simp] theorem real_div (x y : ℝ) :
    @HDiv.hDiv ℝ ℝ ℝ (@instHDiv ℝ (@instDiv ℝ realDouble)) x y = x / y := rfl
@[simp] theorem real_neg (x : ℝ) : @Neg.neg ℝ (@instNeg ℝ realDouble) x = -x := rfl
@[simp] theorem real_lit (m : Nat) (s : Bool) (e : Nat) :
    @OfScientific.ofScientific ℝ (@instOfScientific ℝ realDouble) m s e
      = (OfScientific.ofScientific m s e : ℝ) := rfl
@[simp] theorem real_lt (x y : ℝ) : @LT.lt ℝ (@instLT ℝ realDouble) x y ↔ x < y := Iff.rfl
@[simp] theorem real_le (x y : ℝ) : @LE.le ℝ (@instLE ℝ realDouble) x y ↔ x ≤ y := Iff.rfl
@[simp] theorem real_beq (x y : ℝ) :
    (@BEq.beq ℝ (@instBEq ℝ realDouble) x y) = decide (x = y) := rfl
@[simp] theorem real_pow (x y : ℝ) : CDouble.pow x y = x ^ y := rfl
@[simp] theorem real_log (x : ℝ) : CDouble.log x = Real.log x := rfl
@[simp] theorem real_floor (x : ℝ) : CDouble.floor x = (⌊x⌋ : ℝ) := rfl
@[simp] theorem real_ceil (x : ℝ) : CDouble.ceil x = (⌈x⌉ : ℝ) := rfl
@[simp] theorem real_fabs (x : ℝ) : CDouble.fabs x = |x| := rfl
@[simp] theorem real_isfinite (x : ℝ) : CDouble.isfinite x = true := rfl
@[simp] theorem real_strtod (s : List Char) :
    (CDouble.strtod s : ℝ × Nat) = (((strtodRat s).1 : ℝ), (strtodRat s).2) := rfl

/-! ## Literals -/

theorem strtodRat_5_5 : strtodRat "5.5".toList = (11/2, 3) := by
  simp [strtodRat, takeSign, digitsVal, digitVal, takeExponent, isSpaceC]; norm_num
theorem strtodRat_m3 : strtodRat "-3".toList = (-3, 2) := by
  simp [strtodRat, takeSign, digitsVal, digitVal, takeExponent, isSpaceC]
theorem strtodRat_5 : strtodRat "5".toList = (5, 1) := by
  simp [strtodRat, takeSign, digitsVal, digitVal, takeExponent, isSpaceC]
theorem strtodRat_abc : strtodRat "abc".toList = (0, 0) := by
  simp [strtodRat, takeSign, digitsVal, digitVal, takeExponent, isSpaceC]
theorem strtodRat_0 : strtodRat "0".toList = (0, 1) := by
  simp [strtodRat, takeSign, digitsVal, digitVal, takeExponent, isSpaceC]
theorem strtodRat_m0_01 : strtodRat "-0.01".toList = (-(1/100), 5) := by
  simp [strtodRat, takeSign, digitsVal, digitVal, takeExponent, isSpaceC]; norm_num
theorem strtodRat_0_01 : strtodRat "0.01".toList = (1/100, 4) := by
  simp [strtodRat, takeSign, digitsVal, digitVal, takeExponent, isSpaceC]; norm_num

/-! ## Claims -/

/-- C1: `set n v` (`tvm_set_variable` with name `n`) stores `v` in `n`, leaving `i`, `PV`,
`PMT`, `FV` as they were, exactly when `v` is finite, `v > 0` and `floor(v) == v`; in every
other case it ends with the message "n must be a positive integer".  Under real
arithmetic the lines `set n 5.5` and `set n -3` fail and `set n 5` stores 5. -/
theorem set_n_positive_integer :
    (∀ (α : Type) [CDouble α] (st : FinancialState α) (v : α) (line_number : Nat),
      (tvm_set_variable st "n".toList v line_number
          = .ok ⟨v, st.i, st.PV, st.PMT, st.FV⟩ []
        ↔ (isfinite v = true ∧ v > 0.0 ∧ (floor v == v) = true)) ∧
      (tvm_set_variable st "n".toList v line_number
          = .die line_number "n must be a positive integer" st []
        ↔ ¬ (isfinite v = true ∧ v > 0.0 ∧ (floor v == v) = true))) ∧
    (∀ st : FinancialState ℝ,
      tvm_process_command st "set n 5.5".toList 1
        = .die 1 "n must be a positive integer" st [] ∧
      tvm_process_command st "set n -3".toList 1
        = .die 1 "n must be a positive integer" st [] ∧
      tvm_process_command st "set n 5".toList 1
        = .ok ⟨5, st.i, st.PV, st.PMT, st.FV⟩ []) := by
  refine ⟨?_, ?_⟩
  · intro α _ st v line_number
    by_cases h1 : v > 0.0 <;> by_cases h2 : isfinite v = true <;>
      by_cases h3 : (floor v == v) = true <;>
      simp [tvm_set_variable, is_integer_double, h1, h2, h3]
  · intro st
    refine ⟨?_, ?_, ?_⟩
    · rw [process_set st _ "n".toList "5.5".toList 1 (by decide)]
      simp only [real_strtod, strtodRat_5_5]
      have hfl : ⌊(11/2 : ℝ)⌋ = 5 := by
        rw [Int.floor_eq_iff]; norm_num
      simp [tvm_set_variable, is_integer_double, hfl]
      norm_num
    · rw [process_set st _ "n".toList "-3".toList 1 (by decide)]
      simp only [real_strtod, strtodRat_m3]
      simp [tvm_set_variable, is_integer_double]
      norm_num
    · rw [process_set st _ "n".toList "5".toList 1 (by decide)]
      simp only [real_strtod, strtodRat_5]
      simp [tvm_set_variable, is_integer_double]
      norm_num

/-- C2: `set i v` stores `v` in `i`, leaving `n`, `PV`, `PMT`, `FV` as they were, exactly
when `v > 0` holds; otherwise (zero, negative, or not comparable) it ends with the message
"i must be positive".  Under real arithmetic the lines `set i 0` and `set i -0.01` fail and
`set i 0.01` succeeds. -/
theorem set_i_positive :
    (∀ (α : Type) [CDouble α] (st : FinancialState α) (v : α) (line_number : Nat),
      (tvm_set_variable st "i".toList v line_number
          = .ok ⟨st.n, v, st.PV, st.PMT, st.FV⟩ [] ↔ v > 0.0) ∧
      (tvm_set_variable st "i".toList v line_number
          = .die line_number "i must be positive" st [] ↔ ¬ (v > 0.0))) ∧
    (∀ st : FinancialState ℝ,
      tvm_process_command st "set i 0".toList 1 = .die 1 "i must be positive" st [] ∧
      tvm_process_command st "set i -0.01".toList 1 = .die 1 "i must be positive" st [] ∧
      tvm_process_command st "set i 0.01".toList 1
        = .ok ⟨st.n, 1 / 100, st.PV, st.PMT, st.FV⟩ []) := by
  refine ⟨?_, ?_⟩
  · intro α _ st v line_number
    have hn : ¬ ("i".toList = "n".toList) := by decide
    by_cases h1 : v > 0.0 <;> simp [tvm_set_variable, hn, h1]
  · intro st
    have hn : ¬ ("i".toList = "n".toList) := by decide
    refine ⟨?_, ?_, ?_⟩
    · rw [process_set st _ "i".toList "0".toList 1 (by decide)]
      simp only [real_strtod, strtodRat_0]
      simp [tvm_set_variable]
      norm_num
    · rw [process_set st _ "i".toList "-0.01".toList 1 (by decide)]
      simp only [real_strtod, strtodRat_m0_01]
      simp [tvm_set_variable]
      norm_num
    · rw [process_set st _ "i".toList "0.01".toList 1 (by decide)]
      simp only [real_strtod, strtodRat_0_01]
      simp [tvm_set_variable]
      norm_num

/-- C3: in a state where `i > 0` does not hold, `compute n`, `compute PV`, `compute PMT`
and `compute FV` each end with the message "i must be positive" and leave the variables
untouched, whatever the arithmetic does: for `n` the solver returns the error before its
loop starts, for the others `check_i` precedes the formula. -/
theorem compute_requires_positive_i {α : Type} [CDouble α] (st : FinancialState α)
    (line_number : Nat) (hi : ¬ (st.i > 0.0)) :
    (∀ name ∈ ["n".toList, "PV".toList, "PMT".toList, "FV".toList],
      tvm_compute_variable st name line_number
        = .die line_number "i must be positive" st []) ∧
    newton_raphson_n st line_number = .error (line_number, "i must be positive") ∧
    tvm_process_command st "compute n".toList line_number
      = .die line_number "i must be positive" st [] ∧
    tvm_process_command st "compute PV".toList line_number
      = .die line_number "i must be positive" st [] ∧
    tvm_process_command st "compute PMT".toList line_number
      = .die line_number "i must be positive" st [] ∧
    tvm_process_command st "compute FV".toList line_number
      = .die line_number "i must be positive" st [] := by
  have hn : newton_raphson_n st line_number = .error (line_number, "i must be positive") := by
    simp [newton_raphson_n, hi]
  have hc : check_i st line_number = .error (line_number, "i must be positive") := by
    simp [check_i, hi]
  have h1 : tvm_compute_variable st "n".toList line_number
      = .die line_number "i must be positive" st [] := by
    simp [tvm_compute_variable, hn]
  have h2 : tvm_compute_variable st "PV".toList line_number
      = .die line_number "i must be positive" st [] := by
    simp [tvm_compute_variable, hc]
  have h3 : tvm_compute_variable st "PMT".toList line_number
      = .die line_number "i must be positive" st [] := by
    simp [tvm_compute_variable, hc]
  have h4 : tvm_compute_variable st "FV".toList line_number
      = .die line_number "i must be positive" st [] := by
    simp [tvm_compute_variable, hc]
  refine ⟨?_, hn, ?_, ?_, ?_, ?_⟩
  · intro name hname
    simp only [List.mem_cons, List.mem_singleton, List.not_mem_nil, or_false] at hname
    rcases hname with rfl | rfl | rfl | rfl
    · exact h1
    · exact h2
    · exact h3
    · exact h4
  · rw [process_compute st _ "n".toList line_number (by decide)]; exact h1
  · rw [process_compute st _ "PV".toList line_number (by decide)]; exact h2
  · rw [process_compute st _ "PMT".toList line_number (by decide)]; exact h3
  · rw [process_compute st _ "FV".toList line_number (by decide)]; exact h4

/-- The all-zero state under real arithmetic: every `compute` that needs `i > 0` fails
with "i must be positive". -/
theorem compute_requires_positive_i_witness :
    ¬ ((tvm_clear : FinancialState ℝ).i > 0.0) ∧
    ((∀ name ∈ ["n".toList, "PV".toList, "PMT".toList, "FV".toList],
      tvm_compute_variable (tvm_clear : FinancialState ℝ) name 1
        = .die 1 "i must be positive" tvm_clear []) ∧
    newton_raphson_n (tvm_clear : FinancialState ℝ) 1 = .error (1, "i must be positive") ∧
    tvm_process_command (tvm_clear : FinancialState ℝ) "compute n".toList 1
      = .die 1 "i must be positive" tvm_clear [] ∧
    tvm_process_command (tvm_clear : FinancialState ℝ) "compute PV".toList 1
      = .die 1 "i must be positive" tvm_clear [] ∧
    tvm_process_command (tvm_clear : FinancialState ℝ) "compute PMT".toList 1
      = .die 1 "i must be positive" tvm_clear [] ∧
    tvm_process_command (tvm_clear : FinancialState ℝ) "compute FV".toList 1
      = .die 1 "i must be positive" tvm_clear []) :=
  ⟨by simp [tvm_clear], compute_requires_positive_i tvm_clear 1 (by simp [tvm_clear])⟩

/-- C4: a command line (at most 39 bytes) whose only token is `clear` succeeds from every
state, prints nothing and yields `n = i = PV = PMT = FV = 0`; `main` starts its loop from
that same state. -/
theorem clear_resets_to_zero {α : Type} [CDouble α] (st : FinancialState α)
    (command : CString) (line_number : Nat) (hlen : command.length ≤ 39)
    (htok : tokens command = ["clear".toList]) :
    tvm_process_command st command line_number = .ok ⟨0.0, 0.0, 0.0, 0.0, 0.0⟩ [] ∧
    (∀ stdin : List Char,
      main (α := α) stdin = main_loop ⟨0.0, 0.0, 0.0, 0.0, 0.0⟩ [] 0 stdin) := by
  refine ⟨?_, fun _ => rfl⟩
  rw [process_clear st command line_number (by rw [List.take_of_length_le hlen]; exact htok)]
  rfl

/-- The line `clear` under real arithmetic, from a state with every variable set. -/
theorem clear_resets_to_zero_witness :
    "clear".toList.length ≤ 39 ∧ tokens "clear".toList = ["clear".toList] ∧
    tvm_process_command (⟨360, 1 / 200, 100000, 0, 7⟩ : FinancialState ℝ) "clear".toList 3
      = .ok ⟨0.0, 0.0, 0.0, 0.0, 0.0⟩ [] ∧
    (∀ stdin : List Char,
      main (α := ℝ) stdin = main_loop ⟨0.0, 0.0, 0.0, 0.0, 0.0⟩ [] 0 stdin) :=
  ⟨by decide, by decide,
    clear_resets_to_zero ⟨360, 1 / 200, 100000, 0, 7⟩ "clear".toList 3 (by decide) (by decide)⟩

/-- C5: for a command line of at most 39 bytes with tokens `t0 :: ts`, the command ends
with "invalid command" (variables untouched, nothing printed) when `t0` is none of `clear`,
`compute`, `set`; or it is `clear` followed by more tokens; or `compute` with a token
count other than two; or `set` with a token count other than three; or `set VAR VALUE`
where `strtod` converts nothing of `VALUE` or stops before its end. -/
theorem invalid_command {α : Type} [CDouble α] (st : FinancialState α)
    (command : CString) (line_number : Nat) (t0 : CString) (ts : List CString)
    (hlen : command.length ≤ 39) (htok : tokens command = t0 :: ts)
    (hbad : (t0 ≠ "clear".toList ∧ t0 ≠ "compute".toList ∧ t0 ≠ "set".toList) ∨
      (t0 = "clear".toList ∧ ts ≠ []) ∨
      (t0 = "compute".toList ∧ ts.length ≠ 1) ∨
      (t0 = "set".toList ∧ ts.length ≠ 2) ∨
      (t0 = "set".toList ∧ ∃ var num, ts = [var, num] ∧
        ((strtod (α := α) num).2 = 0 ∨ (strtod (α := α) num).2 ≠ num.length))) :
    tvm_process_command st command line_number
      = .die line_number "invalid command" st [] := by
  have htake : command.take 39 = command := List.take_of_length_le hlen
  obtain ⟨r1, h1, ht1⟩ := tokens_cons htok
  have hne : command ≠ [] := by rintro rfl; simp [strtok] at h1
  have hcs : ¬ ("compute".toList = "clear".toList) := by decide
  have hsc : ¬ ("set".toList = "clear".toList) := by decide
  have hsp : ¬ ("set".toList = "compute".toList) := by decide
  rcases hbad with ⟨ha, hb, hc⟩ | ⟨rfl, hts⟩ | ⟨rfl, hts⟩ | ⟨rfl, hts⟩ | ⟨rfl, var, num, rfl, hnum⟩
  · simp only [tvm_process_command, hne, htake, h1, if_false, ha, hb, hc]
  · cases ts with
    | nil => exact absurd rfl hts
    | cons t1 ts1 =>
      obtain ⟨r2, h2, -⟩ := tokens_cons ht1
      simp only [tvm_process_command, hne, htake, h1, if_false, if_true, h2, Option.isSome_some]
  · cases ts with
    | nil =>
      simp only [tvm_process_command, hne, htake, h1, if_false, if_true, hcs,
        tokens_nil ht1]
    | cons t1 ts1 =>
      obtain ⟨r2, h2, ht2⟩ := tokens_cons ht1
      cases ts1 with
      | nil => simp at hts
      | cons t2 ts2 =>
        obtain ⟨r3, h3, -⟩ := tokens_cons ht2
        simp only [tvm_process_command, hne, htake, h1, if_false, if_true, hcs, h2, h3,
          Option.isSome_some]
  · cases ts with
    | nil =>
      simp only [tvm_process_command, hne, htake, h1, if_false, if_true, hsc, hsp,
        tokens_nil ht1]
    | cons t1 ts1 =>
      obtain ⟨r2, h2, ht2⟩ := tokens_cons ht1
      cases ts1 with
      | nil =>
        simp only [tvm_process_command, hne, htake, h1, if_false, if_true, hsc, hsp, h2,
          tokens_nil ht2]
      | cons t2 ts2 =>
        obtain ⟨r3, h3, ht3⟩ := tokens_cons ht2
        cases ts2 with
        | nil => simp at hts
        | cons t3 ts3 =>
          obtain ⟨r4, h4, -⟩ := tokens_cons ht3
          simp only [tvm_process_command, hne, htake, h1, if_false, if_true, hsc, hsp, h2, h3,
            h4, Option.isSome_some]
  · rw [process_set st command var num line_number (by rw [htake]; exact htok)]
    rw [if_pos hnum]

/-- The line `set n abc` under real arithmetic: `strtod` converts nothing of `abc`. -/
theorem invalid_command_witness :
    "set n abc".toList.length ≤ 39 ∧
    tokens "set n abc".toList = "set".toList :: ["n".toList, "abc".toList] ∧
    tvm_process_command (⟨0, 0, 0, 0, 0⟩ : FinancialState ℝ) "set n abc".toList 1
      = .die 1 "invalid command" ⟨0, 0, 0, 0, 0⟩ [] :=
  ⟨by decide, by decide,
    invalid_command ⟨0, 0, 0, 0, 0⟩ "set n abc".toList 1 "set".toList
      ["n".toList, "abc".toList] (by decide) (by decide)
      (Or.inr (Or.inr (Or.inr (Or.inr ⟨rfl, "n".toList, "abc".toList, rfl,
        Or.inl (by rw [real_strtod, strtodRat_abc])⟩))))⟩

/-- C6: `compute VAR` with `VAR` not exactly one of `n`, `i`, `PV`, `PMT`, `FV` ends with
"invalid variable name" in every state, for `tvm_compute_variable` and for every command
line of at most 39 bytes with the two tokens `compute VAR`; `compute XYZ` on line 1 reports
`line 1: invalid variable name`. -/
theorem compute_invalid_variable_name {α : Type} [CDouble α] (st : FinancialState α)
    (var : CString) (line_number : Nat)
    (hvar : var ∉ ["n".toList, "i".toList, "PV".toList, "PMT".toList, "FV".toList]) :
    tvm_compute_variable st var line_number
      = .die line_number "invalid variable name" st [] ∧
    (∀ command : CString, command.length ≤ 39 →
      tokens command = ["compute".toList, var] →
      tvm_process_command st command line_number
        = .die line_number "invalid variable name" st []) ∧
    tvm_process_command st "compute XYZ".toList 1
      = .die 1 "invalid variable name" st [] := by
  simp only [List.mem_cons, List.mem_singleton, List.not_mem_nil, or_false, not_or] at hvar
  obtain ⟨h1, h2, h3, h4, h5⟩ := hvar
  have key : ∀ (v : CString) (l : Nat), v ≠ "n".toList → v ≠ "i".toList → v ≠ "PV".toList →
      v ≠ "PMT".toList → v ≠ "FV".toList →
      tvm_compute_variable st v l = .die l "invalid variable name" st [] := by
    intro v l g1 g2 g3 g4 g5
    simp only [tvm_compute_variable, g1, g2, g3, g4, g5, if_false]
  refine ⟨key var line_number h1 h2 h3 h4 h5, ?_, ?_⟩
  · intro command hlen htok
    rw [process_compute st command var line_number
      (by rw [List.take_of_length_le hlen]; exact htok)]
    exact key var line_number h1 h2 h3 h4 h5
  · rw [process_compute st _ "XYZ".toList 1 (by decide)]
    exact key _ 1 (by decide) (by decide) (by decide) (by decide) (by decide)

/-- The name `pv` (lower case) is not a variable: names are case-sensitive. -/
theorem compute_invalid_variable_name_witness :
    "pv".toList ∉ ["n".toList, "i".toList, "PV".toList, "PMT".toList, "FV".toList] ∧
    (tvm_compute_variable (⟨360, 1 / 200, 100000, 0, 0⟩ : FinancialState ℝ) "pv".toList 2
      = .die 2 "invalid variable name" ⟨360, 1 / 200, 100000, 0, 0⟩ [] ∧
    (∀ command : CString, command.length ≤ 39 →
      tokens command = ["compute".toList, "pv".toList] →
      tvm_process_command (⟨360, 1 / 200, 100000, 0, 0⟩ : FinancialState ℝ) command 2
        = .die 2 "invalid variable name" ⟨360, 1 / 200, 100000, 0, 0⟩ []) ∧
    tvm_process_command (⟨360, 1 / 200, 100000, 0, 0⟩ : FinancialState ℝ)
      "compute XYZ".toList 1
      = .die 1 "invalid variable name" ⟨360, 1 / 200, 100000, 0, 0⟩ []) :=
  ⟨by decide, compute_invalid_variable_name ⟨360, 1 / 200, 100000, 0, 0⟩ "pv".toList 2
    (by decide)⟩

/-- C7: a command line without tokens, that is the empty line or a line of spaces and tabs
only, is ignored: `tvm_process_command` returns with the variables unchanged and nothing
printed. -/
theorem empty_line_ignored {α : Type} [CDouble α] (st : FinancialState α)
    (command : CString) (line_number : Nat) (htok : tokens command = []) :
    (∀ c ∈ command, c = ' ' ∨ c = '\t') ∧
    tvm_process_command st command line_number = .ok st [] := by
  have hall := (tokens_eq_nil_iff command).mp htok
  refine ⟨?_, ?_⟩
  · intro c hc
    have := hall c hc
    simpa [isDelim] using this
  · apply process_no_tokens
    rw [tokens_eq_nil_iff]
    intro c hc
    exact hall c (List.mem_of_mem_take hc)

/-- A line of spaces and tabs, under real arithmetic. -/
theorem empty_line_ignored_witness :
    tokens " \t ".toList = [] ∧
    ((∀ c ∈ " \t ".toList, c = ' ' ∨ c = '\t') ∧
    tvm_process_command (⟨360, 1 / 200, 100000, 0, 0⟩ : FinancialState ℝ) " \t ".toList 4
      = .ok ⟨360, 1 / 200, 100000, 0, 0⟩ []) :=
  ⟨by decide, empty_line_ignored ⟨360, 1 / 200, 100000, 0, 0⟩ " \t ".toList 4 (by decide)⟩

/-! ## The closed forms -/

/-- The command `compute PMT` for any arithmetic: with `i > 0.0` it ends with "solver did
not converge" exactly when the test `denom == 0.0` succeeds, and otherwise stores and
prints `i * (PV * a_to_n + FV) / denom`. -/
theorem compute_PMT_any_arithmetic {α : Type} [CDouble α] (st : FinancialState α)
    (line_number : Nat) (hi : st.i > 0.0) :
    tvm_compute_variable st "PMT".toList line_number
      = if (1.0 - pow (1.0 + st.i) st.n == (0.0 : α)) = true then
          .die line_number "solver did not converge" st []
        else
          .ok ⟨st.n, st.i, st.PV,
              st.i * (st.PV * pow (1.0 + st.i) st.n + st.FV) / (1.0 - pow (1.0 + st.i) st.n),
              st.FV⟩
            [⟨"PMT = %.2f\n",
              st.i * (st.PV * pow (1.0 + st.i) st.n + st.FV)
                / (1.0 - pow (1.0 + st.i) st.n)⟩] := by
  have h1 : ¬ ("PMT".toList = "n".toList) := by decide
  have h2 : ¬ ("PMT".toList = "i".toList) := by decide
  have h3 : ¬ ("PMT".toList = "PV".toList) := by decide
  have hc : check_i st line_number = .ok () := by simp [check_i, hi]
  simp only [tvm_compute_variable, h1, h2, h3, if_false, if_true, hc]

/-! ### Under real arithmetic -/

/-- The literals `0.0` and `1.0` over the reals. -/
theorem real_lit_zero : (0.0 : ℝ) = 0 := by norm_num
theorem real_lit_one : (1.0 : ℝ) = 1 := by norm_num

/-- With `i > 0`, `check_i` returns. -/
theorem check_i_real (st : FinancialState ℝ) (line_number : Nat) (hi : 0 < st.i) :
    check_i st line_number = .ok () := by
  simp [check_i, real_lit_zero, hi]

/-- The command `compute PV` under real arithmetic. -/
theorem compute_PV_real (st : FinancialState ℝ) (line_number : Nat) (hi : 0 < st.i) :
    tvm_compute_variable st "PV".toList line_number
      = .ok ⟨st.n, st.i,
          -st.PMT * (1 - (1 + st.i) ^ (-st.n)) / st.i - st.FV * (1 + st.i) ^ (-st.n),
          st.PMT, st.FV⟩
        [⟨"PV = %.2f\n",
          -st.PMT * (1 - (1 + st.i) ^ (-st.n)) / st.i - st.FV * (1 + st.i) ^ (-st.n)⟩] := by
  have h1 : ¬ ("PV".toList = "n".toList) := by decide
  have h2 : ¬ ("PV".toList = "i".toList) := by decide
  simp only [tvm_compute_variable, h1, h2, if_false, if_true, check_i_real st line_number hi,
    real_add, real_sub, real_mul, real_div, real_neg, real_lit, real_pow, real_lit_one]

/-- The command `compute FV` under real arithmetic. -/
theorem compute_FV_real (st : FinancialState ℝ) (line_number : Nat) (hi : 0 < st.i) :
    tvm_compute_variable st "FV".toList line_number
      = .ok ⟨st.n, st.i, st.PV, st.PMT,
          -st.PV * (1 + st.i) ^ st.n - st.PMT * ((1 + st.i) ^ st.n - 1) / st.i⟩
        [⟨"FV = %.2f\n",
          -st.PV * (1 + st.i) ^ st.n - st.PMT * ((1 + st.i) ^ st.n - 1) / st.i⟩] := by
  have h1 : ¬ ("FV".toList = "n".toList) := by decide
  have h2 : ¬ ("FV".toList = "i".toList) := by decide
  have h3 : ¬ ("FV".toList = "PV".toList) := by decide
  have h4 : ¬ ("FV".toList = "PMT".toList) := by decide
  simp only [tvm_compute_variable, h1, h2, h3, h4, if_false, if_true,
    check_i_real st line_number hi,
    real_add, real_sub, real_mul, real_div, real_neg, real_lit, real_pow, real_lit_one]

/-- The command `compute PMT` under real arithmetic, as a function of the test `denom == 0.0`. -/
theorem compute_PMT_real (st : FinancialState ℝ) (line_number : Nat) (hi : 0 < st.i) :
    tvm_compute_variable st "PMT".toList line_number
      = if 1 - (1 + st.i) ^ st.n = 0 then
          .die line_number "solver did not converge" st []
        else
          .ok ⟨st.n, st.i, st.PV,
              st.i * (st.PV * (1 + st.i) ^ st.n + st.FV) / (1 - (1 + st.i) ^ st.n), st.FV⟩
            [⟨"PMT = %.2f\n",
              st.i * (st.PV * (1 + st.i) ^ st.n + st.FV) / (1 - (1 + st.i) ^ st.n)⟩] := by
  have h1 : ¬ ("PMT".toList = "n".toList) := by decide
  have h2 : ¬ ("PMT".toList = "i".toList) := by decide
  have h3 : ¬ ("PMT".toList = "PV".toList) := by decide
  simp only [tvm_compute_variable, h1, h2, h3, if_false, if_true,
    check_i_real st line_number hi,
    real_add, real_sub, real_mul, real_div, real_neg, real_lit, real_pow, real_lit_one,
    real_lit_zero, real_beq, decide_eq_true_eq]

/-- With `i > 0`, `(1+i)^n = 1` only for `n = 0`. -/
theorem one_sub_rpow_eq_zero_iff (i n : ℝ) (hi : 0 < i) : 1 - (1 + i) ^ n = 0 ↔ n = 0 := by
  have ha : (1 : ℝ) < 1 + i := by linarith
  have hl : 0 < Real.log (1 + i) := Real.log_pos ha
  rw [sub_eq_zero, eq_comm, Real.rpow_def_of_pos (by linarith), Real.exp_eq_one_iff,
    mul_eq_zero]
  constructor
  · rintro (h | h)
    · linarith
    · exact h
  · exact Or.inr

/-! ## The driver, one line at a time -/

/-- On a complete line that fits the buffer, `fgets` stores the line and its newline. -/
theorem fgetsLine_line (k : Nat) (line rest : List Char) (hlen : line.length < k)
    (hnl : '\n' ∉ line) : fgetsLine k (line ++ '\n' :: rest) = line ++ ['\n'] := by
  induction line generalizing k with
  | nil =>
    cases k with
    | zero => simp at hlen
    | succ k => simp [fgetsLine]
  | cons c cs ih =>
    cases k with
    | zero => simp at hlen
    | succ k =>
      have hc : c ≠ '\n' := fun h => hnl (by simp [h])
      have hcs : '\n' ∉ cs := fun h => hnl (by simp [h])
      simp only [List.length_cons, Nat.add_lt_add_iff_right] at hlen
      simp [fgetsLine, hc, ih k hlen hcs]

/-- Truncating a line read by `fgets` removes its newline (the line holds no NUL). -/
theorem truncate_at_newline_line (line : List Char) (hnl : '\n' ∉ line)
    (hnul : ∀ c ∈ line, c.toNat ≠ 0) :
    truncate_at_newline (line ++ ['\n']) = line := by
  induction line with
  | nil => simp [truncate_at_newline]
  | cons c cs ih =>
    have hc : c ≠ '\n' := fun h => hnl (by simp [h])
    have hcs : '\n' ∉ cs := fun h => hnl (by simp [h])
    have hc0 : c.toNat ≠ 0 := hnul c (by simp)
    have := ih hcs (fun d hd => hnul d (by simp [hd]))
    simp only [truncate_at_newline] at this ⊢
    simp [hc, hc0, this]

/-- One turn of the loop of `main` on a complete line of at most 38 characters, none of
them NUL, while the line counter is below `INT_MAX`. -/
theorem main_loop_line {α : Type} [CDouble α] (st : FinancialState α)
    (out : List (Printed α)) (line_number : Nat) (line rest : List Char)
    (hlen : line.length ≤ 38) (hnl : '\n' ∉ line) (hnul : ∀ c ∈ line, c.toNat ≠ 0)
    (hcount : line_number < 2147483647) :
    main_loop st out line_number (line ++ '\n' :: rest) =
      match tvm_process_command st line (line_number + 1) with
      | .die l msg st1 out1 => some (.die l msg st1 (out ++ out1))
      | .ok st1 out1 => main_loop st1 (out ++ out1) (line_number + 1) rest := by
  have hf : fgetsLine 39 (line ++ '\n' :: rest) = line ++ ['\n'] :=
    fgetsLine_line 39 line rest (by omega) hnl
  cases hl : line ++ '\n' :: rest with
  | nil => simp at hl
  | cons c cs =>
    rw [main_loop, if_neg (by omega)]
    simp only [← hl, hf, truncate_at_newline_line line hnl hnul]
    have hd : List.drop (line ++ ['\n']).length (line ++ '\n' :: rest) = rest := by
      have : line ++ '\n' :: rest = (line ++ ['\n']) ++ rest := by simp
      rw [this, List.drop_left]
    rw [hd]

theorem strtodRat_0_05 : strtodRat "0.05".toList = (1/20, 4) := by
  simp [strtodRat, takeSign, digitsVal, digitVal, takeExponent, isSpaceC]; norm_num

/-! ## The Newton iteration for `n` under real arithmetic -/

/-- The literals `1e-8` and `360.0` over the reals. -/
theorem real_lit_tol : (1e-8 : ℝ) = 1 / 100000000 := by norm_num
theorem real_lit_360 : (360.0 : ℝ) = 360 := by norm_num

/-- One turn of the loop of `newton_raphson_n` under real arithmetic (every value is
finite). -/
theorem newton_raphson_n_loop_succ_real (st : FinancialState ℝ) (line_number k : Nat) (x : ℝ) :
    newton_raphson_n_loop st line_number (k + 1) x =
      if fn_prime st x = 0 then .error (line_number, "solver did not converge")
      else if |fn st x / fn_prime st x| < 1 / 100000000 then
        if x - fn st x / fn_prime st x ≤ 0 then
          .error (line_number, "solver did not converge")
        else .ok (⌈x - fn st x / fn_prime st x⌉ : ℝ)
      else newton_raphson_n_loop st line_number k (x - fn st x / fn_prime st x) := by
  rw [newton_raphson_n_loop]
  simp only [real_isfinite, Bool.not_true, Bool.false_or, real_beq, real_lit_zero,
    decide_eq_true_eq, real_div, real_sub, real_fabs, real_lt, real_le, real_ceil,
    real_lit, real_lit_tol, Bool.false_eq_true, if_false]

/-- The function `fn` under real arithmetic. -/
theorem fn_real (st : FinancialState ℝ) (x : ℝ) :
    fn st x = (st.PV + st.PMT / st.i) * (1 + st.i) ^ x - st.PMT / st.i + st.FV := by
  simp only [fn, real_add, real_sub, real_mul, real_div, real_pow, real_lit, real_lit_one]

/-- The function `fn_prime` under real arithmetic. -/
theorem fn_prime_real (st : FinancialState ℝ) (x : ℝ) :
    fn_prime st x = Real.log (1 + st.i) * (st.PV + st.PMT / st.i) * (1 + st.i) ^ x := by
  simp only [fn_prime, real_add, real_mul, real_div, real_pow, real_log, real_lit,
    real_lit_one]

/-- The Newton step of `fn` in terms of the distance to a root `r`:
`fn(x)/fn'(x) = (1 - exp(-L (x - r))) / L` with `L = ln(1+i)`. -/
theorem newton_step_real (st : FinancialState ℝ) (r x : ℝ) (hi : 0 < st.i)
    (hroot : fn st r = 0) (hfp : fn_prime st x ≠ 0) :
    fn st x / fn_prime st x
      = (1 - Real.exp (-(Real.log (1 + st.i) * (x - r)))) / Real.log (1 + st.i) := by
  have ha : (0 : ℝ) < 1 + st.i := by linarith
  have hL : 0 < Real.log (1 + st.i) := Real.log_pos (by linarith)
  rw [fn_prime_real] at hfp
  rw [fn_real] at hroot
  have hT : st.PV + st.PMT / st.i ≠ 0 := by
    intro h; apply hfp; rw [h]; ring
  have hax : 0 < (1 + st.i) ^ x := Real.rpow_pos_of_pos ha x
  have hexp : Real.exp (-(Real.log (1 + st.i) * (x - r))) = (1 + st.i) ^ r / (1 + st.i) ^ x := by
    rw [Real.rpow_def_of_pos ha, Real.rpow_def_of_pos ha, ← Real.exp_sub]
    congr 1; ring
  rw [fn_real, fn_prime_real, hexp]
  have h2 : (st.PV + st.PMT / st.i) * (1 + st.i) ^ x - st.PMT / st.i + st.FV
      = (st.PV + st.PMT / st.i) * ((1 + st.i) ^ x - (1 + st.i) ^ r) := by
    linear_combination hroot
  rw [h2]
  generalize st.PV + st.PMT / st.i = T at hT
  generalize (1 + st.i) ^ x = A at hax
  generalize (1 + st.i) ^ r = B
  generalize Real.log (1 + st.i) = L at hL
  have hA : A ≠ 0 := hax.ne'
  have hL0 : L ≠ 0 := hL.ne'
  field_simp
  ring

/-- When the loop of `newton_raphson_n` returns a value, it is the ceiling of a last
iterate `y - fn(y)/fn'(y)` that is positive and whose step is below the tolerance. -/
theorem newton_raphson_n_loop_ok_real (st : FinancialState ℝ) (line_number : Nat) :
    ∀ (k : Nat) (x v : ℝ), newton_raphson_n_loop st line_number k x = .ok v →
      ∃ y : ℝ, fn_prime st y ≠ 0 ∧ |fn st y / fn_prime st y| < 1 / 100000000 ∧
        0 < y - fn st y / fn_prime st y ∧ v = (⌈y - fn st y / fn_prime st y⌉ : ℝ) := by
  intro k
  induction k with
  | zero =>
    intro x v h
    simp [newton_raphson_n_loop] at h
  | succ k ih =>
    intro x v h
    rw [newton_raphson_n_loop_succ_real] at h
    by_cases hfp : fn_prime st x = 0
    · simp [hfp] at h
    · rw [if_neg hfp] at h
      by_cases hd : |fn st x / fn_prime st x| < 1 / 100000000
      · rw [if_pos hd] at h
        by_cases hx : x - fn st x / fn_prime st x ≤ 0
        · simp [hx] at h
        · rw [if_neg hx] at h
          refine ⟨x, hfp, hd, not_le.mp hx, ?_⟩
          simp only [Except.ok.injEq] at h
          exact h.symm
      · rw [if_neg hd] at h
        exact ih _ v h

/-- A Newton iterate of `fn` is never below the root, and once the step is below the
tolerance it is within `2e-16 * i` of it (for `i ≤ 5e7`). -/
theorem newton_iterate_near_root (st : FinancialState ℝ) (r y : ℝ) (hi : 0 < st.i)
    (hroot : fn st r = 0) (hfp : fn_prime st y ≠ 0) :
    r ≤ y - fn st y / fn_prime st y ∧
    (st.i ≤ 50000000 → |fn st y / fn_prime st y| < 1 / 100000000 →
      y - fn st y / fn_prime st y ≤ r + 2 / 10 ^ 16 * st.i) := by
  have hL : 0 < Real.log (1 + st.i) := Real.log_pos (by linarith)
  have hLi : Real.log (1 + st.i) ≤ st.i := by
    have := Real.log_le_sub_one_of_pos (show (0 : ℝ) < 1 + st.i by linarith)
    linarith
  rw [newton_step_real st r y hi hroot hfp]
  generalize Real.log (1 + st.i) = L at hL hLi
  obtain ⟨t, ht⟩ : ∃ t : ℝ, t = L * (y - r) := ⟨_, rfl⟩
  have hy : y = r + t / L := by rw [ht]; field_simp
  rw [← ht, hy]
  have he1 : -t + 1 ≤ Real.exp (-t) := Real.add_one_le_exp (-t)
  have he2 : t + 1 ≤ Real.exp t := Real.add_one_le_exp t
  have hpos : 0 < Real.exp (-t) := Real.exp_pos _
  have hmul : Real.exp t * Real.exp (-t) = 1 := by rw [← Real.exp_add]; simp
  constructor
  · have : 0 ≤ (t - (1 - Real.exp (-t))) / L := div_nonneg (by linarith) hL.le
    have e : r + t / L - (1 - Real.exp (-t)) / L = r + (t - (1 - Real.exp (-t))) / L := by
      field_simp; ring
    rw [e]; linarith
  · intro hi2 hd
    generalize Real.exp (-t) = q at he1 hpos hmul hd
    generalize Real.exp t = p at he2 hmul
    rw [abs_div, abs_of_pos hL, div_lt_iff₀ hL] at hd
    have hw : |1 - q| < 1 / 2 := by
      calc |1 - q| < 1 / 100000000 * L := hd
        _ ≤ 1 / 100000000 * 50000000 := by
          apply mul_le_mul_of_nonneg_left (by linarith) (by norm_num)
        _ = 1 / 2 := by norm_num
    have hq : 1 / 2 < q := by
      have := (abs_lt.mp hw).2; linarith
    have hp : p = 1 / q := by field_simp; linarith
    -- t ≤ 1/q - 1, hence t - (1 - q) ≤ (1-q)^2 / q ≤ 2 (1-q)^2
    have ht1 : t - (1 - q) ≤ 2 * (1 - q) ^ 2 := by
      have h1 : t ≤ 1 / q - 1 := by rw [hp] at he2; linarith
      have h2 : 1 / q - 1 - (1 - q) = (1 - q) ^ 2 / q := by field_simp; ring
      have h3 : (1 - q) ^ 2 / q ≤ 2 * (1 - q) ^ 2 := by
        rw [div_le_iff₀ (by linarith)]
        nlinarith [sq_nonneg (1 - q)]
      linarith
    have hsq : (1 - q) ^ 2 < (1 / 100000000 * L) ^ 2 := by
      have := sq_lt_sq' (by linarith [(abs_lt.mp hd).1]) (abs_lt.mp hd).2
      exact this
    have e : r + t / L - (1 - q) / L = r + (t - (1 - q)) / L := by
      field_simp; ring
    rw [e]
    have h4 : (t - (1 - q)) / L ≤ 2 / 10 ^ 16 * L := by
      rw [div_le_iff₀ hL]
      nlinarith
    nlinarith

/-! ## Claims about `set`, errors and atomicity -/

theorem strtodRat_m1e9 : strtodRat "-1e9".toList = (-1000000000, 4) := by
  simp [strtodRat, takeSign, digitsVal, digitVal, takeExponent, isSpaceC]; norm_num

/-- C13: `set VAR v` with `VAR` one of `PV`, `PMT`, `FV` succeeds for every value `v`
(negative, zero, non-finite, not comparable: no operation of the arithmetic is applied to
it), stores `v` in `VAR`, prints nothing and leaves the other four variables unchanged.
Under real arithmetic the line `set PV -1e9` stores -1000000000. -/
theorem set_PV_PMT_FV_unvalidated :
    (∀ (α : Type) [CDouble α] (st : FinancialState α) (v : α) (line_number : Nat),
      tvm_set_variable st "PV".toList v line_number
        = .ok ⟨st.n, st.i, v, st.PMT, st.FV⟩ [] ∧
      tvm_set_variable st "PMT".toList v line_number
        = .ok ⟨st.n, st.i, st.PV, v, st.FV⟩ [] ∧
      tvm_set_variable st "FV".toList v line_number
        = .ok ⟨st.n, st.i, st.PV, st.PMT, v⟩ []) ∧
    (∀ st : FinancialState ℝ,
      tvm_process_command st "set PV -1e9".toList 1
        = .ok ⟨st.n, st.i, -1000000000, st.PMT, st.FV⟩ []) := by
  refine ⟨?_, ?_⟩
  · intro α _ st v line_number
    refine ⟨?_, ?_, ?_⟩ <;> simp [tvm_set_variable]
  · intro st
    rw [process_set st _ "PV".toList "-1e9".toList 1 (by decide)]
    simp only [real_strtod, strtodRat_m1e9]
    simp [tvm_set_variable]

/-- An error of the loop of `newton_raphson_n` is "solver did not converge" on the current
line. -/
theorem newton_raphson_n_loop_error {α : Type} [CDouble α] (st : FinancialState α)
    (line_number : Nat) :
    ∀ (k : Nat) (x : α) (e : Nat × String),
      newton_raphson_n_loop st line_number k x = .error e →
      e = (line_number, "solver did not converge") := by
  intro k
  induction k with
  | zero =>
    intro x e h
    simp only [newton_raphson_n_loop, Except.error.injEq] at h
    exact h.symm
  | succ k ih =>
    intro x e h
    rw [newton_raphson_n_loop] at h
    simp only at h
    split at h
    · simp only [Except.error.injEq] at h; exact h.symm
    · split at h
      · simp only [Except.error.injEq] at h; exact h.symm
      · split at h
        · split at h
          · simp only [Except.error.injEq] at h; exact h.symm
          · simp at h
        · exact ih _ e h

/-- An error of the loop of `newton_raphson_i` is "solver did not converge" on the current
line. -/
theorem newton_raphson_i_loop_error {α : Type} [CDouble α] (st : FinancialState α)
    (line_number : Nat) :
    ∀ (k : Nat) (x : α) (e : Nat × String),
      newton_raphson_i_loop st line_number k x = .error e →
      e = (line_number, "solver did not converge") := by
  intro k
  induction k with
  | zero =>
    intro x e h
    simp only [newton_raphson_i_loop, Except.error.injEq] at h
    exact h.symm
  | succ k ih =>
    intro x e h
    rw [newton_raphson_i_loop] at h
    simp only at h
    split at h
    · simp only [Except.error.injEq] at h; exact h.symm
    · split at h
      · simp only [Except.error.injEq] at h; exact h.symm
      · split at h
        · simp only [Except.error.injEq] at h; exact h.symm
        · split at h
          · split at h
            · simp only [Except.error.injEq] at h; exact h.symm
            · simp at h
          · exact ih _ e h

/-- When `tvm_compute_variable` ends in `die_line`, no variable was assigned and nothing was
printed; the line is the current one and the message one of three. -/
theorem tvm_compute_variable_die {α : Type} [CDouble α] (st st1 : FinancialState α)
    (name : CString) (line_number l : Nat) (msg : String) (out : List (Printed α))
    (h : tvm_compute_variable st name line_number = .die l msg st1 out) :
    st1 = st ∧ out = [] ∧ l = line_number ∧
    (msg = "i must be positive" ∨ msg = "solver did not converge" ∨
      msg = "invalid variable name") := by
  unfold tvm_compute_variable at h
  split at h
  · cases hn : newton_raphson_n st line_number with
    | ok v => rw [hn] at h; simp at h
    | error e =>
      rw [hn] at h
      simp only [Outcome.die.injEq] at h
      obtain ⟨h1, h2, h3, h4⟩ := h
      unfold newton_raphson_n at hn
      simp only at hn
      split at hn
      · simp only [Except.error.injEq] at hn
        subst hn
        exact ⟨h3.symm, h4.symm, h1.symm, Or.inl h2.symm⟩
      · have := newton_raphson_n_loop_error st line_number _ _ e hn
        subst this
        exact ⟨h3.symm, h4.symm, h1.symm, Or.inr (Or.inl h2.symm)⟩
  · split at h
    · cases hn : newton_raphson_i st line_number with
      | ok v => rw [hn] at h; simp at h
      | error e =>
        rw [hn] at h
        simp only [Outcome.die.injEq] at h
        obtain ⟨h1, h2, h3, h4⟩ := h
        have := newton_raphson_i_loop_error st line_number _ _ e hn
        subst this
        exact ⟨h3.symm, h4.symm, h1.symm, Or.inr (Or.inl h2.symm)⟩
    · have hc : ∀ e, check_i st line_number = .error e →
          e = (line_number, "i must be positive") := by
        intro e he
        unfold check_i at he
        split at he
        · simp only [Except.error.injEq] at he; exact he.symm
        · simp at he
      split at h
      · cases hn : check_i st line_number with
        | ok v => rw [hn] at h; simp at h
        | error e =>
          rw [hn] at h
          simp only [Outcome.die.injEq] at h
          obtain ⟨h1, h2, h3, h4⟩ := h
          have := hc e hn
          subst this
          exact ⟨h3.symm, h4.symm, h1.symm, Or.inl h2.symm⟩
      · split at h
        · cases hn : check_i st line_number with
          | ok v =>
            rw [hn] at h
            simp only at h
            split at h
            · simp only [Outcome.die.injEq] at h
              exact ⟨h.2.2.1.symm, h.2.2.2.symm, h.1.symm, Or.inr (Or.inl h.2.1.symm)⟩
            · simp at h
          | error e =>
            rw [hn] at h
            simp only [Outcome.die.injEq] at h
            obtain ⟨h1, h2, h3, h4⟩ := h
            have := hc e hn
            subst this
            exact ⟨h3.symm, h4.symm, h1.symm, Or.inl h2.symm⟩
        · split at h
          · cases hn : check_i st line_number with
            | ok v => rw [hn] at h; simp at h
            | error e =>
              rw [hn] at h
              simp only [Outcome.die.injEq] at h
              obtain ⟨h1, h2, h3, h4⟩ := h
              have := hc e hn
              subst this
              exact ⟨h3.symm, h4.symm, h1.symm, Or.inl h2.symm⟩
          · simp only [Outcome.die.injEq] at h
            exact ⟨h.2.2.1.symm, h.2.2.2.symm, h.1.symm, Or.inr (Or.inr h.2.1.symm)⟩

/-- When `tvm_set_variable` ends in `die_line`, no variable was assigned; the line is the
current one and the message one of three. -/
theorem tvm_set_variable_die {α : Type} [CDouble α] (st st1 : FinancialState α)
    (name : CString) (v : α) (line_number l : Nat) (msg : String) (out : List (Printed α))
    (h : tvm_set_variable st name v line_number = .die l msg st1 out) :
    st1 = st ∧ out = [] ∧ l = line_number ∧
    (msg = "n must be a positive integer" ∨ msg = "i must be positive" ∨
      msg = "invalid variable name") := by
  unfold tvm_set_variable at h
  split at h
  · split at h
    · simp only [Outcome.die.injEq] at h
      exact ⟨h.2.2.1.symm, h.2.2.2.symm, h.1.symm, Or.inl h.2.1.symm⟩
    · simp at h
  · split at h
    · split at h
      · simp only [Outcome.die.injEq] at h
        exact ⟨h.2.2.1.symm, h.2.2.2.symm, h.1.symm, Or.inr (Or.inl h.2.1.symm)⟩
      · simp at h
    · split at h
      · simp at h
      · split at h
        · simp at h
        · split at h
          · simp at h
          · simp only [Outcome.die.injEq] at h
            exact ⟨h.2.2.1.symm, h.2.2.2.symm, h.1.symm, Or.inr (Or.inr h.2.1.symm)⟩

/-- C18: atomicity on error.  Whenever `tvm_process_command` ends in `die_line`, for
whatever command line and arithmetic, the variables at that moment are those before the
command, nothing has been printed by the command, the reported line is the current one and
the message is one of the five. -/
theorem failure_leaves_state_unchanged {α : Type} [CDouble α] (st st1 : FinancialState α)
    (command : CString) (line_number l : Nat) (msg : String) (out : List (Printed α))
    (h : tvm_process_command st command line_number = .die l msg st1 out) :
    st1 = st ∧ out = [] ∧ l = line_number ∧
    msg ∈ ["invalid command", "invalid variable name", "i must be positive",
      "n must be a positive integer", "solver did not converge"] := by
  have hinv : ∀ (l1 : Nat) (m : String) (s1 : FinancialState α) (o : List (Printed α)),
      Outcome.die line_number "invalid command" st [] = Outcome.die l1 m s1 o →
      s1 = st ∧ o = [] ∧ l1 = line_number ∧
      m ∈ ["invalid command", "invalid variable name", "i must be positive",
        "n must be a positive integer", "solver did not converge"] := by
    intro l1 m s1 o e
    simp only [Outcome.die.injEq] at e
    obtain ⟨e1, e2, e3, e4⟩ := e
    subst e1 e2 e3 e4
    simp
  unfold tvm_process_command at h
  split at h
  · simp at h
  · simp only at h
    split at h
    · simp at h
    · split at h
      · split at h
        · exact hinv _ _ _ _ h
        · simp at h
      · split at h
        · split at h
          · exact hinv _ _ _ _ h
          · split at h
            · exact hinv _ _ _ _ h
            · obtain ⟨h1, h2, h3, h4⟩ := tvm_compute_variable_die _ _ _ _ _ _ _ h
              refine ⟨h1, h2, h3, ?_⟩
              rcases h4 with h4 | h4 | h4 <;> simp [h4]
        · split at h
          · split at h
            · exact hinv _ _ _ _ h
            · split at h
              · exact hinv _ _ _ _ h
              · split at h
                · exact hinv _ _ _ _ h
                · split at h
                  · exact hinv _ _ _ _ h
                  · obtain ⟨h1, h2, h3, h4⟩ := tvm_set_variable_die _ _ _ _ _ _ _ _ h
                    refine ⟨h1, h2, h3, ?_⟩
                    rcases h4 with h4 | h4 | h4 <;> simp [h4]
          · exact hinv _ _ _ _ h

/-- The line `set n 5.5` under real arithmetic fails and leaves a state with every
variable set as it was. -/
theorem failure_leaves_state_unchanged_witness :
    tvm_process_command (⟨360, 1 / 200, 100000, -600, 7⟩ : FinancialState ℝ)
        "set n 5.5".toList 4
      = .die 4 "n must be a positive integer" ⟨360, 1 / 200, 100000, -600, 7⟩ [] ∧
    ((⟨360, 1 / 200, 100000, -600, 7⟩ : FinancialState ℝ) = ⟨360, 1 / 200, 100000, -600, 7⟩ ∧
      ([] : List (Printed ℝ)) = [] ∧ 4 = 4 ∧
      "n must be a positive integer" ∈ ["invalid command", "invalid variable name",
        "i must be positive", "n must be a positive integer", "solver did not converge"]) := by
  have h : tvm_process_command (⟨360, 1 / 200, 100000, -600, 7⟩ : FinancialState ℝ)
      "set n 5.5".toList 4
      = .die 4 "n must be a positive integer" ⟨360, 1 / 200, 100000, -600, 7⟩ [] := by
    rw [process_set _ _ "n".toList "5.5".toList 4 (by decide)]
    simp only [real_strtod, strtodRat_5_5]
    have hfl : ⌊(11/2 : ℝ)⌋ = 5 := by
      rw [Int.floor_eq_iff]; norm_num
    simp [tvm_set_variable, is_integer_double, hfl]
    norm_num
  exact ⟨h, failure_leaves_state_unchanged _ _ _ _ _ _ _ h⟩

/-- C17 fails as stated: the numeric check comes before the name check.  Under real
arithmetic the line `set XYZ abc`, whose `VAR` is none of the five names, ends with
"invalid command", not with "invalid variable name". -/
theorem set_unknown_variable_bad_value :
    "XYZ".toList ∉ ["n".toList, "i".toList, "PV".toList, "PMT".toList, "FV".toList] ∧
    tokens "set XYZ abc".toList = ["set".toList, "XYZ".toList, "abc".toList] ∧
    tvm_process_command (⟨0, 0, 0, 0, 0⟩ : FinancialState ℝ) "set XYZ abc".toList 1
      = .die 1 "invalid command" ⟨0, 0, 0, 0, 0⟩ [] ∧
    tvm_process_command (⟨0, 0, 0, 0, 0⟩ : FinancialState ℝ) "set XYZ abc".toList 1
      ≠ .die 1 "invalid variable name" ⟨0, 0, 0, 0, 0⟩ [] := by
  have h : tvm_process_command (⟨0, 0, 0, 0, 0⟩ : FinancialState ℝ) "set XYZ abc".toList 1
      = .die 1 "invalid command" ⟨0, 0, 0, 0, 0⟩ [] := by
    rw [process_set _ _ "XYZ".toList "abc".toList 1 (by decide)]
    simp only [real_strtod, strtodRat_abc]
    simp
  refine ⟨by decide, by decide, h, ?_⟩
  rw [h]
  simp

/-- C17, amended: for a command line of at most 39 bytes with the three tokens
`set VAR VALUE` whose `VAR` is none of `n`, `i`, `PV`, `PMT`, `FV`, the command ends with
"invalid variable name" when `strtod` converts the whole of `VALUE`, and with "invalid
command" when it does not; in both cases no variable changes.  `tvm_set_variable` itself
reports "invalid variable name" for such a name, whatever the value. -/
theorem set_invalid_variable_name {α : Type} [CDouble α] (st : FinancialState α)
    (command var num : CString) (line_number : Nat) (hlen : command.length ≤ 39)
    (htok : tokens command = ["set".toList, var, num])
    (hvar : var ∉ ["n".toList, "i".toList, "PV".toList, "PMT".toList, "FV".toList]) :
    tvm_process_command st command line_number =
      (if (strtod (α := α) num).2 = 0 ∨ (strtod (α := α) num).2 ≠ num.length then
        .die line_number "invalid command" st []
      else .die line_number "invalid variable name" st []) ∧
    (∀ v : α, tvm_set_variable st var v line_number
      = .die line_number "invalid variable name" st []) := by
  simp only [List.mem_cons, List.mem_singleton, List.not_mem_nil, or_false, not_or] at hvar
  obtain ⟨h1, h2, h3, h4, h5⟩ := hvar
  have hset : ∀ v : α, tvm_set_variable st var v line_number
      = .die line_number "invalid variable name" st [] := by
    intro v
    simp only [tvm_set_variable, h1, h2, h3, h4, h5, if_false]
  refine ⟨?_, hset⟩
  rw [process_set st command var num line_number
    (by rw [List.take_of_length_le hlen]; exact htok), hset]

/-- The lines `set XYZ 5` under real arithmetic: the value converts, the name is
rejected. -/
theorem set_invalid_variable_name_witness :
    "set XYZ 5".toList.length ≤ 39 ∧
    tokens "set XYZ 5".toList = ["set".toList, "XYZ".toList, "5".toList] ∧
    "XYZ".toList ∉ ["n".toList, "i".toList, "PV".toList, "PMT".toList, "FV".toList] ∧
    tvm_process_command (⟨0, 0, 0, 0, 0⟩ : FinancialState ℝ) "set XYZ 5".toList 1
      = .die 1 "invalid variable name" ⟨0, 0, 0, 0, 0⟩ [] := by
  have h := (set_invalid_variable_name (⟨0, 0, 0, 0, 0⟩ : FinancialState ℝ)
    "set XYZ 5".toList "XYZ".toList "5".toList 1 (by decide) (by decide) (by decide)).1
  rw [if_neg (by rw [real_strtod, strtodRat_5]; decide)] at h
  exact ⟨by decide, by decide, by decide, h⟩

/-! ## The derivatives used by the solvers -/

/-- The function `fi` under real arithmetic. -/
theorem fi_real (st : FinancialState ℝ) (x : ℝ) :
    fi st x = (st.PV + st.PMT / x) * (1 + x) ^ st.n - st.PMT / x + st.FV := by
  simp only [fi, real_add, real_sub, real_mul, real_div, real_pow, real_lit, real_lit_one]

/-- The function `fi_prime` under real arithmetic. -/
theorem fi_prime_real (st : FinancialState ℝ) (x : ℝ) :
    fi_prime st x = st.n * (st.PV + st.PMT / x) * (1 + x) ^ (st.n - 1)
      - st.PMT * ((1 + x) ^ st.n + 1) / (x * x) := by
  simp only [fi_prime, real_add, real_sub, real_mul, real_div, real_pow, real_lit,
    real_lit_one]

/-- C16: `fn_prime` is the derivative of `fn`.  Under real arithmetic, for `i > 0` and
every `x`, the function `fn` (that is `x ↦ (PV + PMT/i)*(1+i)^x - PMT/i + FV`) has at `x`
the derivative `fn_prime x = ln(1+i)*(PV + PMT/i)*(1+i)^x`. -/
theorem fn_prime_is_derivative (st : FinancialState ℝ) (x : ℝ) (hi : 0 < st.i) :
    HasDerivAt (fun y => fn st y) (fn_prime st x) x ∧
    fn_prime st x = Real.log (1 + st.i) * (st.PV + st.PMT / st.i) * (1 + st.i) ^ x ∧
    (∀ y, fn st y = (st.PV + st.PMT / st.i) * (1 + st.i) ^ y - st.PMT / st.i + st.FV) := by
  refine ⟨?_, fn_prime_real st x, fn_real st⟩
  have ha : (0 : ℝ) < 1 + st.i := by linarith
  have h1 : HasDerivAt (fun y : ℝ => (1 + st.i) ^ y)
      ((1 + st.i) ^ x * Real.log (1 + st.i)) x :=
    (Real.hasStrictDerivAt_const_rpow ha x).hasDerivAt
  have h2 := ((h1.const_mul (st.PV + st.PMT / st.i)).sub_const (st.PMT / st.i)).add_const
    st.FV
  have e : (fun y => fn st y)
      = fun y => (st.PV + st.PMT / st.i) * (1 + st.i) ^ y - st.PMT / st.i + st.FV := by
    funext y; exact fn_real st y
  rw [e, fn_prime_real]
  convert h2 using 1
  ring

/-- The equation of a 30-year loan at `i = 0.005`, at the initial guess 360. -/
theorem fn_prime_is_derivative_witness :
    (0 : ℝ) < (⟨0, 1 / 200, 100000, -600, 0⟩ : FinancialState ℝ).i ∧
    HasDerivAt (fun y => fn (⟨0, 1 / 200, 100000, -600, 0⟩ : FinancialState ℝ) y)
      (fn_prime (⟨0, 1 / 200, 100000, -600, 0⟩ : FinancialState ℝ) 360) 360 :=
  ⟨by norm_num, (fn_prime_is_derivative ⟨0, 1 / 200, 100000, -600, 0⟩ 360 (by norm_num)).1⟩

/-- The derivative of `fi` at `x > 0`: the second term has `(1+x)^n - 1` where `fi_prime`
has `(1+x)^n + 1`. -/
theorem fi_hasDerivAt (st : FinancialState ℝ) (x : ℝ) (hx : 0 < x) :
    HasDerivAt (fun y => fi st y)
      (st.n * (st.PV + st.PMT / x) * (1 + x) ^ (st.n - 1)
        - st.PMT * ((1 + x) ^ st.n - 1) / (x * x)) x := by
  have hx0 : x ≠ 0 := hx.ne'
  have h1 : HasDerivAt (fun y : ℝ => (1 + y) ^ st.n) (1 * st.n * (1 + x) ^ (st.n - 1)) x :=
    ((hasDerivAt_id x).const_add 1).rpow_const (Or.inl (by simp; linarith))
  have h2 : HasDerivAt (fun y : ℝ => st.PMT / y) (-st.PMT / x ^ 2) x := by
    have := (hasDerivAt_inv hx0).const_mul st.PMT
    convert this using 1
    field_simp
  have h3 : HasDerivAt (fun y : ℝ => st.PV + st.PMT / y) (-st.PMT / x ^ 2) x :=
    h2.const_add st.PV
  have h4 := ((h3.mul h1).sub h2).add_const st.FV
  have e : (fun y => fi st y)
      = fun y => (st.PV + st.PMT / y) * (1 + y) ^ st.n - st.PMT / y + st.FV := by
    funext y; exact fi_real st y
  rw [e]
  convert h4 using 1
  field_simp
  ring

/-- For `x > 0`, `fi_prime x` is the derivative of `fi` at `x` minus `2*PMT/x^2`; so it is
the derivative exactly when `PMT = 0`. -/
theorem fi_prime_is_derivative_iff (st : FinancialState ℝ) (x : ℝ) (hx : 0 < x) :
    HasDerivAt (fun y => fi st y) (fi_prime st x + 2 * st.PMT / (x * x)) x ∧
    (HasDerivAt (fun y => fi st y) (fi_prime st x) x ↔ st.PMT = 0) := by
  have hd := fi_hasDerivAt st x hx
  have hx2 : x * x ≠ 0 := (mul_pos hx hx).ne'
  have e : fi_prime st x + 2 * st.PMT / (x * x)
      = st.n * (st.PV + st.PMT / x) * (1 + x) ^ (st.n - 1)
        - st.PMT * ((1 + x) ^ st.n - 1) / (x * x) := by
    rw [fi_prime_real]; field_simp; ring
  rw [e]
  refine ⟨hd, ?_⟩
  constructor
  · intro h
    have hu := h.unique hd
    rw [← e] at hu
    have h2 : 2 * st.PMT / (x * x) = 0 := by linarith
    rcases div_eq_zero_iff.mp h2 with h3 | h3
    · linarith
    · exact absurd h3 hx2
  · intro h
    have e2 : fi_prime st x = st.n * (st.PV + st.PMT / x) * (1 + x) ^ (st.n - 1)
        - st.PMT * ((1 + x) ^ st.n - 1) / (x * x) := by
      rw [← e, h]; simp
    rw [e2]; exact hd

/-- C15 fails on the code: with `n = 1`, `PV = 0`, `PMT = 1`, `FV = 0` the function `fi` is
constantly 1 for `x > 0`, so its derivative at the initial guess `x = 0.0025` of
`newton_raphson_i` is 0, but `fi_prime(0.0025)` is -320000; `fi_prime` is not the
derivative of `fi` there. -/
theorem fi_prime_is_not_derivative :
    fi (⟨1, 0, 0, 1, 0⟩ : FinancialState ℝ) (1 / 400) = 1 ∧
    HasDerivAt (fun y => fi (⟨1, 0, 0, 1, 0⟩ : FinancialState ℝ) y) 0 (1 / 400) ∧
    fi_prime (⟨1, 0, 0, 1, 0⟩ : FinancialState ℝ) (1 / 400) = -320000 ∧
    ¬ HasDerivAt (fun y => fi (⟨1, 0, 0, 1, 0⟩ : FinancialState ℝ) y)
      (fi_prime (⟨1, 0, 0, 1, 0⟩ : FinancialState ℝ) (1 / 400)) (1 / 400) := by
  have hp : fi_prime (⟨1, 0, 0, 1, 0⟩ : FinancialState ℝ) (1 / 400) = -320000 := by
    rw [fi_prime_real]; norm_num
  have hd := fi_hasDerivAt (⟨1, 0, 0, 1, 0⟩ : FinancialState ℝ) (1 / 400) (by norm_num)
  have e : (1 : ℝ) * (0 + 1 / (1 / 400)) * (1 + 1 / 400) ^ ((1 : ℝ) - 1)
      - 1 * ((1 + 1 / 400) ^ (1 : ℝ) - 1) / (1 / 400 * (1 / 400)) = 0 := by
    norm_num
  simp only [] at hd
  rw [e] at hd
  refine ⟨by rw [fi_real]; norm_num, hd, hp, ?_⟩
  intro h
  have := h.unique hd
  rw [hp] at this
  norm_num at this

/-! ## A complete run -/

theorem strtodRat_360 : strtodRat "360".toList = (360, 3) := by
  simp [strtodRat, takeSign, digitsVal, digitVal, takeExponent, isSpaceC]
theorem strtodRat_0_005 : strtodRat "0.005".toList = (1/200, 5) := by
  simp [strtodRat, takeSign, digitsVal, digitVal, takeExponent, isSpaceC]; norm_num
theorem strtodRat_100000 : strtodRat "100000".toList = (100000, 6) := by
  simp [strtodRat, takeSign, digitsVal, digitVal, takeExponent, isSpaceC]

/-- The value of `-100000 * 1.005^360` rounds to -602257.52. -/
theorem mortgage_FV_bounds :
    (-602257525 / 1000 : ℝ) < -100000 * (1 + 1 / 200) ^ (360 : ℝ) ∧
    -100000 * (1 + 1 / 200) ^ (360 : ℝ) < (-602257515 / 1000 : ℝ) := by
  rw [show (360 : ℝ) = ((360 : ℕ) : ℝ) by norm_num, Real.rpow_natCast]
  constructor <;> norm_num

/-- The run of `main` on the five lines of the mortgage example, under real arithmetic. -/
theorem main_mortgage_run :
    main (α := ℝ) "set n 360\nset i 0.005\nset PV 100000\nset PMT 0\ncompute FV\n".toList
      = some (.ok ⟨360, 1 / 200, 100000, 0, -100000 * (1 + 1 / 200) ^ (360 : ℝ)⟩
          [⟨"FV = %.2f\n", -100000 * (1 + 1 / 200) ^ (360 : ℝ)⟩]) := by
  unfold main
  rw [show "set n 360\nset i 0.005\nset PV 100000\nset PMT 0\ncompute FV\n".toList
      = "set n 360".toList ++ '\n' :: ("set i 0.005".toList ++ '\n' ::
        ("set PV 100000".toList ++ '\n' :: ("set PMT 0".toList ++ '\n' ::
          ("compute FV".toList ++ '\n' :: [])))) by decide]
  -- line 1
  rw [main_loop_line _ _ _ _ _ (by decide) (by decide) (by decide) (by decide),
    process_set _ _ "n".toList "360".toList _ (by decide)]
  simp only [real_strtod, strtodRat_360]
  rw [if_neg (by decide)]
  have h1 : tvm_set_variable (tvm_clear : FinancialState ℝ) "n".toList ((360 : ℚ) : ℝ) (0 + 1)
      = .ok ⟨360, 0, 0, 0, 0⟩ [] := by
    simp [tvm_set_variable, tvm_clear, is_integer_double]
    norm_num
  simp only [h1]
  -- line 2
  rw [main_loop_line _ _ _ _ _ (by decide) (by decide) (by decide) (by decide),
    process_set _ _ "i".toList "0.005".toList _ (by decide)]
  simp only [real_strtod, strtodRat_0_005]
  rw [if_neg (by decide)]
  have h2 : tvm_set_variable (⟨360, 0, 0, 0, 0⟩ : FinancialState ℝ) "i".toList
      ((1 / 200 : ℚ) : ℝ) (0 + 1 + 1) = .ok ⟨360, 1 / 200, 0, 0, 0⟩ [] := by
    simp [tvm_set_variable]
    norm_num
  simp only [h2]
  -- line 3
  rw [main_loop_line _ _ _ _ _ (by decide) (by decide) (by decide) (by decide),
    process_set _ _ "PV".toList "100000".toList _ (by decide)]
  simp only [real_strtod, strtodRat_100000]
  rw [if_neg (by decide)]
  have h3 : tvm_set_variable (⟨360, 1 / 200, 0, 0, 0⟩ : FinancialState ℝ) "PV".toList
      ((100000 : ℚ) : ℝ) (0 + 1 + 1 + 1) = .ok ⟨360, 1 / 200, 100000, 0, 0⟩ [] := by
    simp [tvm_set_variable]
  simp only [h3]
  -- line 4
  rw [main_loop_line _ _ _ _ _ (by decide) (by decide) (by decide) (by decide),
    process_set _ _ "PMT".toList "0".toList _ (by decide)]
  simp only [real_strtod, strtodRat_0]
  rw [if_neg (by decide)]
  have h4 : tvm_set_variable (⟨360, 1 / 200, 100000, 0, 0⟩ : FinancialState ℝ) "PMT".toList
      ((0 : ℚ) : ℝ) (0 + 1 + 1 + 1 + 1) = .ok ⟨360, 1 / 200, 100000, 0, 0⟩ [] := by
    simp [tvm_set_variable]
  simp only [h4]
  -- line 5
  rw [main_loop_line _ _ _ _ _ (by decide) (by decide) (by decide) (by decide),
    process_compute _ _ "FV".toList _ (by decide),
    compute_FV_real _ _ (by norm_num)]
  have e : (-(100000 : ℝ) * (1 + 1 / 200) ^ (360 : ℝ)
      - 0 * ((1 + 1 / 200) ^ (360 : ℝ) - 1) / (1 / 200))
      = -100000 * (1 + 1 / 200) ^ (360 : ℝ) := by ring
  simp only [e]
  rw [main_loop]
  rfl

/-- When `tvm_process_command` ends in `die_line`, the line reported is the current one. -/
theorem process_die_reports_line {α : Type} [CDouble α] (st st1 : FinancialState α)
    (command : CString) (line_number l : Nat) (msg : String) (out : List (Printed α))
    (h : tvm_process_command st command line_number = .die l msg st1 out) :
    l = line_number := by
  have hinv : ∀ (m0 : String) (l1 : Nat) (m : String) (s1 : FinancialState α)
      (o : List (Printed α)),
      Outcome.die line_number m0 st [] = Outcome.die l1 m s1 o → l1 = line_number := by
    intro m0 l1 m s1 o e
    simp only [Outcome.die.injEq] at e
    exact e.1.symm
  unfold tvm_process_command at h
  split at h
  · simp at h
  · simp only at h
    split at h
    · simp at h
    · split at h
      · split at h
        · exact hinv _ _ _ _ _ h
        · simp at h
      · split at h
        · split at h
          · exact hinv _ _ _ _ _ h
          · split at h
            · exact hinv _ _ _ _ _ h
            · exact (tvm_compute_variable_die _ _ _ _ _ _ _ h).2.2.1
        · split at h
          · split at h
            · exact hinv _ _ _ _ _ h
            · split at h
              · exact hinv _ _ _ _ _ h
              · split at h
                · exact hinv _ _ _ _ _ h
                · split at h
                  · exact hinv _ _ _ _ _ h
                  · exact (tvm_set_variable_die _ _ _ _ _ _ _ _ h).2.2.1
          · exact hinv _ _ _ _ _ h

/-- At the end of the input `fgets` returns NULL and `main` returns 0. -/
theorem main_loop_nil {α : Type} [CDouble α] (st : FinancialState α)
    (out : List (Printed α)) (line_number : Nat) :
    main_loop st out line_number [] = some (.ok st out) := by
  rw [main_loop]

/-- On an input made of at most `INT_MAX - line_number` lines of at most 38 characters,
none of them NUL, the loop of `main` is the run line by line. -/
theorem main_loop_inputOfLines {α : Type} [CDouble α] (lines : List CString)
    (hlen : ∀ line ∈ lines, line.length ≤ 38) (hnl : ∀ line ∈ lines, '\n' ∉ line)
    (hnul : ∀ line ∈ lines, ∀ c ∈ line, c.toNat ≠ 0) :
    ∀ (st : FinancialState α) (out : List (Printed α)) (line_number : Nat),
      line_number + lines.length ≤ 2147483647 →
      main_loop st out line_number (inputOfLines lines)
        = some (runLines st out line_number lines) := by
  induction lines with
  | nil => intro st out k _; rw [inputOfLines, runLines, main_loop_nil]
  | cons line rest ih =>
    intro st out k hk
    simp only [List.length_cons] at hk
    rw [inputOfLines, runLines,
      main_loop_line st out k line _ (hlen line (by simp)) (hnl line (by simp))
        (hnul line (by simp)) (by omega)]
    cases tvm_process_command st line (k + 1) with
    | die l msg st1 out1 => rfl
    | ok st1 out1 =>
      exact ih (fun l hl => hlen l (by simp [hl])) (fun l hl => hnl l (by simp [hl]))
        (fun l hl => hnul l (by simp [hl])) _ _ _ (by omega)

/-- A run over `pre ++ post` is the run over `pre` followed, when no line of `pre` failed,
by the run over `post` with the line counter advanced by the length of `pre`. -/
theorem runLines_append {α : Type} [CDouble α] (pre post : List CString) :
    ∀ (st : FinancialState α) (out : List (Printed α)) (line_number : Nat),
      runLines st out line_number (pre ++ post) =
        match runLines st out line_number pre with
        | .die l msg st1 out1 => .die l msg st1 out1
        | .ok st1 out1 => runLines st1 out1 (line_number + pre.length) post := by
  induction pre with
  | nil => intro st out k; simp [runLines]
  | cons line rest ih =>
    intro st out k
    rw [List.cons_append, runLines, runLines]
    cases tvm_process_command st line (k + 1) with
    | die l msg st1 out1 => rfl
    | ok st1 out1 =>
      simp only
      rw [ih]
      simp only [List.length_cons]
      rw [show k + 1 + rest.length = k + (rest.length + 1) by omega]

/-- On a text without newline that fits the buffer, `fgets` stores the whole text. -/
theorem fgetsLine_no_newline (k : Nat) (line : List Char) (hlen : line.length ≤ k)
    (hnl : '\n' ∉ line) : fgetsLine k line = line := by
  induction line generalizing k with
  | nil => cases k <;> simp [fgetsLine]
  | cons c cs ih =>
    cases k with
    | zero => simp at hlen
    | succ k =>
      have hc : c ≠ '\n' := fun h => hnl (by simp [h])
      have hcs : '\n' ∉ cs := fun h => hnl (by simp [h])
      simp only [List.length_cons, Nat.add_le_add_iff_right] at hlen
      simp [fgetsLine, hc, ih k hlen hcs]

/-- Truncating a text without newline and without NUL leaves it as it is. -/
theorem truncate_at_newline_no_newline (line : List Char) (hnl : '\n' ∉ line)
    (hnul : ∀ c ∈ line, c.toNat ≠ 0) :
    truncate_at_newline line = line := by
  unfold truncate_at_newline
  rw [List.takeWhile_eq_self_iff]
  intro c hc
  have h1 : c ≠ '\n' := fun h => hnl (h ▸ hc)
  have h2 : c.toNat ≠ 0 := hnul c hc
  simp [h1, h2]

/-- The last turn of the loop of `main` on a final line that has no newline. -/
theorem main_loop_last_line {α : Type} [CDouble α] (st : FinancialState α)
    (out : List (Printed α)) (line_number : Nat) (line : List Char) (hne : line ≠ [])
    (hlen : line.length ≤ 38) (hnl : '\n' ∉ line) (hnul : ∀ c ∈ line, c.toNat ≠ 0)
    (hcount : line_number < 2147483647) :
    main_loop st out line_number line = some (runLines st out line_number [line]) := by
  have hf : fgetsLine 39 line = line := fgetsLine_no_newline 39 line (by omega) hnl
  cases hl : line with
  | nil => exact absurd hl hne
  | cons c cs =>
    rw [main_loop, if_neg (by omega), runLines]
    simp only [← hl, hf, truncate_at_newline_no_newline line hnl hnul, List.drop_length]
    cases tvm_process_command st line (line_number + 1) with
    | die l msg st1 out1 => rfl
    | ok st1 out1 => simp only [main_loop_nil, runLines]

/-- The loop of `main` on lines followed by a final line without newline. -/
theorem main_loop_inputOfLines_last {α : Type} [CDouble α] (lines : List CString)
    (last : CString) (hlen : ∀ line ∈ lines, line.length ≤ 38)
    (hnl : ∀ line ∈ lines, '\n' ∉ line) (hnul : ∀ line ∈ lines, ∀ c ∈ line, c.toNat ≠ 0)
    (hne : last ≠ []) (hlast : last.length ≤ 38)
    (hnlast : '\n' ∉ last) (hnulast : ∀ c ∈ last, c.toNat ≠ 0) :
    ∀ (st : FinancialState α) (out : List (Printed α)) (line_number : Nat),
      line_number + lines.length < 2147483647 →
      main_loop st out line_number (inputOfLines lines ++ last)
        = some (runLines st out line_number (lines ++ [last])) := by
  induction lines with
  | nil =>
    intro st out k hk
    simp only [inputOfLines, List.nil_append]
    exact main_loop_last_line st out k last hne hlast hnlast hnulast (by simpa using hk)
  | cons line rest ih =>
    intro st out k hk
    simp only [List.length_cons] at hk
    rw [inputOfLines, List.cons_append, runLines, List.append_assoc, List.cons_append,
      main_loop_line st out k line _ (hlen line (by simp)) (hnl line (by simp))
        (hnul line (by simp)) (by omega)]
    cases tvm_process_command st line (k + 1) with
    | die l msg st1 out1 => rfl
    | ok st1 out1 =>
      exact ih (fun l hl => hlen l (by simp [hl])) (fun l hl => hnl l (by simp [hl]))
        (fun l hl => hnul l (by simp [hl])) _ _ _ (by omega)

/-- C12: on an input made of at most `INT_MAX = 2147483647` lines of text (no NUL
character) of at most 38 characters each, `main` is the run line by line from the zero
state (`runLines`): lines are processed strictly in order with a line counter that counts
every line read.  If the lines `pre` succeed and the next line fails, the run ends there
with exit status 1, the reported number is `pre.length + 1`, and the lines after it play
no role.  A line without token leaves state and output as they are and still advances the
counter.  If no line fails, `main` returns 0 with the state and output of the whole run.
The same holds with a final line that has no newline. -/
theorem main_processes_lines_in_order {α : Type} [CDouble α] (lines : List CString)
    (hlen : ∀ line ∈ lines, line.length ≤ 38) (hnl : ∀ line ∈ lines, '\n' ∉ line)
    (hnul : ∀ line ∈ lines, ∀ c ∈ line, c.toNat ≠ 0)
    (hcount : lines.length ≤ 2147483647) :
    main (α := α) (inputOfLines lines) = some (runLines tvm_clear [] 0 lines) ∧
    (∀ (pre post : List CString) (line : CString) (st st1 : FinancialState α)
        (out out1 : List (Printed α)) (l : Nat) (msg : String),
      lines = pre ++ line :: post →
      runLines (tvm_clear : FinancialState α) [] 0 pre = .ok st out →
      tvm_process_command st line (pre.length + 1) = .die l msg st1 out1 →
      l = pre.length + 1 ∧
      main (α := α) (inputOfLines lines)
        = some (.die (pre.length + 1) msg st1 (out ++ out1)) ∧
      main (α := α) (inputOfLines lines) = main (inputOfLines (pre ++ [line]))) ∧
    (∀ (pre post : List CString) (line : CString) (st : FinancialState α)
        (out : List (Printed α)),
      lines = pre ++ line :: post → tokens line = [] →
      runLines (tvm_clear : FinancialState α) [] 0 pre = .ok st out →
      runLines (tvm_clear : FinancialState α) [] 0 (pre ++ [line]) = .ok st out ∧
      main (α := α) (inputOfLines lines) = some (runLines st out (pre.length + 1) post)) ∧
    (∀ (st : FinancialState α) (out : List (Printed α)),
      runLines (tvm_clear : FinancialState α) [] 0 lines = .ok st out →
      main (α := α) (inputOfLines lines) = some (.ok st out)) ∧
    (∀ last : CString, last ≠ [] → last.length ≤ 38 → '\n' ∉ last →
      (∀ c ∈ last, c.toNat ≠ 0) → lines.length < 2147483647 →
      main (α := α) (inputOfLines lines ++ last)
        = some (runLines tvm_clear [] 0 (lines ++ [last]))) := by
  have hmain : main (α := α) (inputOfLines lines) = some (runLines tvm_clear [] 0 lines) :=
    main_loop_inputOfLines lines hlen hnl hnul _ _ _ (by omega)
  refine ⟨hmain, ?_, ?_, ?_, ?_⟩
  · intro pre post line st st1 out out1 l msg hl hpre hdie
    have hl1 : l = pre.length + 1 := process_die_reports_line _ _ _ _ _ _ _ hdie
    subst hl1
    have hrun : runLines (tvm_clear : FinancialState α) [] 0 (pre ++ line :: post)
        = .die (pre.length + 1) msg st1 (out ++ out1) := by
      rw [runLines_append, hpre]
      simp only [Nat.zero_add]
      rw [runLines, hdie]
    have hrun2 : runLines (tvm_clear : FinancialState α) [] 0 (pre ++ [line])
        = .die (pre.length + 1) msg st1 (out ++ out1) := by
      rw [runLines_append, hpre]
      simp only [Nat.zero_add]
      rw [runLines, hdie]
    have hsub : ∀ x ∈ pre ++ [line], x ∈ lines := by
      intro x hx; rw [hl]
      simp only [List.mem_append, List.mem_singleton, List.mem_cons] at hx ⊢
      tauto
    have hcount2 : (pre ++ [line]).length ≤ 2147483647 := by
      have : lines.length = pre.length + (post.length + 1) := by
        rw [hl]; simp
      simp only [List.length_append, List.length_singleton]
      omega
    refine ⟨rfl, ?_, ?_⟩
    · rw [hmain, hl, hrun]
    · have h2 : main (α := α) (inputOfLines (pre ++ [line]))
          = some (runLines tvm_clear [] 0 (pre ++ [line])) :=
        main_loop_inputOfLines _ (fun x hx => hlen x (hsub x hx))
          (fun x hx => hnl x (hsub x hx)) (fun x hx => hnul x (hsub x hx)) _ _ _
          (by omega)
      rw [h2, hrun2, hmain, hl, hrun]
  · intro pre post line st out hl htok hpre
    have hblank : tvm_process_command st line (pre.length + 1) = .ok st [] :=
      process_no_tokens st line _ (by
        rw [tokens_eq_nil_iff] at htok ⊢
        intro c hc
        exact htok c (List.mem_of_mem_take hc))
    constructor
    · rw [runLines_append, hpre]
      simp only [Nat.zero_add]
      rw [runLines, hblank]
      simp [runLines]
    · rw [hmain, hl, runLines_append, hpre]
      simp only [Nat.zero_add]
      rw [runLines, hblank]
      simp
  · intro st out hrun
    rw [hmain, hrun]
  · intro last hne hlast hnlast hnulast hc
    exact main_loop_inputOfLines_last lines last hlen hnl hnul hne hlast hnlast hnulast
      _ _ _ (by omega)

/-- The lines `set n 5`, an empty line, `compute XYZ`, `clear` under real arithmetic: the
run stops at line 3, the blank line counted, and `clear` is never processed. -/
theorem main_processes_lines_in_order_witness :
    (∀ line ∈ ["set n 5".toList, [], "compute XYZ".toList, "clear".toList],
      line.length ≤ 38) ∧
    (∀ line ∈ ["set n 5".toList, [], "compute XYZ".toList, "clear".toList], '\n' ∉ line) ∧
    (∀ line ∈ ["set n 5".toList, [], "compute XYZ".toList, "clear".toList],
      ∀ c ∈ line, c.toNat ≠ 0) ∧
    ["set n 5".toList, [], "compute XYZ".toList, "clear".toList].length ≤ 2147483647 ∧
    inputOfLines ["set n 5".toList, [], "compute XYZ".toList, "clear".toList]
      = "set n 5\n\ncompute XYZ\nclear\n".toList ∧
    main (α := ℝ) "set n 5\n\ncompute XYZ\nclear\n".toList
      = some (.die 3 "invalid variable name" ⟨5, 0.0, 0.0, 0.0, 0.0⟩ []) := by
  have hlen : ∀ line ∈ ["set n 5".toList, [], "compute XYZ".toList, "clear".toList],
      line.length ≤ 38 := by decide
  have hnl : ∀ line ∈ ["set n 5".toList, [], "compute XYZ".toList, "clear".toList],
      '\n' ∉ line := by decide
  have hnul : ∀ line ∈ ["set n 5".toList, [], "compute XYZ".toList, "clear".toList],
      ∀ c ∈ line, c.toNat ≠ 0 := by decide
  have hin : inputOfLines ["set n 5".toList, [], "compute XYZ".toList, "clear".toList]
      = "set n 5\n\ncompute XYZ\nclear\n".toList := by decide
  refine ⟨hlen, hnl, hnul, by decide, hin, ?_⟩
  rw [← hin, (main_processes_lines_in_order (α := ℝ) _ hlen hnl hnul (by decide)).1]
  have h1 : tvm_process_command (tvm_clear : FinancialState ℝ) "set n 5".toList (0 + 1)
      = .ok ⟨5, 0.0, 0.0, 0.0, 0.0⟩ [] := by
    rw [process_set _ _ "n".toList "5".toList _ (by decide)]
    simp only [real_strtod, strtodRat_5]
    simp [tvm_set_variable, is_integer_double, tvm_clear]
    norm_num
  have h2 : ∀ st : FinancialState ℝ, tvm_process_command st [] (0 + 1 + 1) = .ok st [] :=
    fun st => process_no_tokens st [] _ (by decide)
  have h3 : ∀ st : FinancialState ℝ, tvm_process_command st "compute XYZ".toList (0 + 1 + 1 + 1)
      = .die 3 "invalid variable name" st [] := by
    intro st
    rw [process_compute _ _ "XYZ".toList _ (by decide)]
    simp [tvm_compute_variable]
  rw [runLines, h1]
  simp only
  rw [runLines, h2]
  simp only
  rw [runLines, h3]
  rfl

/-! ## The invariant on `n` and `i` -/

/-- A command that succeeds is a line without token, `clear`, a `compute` or a `set`. -/
theorem process_ok_cases {α : Type} [CDouble α] (st st1 : FinancialState α)
    (command : CString) (line_number : Nat) (out : List (Printed α))
    (h : tvm_process_command st command line_number = .ok st1 out) :
    (st1 = st ∧ out = []) ∨ (st1 = tvm_clear ∧ out = []) ∨
    (∃ var, tvm_compute_variable st var line_number = .ok st1 out) ∨
    (∃ var v, tvm_set_variable st var v line_number = .ok st1 out) := by
  unfold tvm_process_command at h
  split at h
  · simp only [Outcome.ok.injEq] at h
    exact Or.inl ⟨h.1.symm, h.2.symm⟩
  · simp only at h
    split at h
    · simp only [Outcome.ok.injEq] at h
      exact Or.inl ⟨h.1.symm, h.2.symm⟩
    · split at h
      · split at h
        · simp at h
        · simp only [Outcome.ok.injEq] at h
          exact Or.inr (Or.inl ⟨h.1.symm, h.2.symm⟩)
      · split at h
        · split at h
          · simp at h
          · split at h
            · simp at h
            · exact Or.inr (Or.inr (Or.inl ⟨_, h⟩))
        · split at h
          · split at h
            · simp at h
            · split at h
              · simp at h
              · split at h
                · simp at h
                · split at h
                  · simp at h
                  · exact Or.inr (Or.inr (Or.inr ⟨_, _, h⟩))
          · simp at h

/-- A value returned by the loop of `newton_raphson_i` passed the test `x > 0.0`. -/
theorem newton_raphson_i_loop_ok_pos {α : Type} [CDouble α] (st : FinancialState α)
    (line_number : Nat) :
    ∀ (k : Nat) (x v : α), newton_raphson_i_loop st line_number k x = .ok v → v > 0.0 := by
  intro k
  induction k with
  | zero =>
    intro x v h
    simp [newton_raphson_i_loop] at h
  | succ k ih =>
    intro x v h
    rw [newton_raphson_i_loop] at h
    simp only at h
    split at h
    · simp at h
    · split at h
      · simp at h
      · split at h
        · simp at h
        · split at h
          · split at h
            · simp at h
            · rename_i hpos
              simp only [Except.ok.injEq] at h
              rw [← h]
              exact not_not.mp hpos
          · exact ih _ v h

/-- What a successful `tvm_compute_variable` changes: for `n` the new value is the ceiling
of a positive real, for `i` it is positive, and `PV`, `PMT`, `FV` leave `n` and `i`
alone (real arithmetic). -/
theorem tvm_compute_variable_ok_real (st st1 : FinancialState ℝ) (var : CString)
    (line_number : Nat) (out : List (Printed ℝ))
    (h : tvm_compute_variable st var line_number = .ok st1 out) :
    ((∃ x : ℝ, 0 < x ∧ st1.n = (⌈x⌉ : ℝ)) ∧ st1.i = st.i) ∨
    (st1.n = st.n ∧ 0 < st1.i) ∨ (st1.n = st.n ∧ st1.i = st.i) := by
  unfold tvm_compute_variable at h
  split at h
  · left
    cases hn : newton_raphson_n st line_number with
    | error e => rw [hn] at h; simp at h
    | ok v =>
      rw [hn] at h
      simp only [Outcome.ok.injEq] at h
      unfold newton_raphson_n at hn
      simp only at hn
      split at hn
      · simp at hn
      · obtain ⟨y, -, -, hpos, hv⟩ := newton_raphson_n_loop_ok_real st line_number _ _ _ hn
        rw [← h.1]
        exact ⟨⟨_, hpos, hv⟩, rfl⟩
  · split at h
    · right; left
      cases hn : newton_raphson_i st line_number with
      | error e => rw [hn] at h; simp at h
      | ok v =>
        rw [hn] at h
        simp only [Outcome.ok.injEq] at h
        have hv := newton_raphson_i_loop_ok_pos st line_number _ _ _ hn
        rw [← h.1]
        refine ⟨rfl, ?_⟩
        simpa [real_lit_zero] using hv
    · right; right
      split at h
      · cases hc : check_i st line_number with
        | error e => rw [hc] at h; simp at h
        | ok u =>
          rw [hc] at h
          simp only [Outcome.ok.injEq] at h
          rw [← h.1]
          exact ⟨rfl, rfl⟩
      · split at h
        · cases hc : check_i st line_number with
          | error e => rw [hc] at h; simp at h
          | ok u =>
            rw [hc] at h
            simp only at h
            split at h
            · simp at h
            · simp only [Outcome.ok.injEq] at h
              rw [← h.1]
              exact ⟨rfl, rfl⟩
        · split at h
          · cases hc : check_i st line_number with
            | error e => rw [hc] at h; simp at h
            | ok u =>
              rw [hc] at h
              simp only [Outcome.ok.injEq] at h
              rw [← h.1]
              exact ⟨rfl, rfl⟩
          · simp at h

/-- What a successful `tvm_set_variable` changes: for `n` the new value is positive and
integral, for `i` it is positive, and `PV`, `PMT`, `FV` leave `n` and `i` alone (real
arithmetic). -/
theorem tvm_set_variable_ok_real (st st1 : FinancialState ℝ) (var : CString) (v : ℝ)
    (line_number : Nat) (out : List (Printed ℝ))
    (h : tvm_set_variable st var v line_number = .ok st1 out) :
    ((0 < st1.n ∧ ((⌊st1.n⌋ : ℤ) : ℝ) = st1.n) ∧ st1.i = st.i) ∨
    (st1.n = st.n ∧ 0 < st1.i) ∨ (st1.n = st.n ∧ st1.i = st.i) := by
  unfold tvm_set_variable at h
  split at h
  · left
    split at h
    · simp at h
    · rename_i hc
      simp only [Outcome.ok.injEq] at h
      rw [← h.1]
      simp only [is_integer_double, real_isfinite, real_floor, real_beq, real_lit_zero,
        Bool.true_and, Bool.or_eq_true, decide_eq_true_eq, Bool.not_eq_true',
        decide_eq_false_iff_not, not_or, not_not, gt_iff_lt, real_lt] at hc
      exact ⟨⟨hc.1, hc.2⟩, rfl⟩
  · split at h
    · right; left
      split at h
      · simp at h
      · rename_i hc
        simp only [Outcome.ok.injEq] at h
        rw [← h.1]
        simp only [not_not, gt_iff_lt, real_lt, real_lit_zero] at hc
        exact ⟨rfl, hc⟩
    · right; right
      split at h
      · simp only [Outcome.ok.injEq] at h; rw [← h.1]; exact ⟨rfl, rfl⟩
      · split at h
        · simp only [Outcome.ok.injEq] at h; rw [← h.1]; exact ⟨rfl, rfl⟩
        · split at h
          · simp only [Outcome.ok.injEq] at h; rw [← h.1]; exact ⟨rfl, rfl⟩
          · simp at h

/-- A positive real that is an integer is a natural number `k ≥ 1`. -/
theorem pos_int_is_nat (x : ℝ) (z : ℤ) (hx : 0 < x) (hz : (z : ℝ) = x) :
    ∃ k : ℕ, 1 ≤ k ∧ x = (k : ℝ) := by
  have hzpos : 0 < z := by
    have : (0 : ℝ) < (z : ℝ) := by rw [hz]; exact hx
    exact_mod_cast this
  refine ⟨z.toNat, ?_, ?_⟩
  · omega
  · rw [← hz]
    have : ((z.toNat : ℕ) : ℤ) = z := Int.toNat_of_nonneg hzpos.le
    exact_mod_cast this.symm

/-- One successful command preserves: `n` is 0 or a positive integer, `i` is 0 or
positive (real arithmetic). -/
theorem process_ok_preserves_invariant (st st1 : FinancialState ℝ) (command : CString)
    (line_number : Nat) (out : List (Printed ℝ))
    (hinv : (st.n = 0 ∨ ∃ k : ℕ, 1 ≤ k ∧ st.n = (k : ℝ)) ∧ (st.i = 0 ∨ 0 < st.i))
    (h : tvm_process_command st command line_number = .ok st1 out) :
    (st1.n = 0 ∨ ∃ k : ℕ, 1 ≤ k ∧ st1.n = (k : ℝ)) ∧ (st1.i = 0 ∨ 0 < st1.i) := by
  rcases process_ok_cases st st1 command line_number out h with
    ⟨rfl, -⟩ | ⟨rfl, -⟩ | ⟨var, hc⟩ | ⟨var, v, hs⟩
  · exact hinv
  · exact ⟨Or.inl (by simp [tvm_clear, real_lit_zero]), Or.inl (by simp [tvm_clear, real_lit_zero])⟩
  · rcases tvm_compute_variable_ok_real st st1 var line_number out hc with
      ⟨⟨x, hx, hn⟩, hi⟩ | ⟨hn, hi⟩ | ⟨hn, hi⟩
    · refine ⟨Or.inr ?_, by rw [hi]; exact hinv.2⟩
      have hpos : (0 : ℝ) < (⌈x⌉ : ℝ) := by exact_mod_cast Int.ceil_pos.mpr hx
      rw [hn]
      exact pos_int_is_nat _ ⌈x⌉ hpos rfl
    · exact ⟨by rw [hn]; exact hinv.1, Or.inr hi⟩
    · exact ⟨by rw [hn]; exact hinv.1, by rw [hi]; exact hinv.2⟩
  · rcases tvm_set_variable_ok_real st st1 var v line_number out hs with
      ⟨⟨hpos, hfl⟩, hi⟩ | ⟨hn, hi⟩ | ⟨hn, hi⟩
    · exact ⟨Or.inr (pos_int_is_nat _ ⌊st1.n⌋ hpos hfl), by rw [hi]; exact hinv.2⟩
    · exact ⟨by rw [hn]; exact hinv.1, Or.inr hi⟩
    · exact ⟨by rw [hn]; exact hinv.1, by rw [hi]; exact hinv.2⟩

/-- With `i > 0` and `PV + PMT/i ≠ 0` the derivative `fn_prime` never vanishes. -/
theorem fn_prime_ne_zero (st : FinancialState ℝ) (x : ℝ) (hi : 0 < st.i)
    (hT : st.PV + st.PMT / st.i ≠ 0) : fn_prime st x ≠ 0 := by
  rw [fn_prime_real]
  exact mul_ne_zero (mul_ne_zero (Real.log_pos (by linarith)).ne' hT)
    (Real.rpow_pos_of_pos (by linarith) x).ne'

/-- From an iterate at or above the root the Newton step of `fn` does not go up. -/
theorem newton_step_nonneg (st : FinancialState ℝ) (r y : ℝ) (hi : 0 < st.i)
    (hroot : fn st r = 0) (hfp : fn_prime st y ≠ 0) (hy : r ≤ y) :
    0 ≤ fn st y / fn_prime st y := by
  have hL : 0 < Real.log (1 + st.i) := Real.log_pos (by linarith)
  rw [newton_step_real st r y hi hroot hfp]
  apply div_nonneg _ hL.le
  have : Real.exp (-(Real.log (1 + st.i) * (y - r))) ≤ 1 := by
    rw [Real.exp_le_one_iff]
    have := mul_nonneg hL.le (sub_nonneg.mpr hy)
    linarith
  linarith

/-! ## Rounding to binary64 -/

/-- A real number less than one half away from an integer rounds to that integer. -/
theorem roundHalfEven_eq (q : ℝ) (m : ℤ) (h : |q - m| < 1 / 2) : Dbl.roundHalfEven q = m := by
  unfold Dbl.roundHalfEven
  rw [abs_lt] at h
  by_cases hq : (m : ℝ) ≤ q
  · have hf : ⌊q⌋ = m := by
      rw [Int.floor_eq_iff]; constructor <;> linarith [h.1, h.2]
    rw [hf, if_pos (by linarith [h.2])]
  · push_neg at hq
    have hf : ⌊q⌋ = m - 1 := by
      rw [Int.floor_eq_iff]; push_cast; constructor <;> linarith [h.1, h.2]
    rw [hf]
    push_cast
    rw [if_neg (by linarith [h.1]), if_pos (by linarith [h.1])]
    ring

/-- Rounding to an integer moves a real number by at most one half. -/
theorem roundHalfEven_close (q : ℝ) : |(Dbl.roundHalfEven q : ℝ) - q| ≤ 1 / 2 := by
  have h1 := Int.floor_le q
  have h2 := Int.lt_floor_add_one q
  unfold Dbl.roundHalfEven
  rw [abs_le]
  split_ifs with a b c
  · constructor <;> linarith
  · push_cast; constructor <;> linarith
  · push_neg at a b; constructor <;> linarith
  · push_neg at a b; push_cast; constructor <;> linarith

/-- The binary exponent of a positive real number between two powers of two. -/
theorem int_log_two_eq (x : ℝ) (e : ℤ) (h1 : (2 : ℝ) ^ e ≤ x) (h2 : x < (2 : ℝ) ^ (e + 1)) :
    Int.log 2 x = e := by
  have hx : 0 < x := lt_of_lt_of_le (by positivity) h1
  have a : e ≤ Int.log 2 x :=
    (Int.zpow_le_iff_le_log (by norm_num) hx).1 (by exact_mod_cast h1)
  have b : Int.log 2 x < e + 1 :=
    (Int.lt_zpow_iff_log_lt (by norm_num) hx).1 (by exact_mod_cast h2)
  omega

/-- The unit in the last place of a number in the binade of `2^e`, in the normal range. -/
theorem ulpExp_eq (x : ℝ) (e : ℤ) (he : -1022 ≤ e) (h1 : (2 : ℝ) ^ e ≤ |x|)
    (h2 : |x| < (2 : ℝ) ^ (e + 1)) : Dbl.ulpExp x = e - 52 := by
  unfold Dbl.ulpExp
  rw [int_log_two_eq |x| e h1 h2, max_eq_left he]

/-- The unit in the last place is at least `2^-1074`. -/
theorem ulpExp_ge (x : ℝ) : -1074 ≤ Dbl.ulpExp x := by
  unfold Dbl.ulpExp
  have := le_max_right (Int.log 2 |x|) (-1022)
  omega

/-- The unit in the last place of `x ≠ 0` is at most `2^-52 * |x|` in the normal range. -/
theorem two_zpow_ulpExp_le (x : ℝ) (h : (2 : ℝ) ^ (-1022 : ℤ) ≤ |x|) :
    (2 : ℝ) ^ Dbl.ulpExp x ≤ (2 : ℝ) ^ (-52 : ℤ) * |x| := by
  have hx : 0 < |x| := lt_of_lt_of_le (by positivity) h
  have hl : (-1022 : ℤ) ≤ Int.log 2 |x| :=
    (Int.zpow_le_iff_le_log (by norm_num) hx).1 (by exact_mod_cast h)
  have hle : ((2 : ℕ) : ℝ) ^ Int.log 2 |x| ≤ |x| := Int.zpow_log_le_self (by norm_num) hx
  unfold Dbl.ulpExp
  rw [max_eq_left hl, sub_eq_add_neg, zpow_add₀ (by norm_num : (2 : ℝ) ≠ 0), mul_comm]
  exact mul_le_mul_of_nonneg_left (by exact_mod_cast hle) (by positivity)

/-- Zero rounds to zero. -/
theorem roundNearest_zero : Dbl.roundNearest 0 = Dbl.fin 0 := by
  have hr : Dbl.roundHalfEven 0 = 0 := by
    have := roundHalfEven_eq 0 0 (by norm_num)
    simpa using this
  unfold Dbl.roundNearest
  simp only [zero_div, hr, Int.cast_zero, zero_mul, abs_zero]
  rw [if_neg (by norm_num)]

/-- A multiple `m * 2^k` with `|m| < 2^53`, `k ≥ -1074` and magnitude below `2^1024` is a
value of the binary64 format: rounding returns it. -/
theorem roundNearest_exact (m k : ℤ) (hm : |m| < 2 ^ 53) (hk : -1074 ≤ k)
    (hbig : |(m : ℝ) * (2 : ℝ) ^ k| < (2 : ℝ) ^ (1024 : ℤ)) :
    Dbl.roundNearest ((m : ℝ) * (2 : ℝ) ^ k) = Dbl.fin ((m : ℝ) * (2 : ℝ) ^ k) := by
  have h2 : (2 : ℝ) ≠ 0 := by norm_num
  by_cases h0 : m = 0
  · subst h0
    simp only [Int.cast_zero, zero_mul]
    exact roundNearest_zero
  have hu : Dbl.ulpExp ((m : ℝ) * (2 : ℝ) ^ k) ≤ k := by
    have hx : 0 < |(m : ℝ) * (2 : ℝ) ^ k| := by
      apply abs_pos.2
      exact mul_ne_zero (by exact_mod_cast h0) (by positivity)
    have hlog := Int.zpow_log_le_self (R := ℝ) (b := 2) (by norm_num) hx
    have hmr : |(m : ℝ)| < (2 : ℝ) ^ (53 : ℤ) := by
      have : ((|m| : ℤ) : ℝ) < ((2 ^ 53 : ℤ) : ℝ) := by exact_mod_cast hm
      rw [Int.cast_abs] at this
      calc |(m : ℝ)| < ((2 ^ 53 : ℤ) : ℝ) := this
        _ = (2 : ℝ) ^ (53 : ℤ) := by norm_num
    have hlt : (2 : ℝ) ^ Int.log 2 |(m : ℝ) * (2 : ℝ) ^ k| < (2 : ℝ) ^ (53 + k) := by
      calc (2 : ℝ) ^ Int.log 2 |(m : ℝ) * (2 : ℝ) ^ k|
          ≤ |(m : ℝ) * (2 : ℝ) ^ k| := by exact_mod_cast hlog
        _ = |(m : ℝ)| * (2 : ℝ) ^ k := by
            rw [abs_mul, abs_of_pos (by positivity : (0 : ℝ) < (2 : ℝ) ^ k)]
        _ < (2 : ℝ) ^ (53 : ℤ) * (2 : ℝ) ^ k :=
            mul_lt_mul_of_pos_right hmr (by positivity)
        _ = (2 : ℝ) ^ (53 + k) := by rw [zpow_add₀ h2]
    have hL : Int.log 2 |(m : ℝ) * (2 : ℝ) ^ k| < 53 + k :=
      (zpow_lt_zpow_iff_right₀ (by norm_num : (1 : ℝ) < 2)).1 hlt
    unfold Dbl.ulpExp
    have := max_le (a := Int.log 2 |(m : ℝ) * (2 : ℝ) ^ k|) (b := -1022) (c := k + 52)
      (by omega) (by omega)
    omega
  obtain ⟨u, hudef⟩ : ∃ u, Dbl.ulpExp ((m : ℝ) * (2 : ℝ) ^ k) = u := ⟨_, rfl⟩
  rw [hudef] at hu
  obtain ⟨d, hd⟩ : ∃ d : ℕ, k = u + d := ⟨(k - u).toNat, by omega⟩
  have hq : (m : ℝ) * (2 : ℝ) ^ k / (2 : ℝ) ^ u = ((m * 2 ^ d : ℤ) : ℝ) := by
    rw [hd, zpow_add₀ h2, zpow_natCast]
    push_cast
    field_simp
    ring
  have hr : Dbl.roundHalfEven ((m : ℝ) * (2 : ℝ) ^ k / (2 : ℝ) ^ u) = m * 2 ^ d := by
    rw [hq]
    exact roundHalfEven_eq _ _ (by simp)
  have hy : ((m * 2 ^ d : ℤ) : ℝ) * (2 : ℝ) ^ u = (m : ℝ) * (2 : ℝ) ^ k := by
    rw [← hq]
    field_simp
  unfold Dbl.roundNearest
  simp only [hudef, hr, hy]
  rw [if_neg (not_le.2 hbig)]

/-- Rounding moves a real number of magnitude at most `2^1023` by at most half a unit in
the last place, and the result is finite. -/
theorem roundNearest_close (x : ℝ) (hx : |x| ≤ (2 : ℝ) ^ (1023 : ℤ)) :
    ∃ y : ℝ, Dbl.roundNearest x = Dbl.fin y ∧ |y - x| ≤ (2 : ℝ) ^ Dbl.ulpExp x / 2 := by
  have h2 : (2 : ℝ) ≠ 0 := by norm_num
  obtain ⟨u, hudef⟩ : ∃ u, Dbl.ulpExp x = u := ⟨_, rfl⟩
  have hpos : (0 : ℝ) < (2 : ℝ) ^ u := by positivity
  have hc := roundHalfEven_close (x / (2 : ℝ) ^ u)
  have hyx : |(Dbl.roundHalfEven (x / (2 : ℝ) ^ u) : ℝ) * (2 : ℝ) ^ u - x|
      ≤ (2 : ℝ) ^ u / 2 := by
    have e : (Dbl.roundHalfEven (x / (2 : ℝ) ^ u) : ℝ) * (2 : ℝ) ^ u - x
        = ((Dbl.roundHalfEven (x / (2 : ℝ) ^ u) : ℝ) - x / (2 : ℝ) ^ u) * (2 : ℝ) ^ u := by
      field_simp
    rw [e, abs_mul, abs_of_pos hpos]
    calc |(Dbl.roundHalfEven (x / (2 : ℝ) ^ u) : ℝ) - x / (2 : ℝ) ^ u| * (2 : ℝ) ^ u
        ≤ 1 / 2 * (2 : ℝ) ^ u := mul_le_mul_of_nonneg_right hc hpos.le
      _ = (2 : ℝ) ^ u / 2 := by ring
  refine ⟨(Dbl.roundHalfEven (x / (2 : ℝ) ^ u) : ℝ) * (2 : ℝ) ^ u, ?_, by rw [hudef]; exact hyx⟩
  unfold Dbl.roundNearest
  simp only [hudef]
  rw [if_neg]
  rw [not_le]
  -- the unit in the last place is at most 2^971
  have hu : (2 : ℝ) ^ u ≤ (2 : ℝ) ^ (971 : ℤ) := by
    apply zpow_le_zpow_right₀ (by norm_num)
    rw [← hudef]
    unfold Dbl.ulpExp
    by_cases h0 : |x| = 0
    · rw [h0, Int.log_zero_right]; omega
    · have hx0 : 0 < |x| := lt_of_le_of_ne (abs_nonneg x) (Ne.symm h0)
      have hlog := Int.zpow_log_le_self (R := ℝ) (b := 2) (by norm_num) hx0
      have hlt : (2 : ℝ) ^ Int.log 2 |x| < (2 : ℝ) ^ (1024 : ℤ) := by
        calc (2 : ℝ) ^ Int.log 2 |x| ≤ |x| := by exact_mod_cast hlog
          _ ≤ (2 : ℝ) ^ (1023 : ℤ) := hx
          _ < (2 : ℝ) ^ (1024 : ℤ) := by
              apply zpow_lt_zpow_right₀ (by norm_num) (by norm_num)
      have hL : Int.log 2 |x| < 1024 :=
        (zpow_lt_zpow_iff_right₀ (by norm_num : (1 : ℝ) < 2)).1 hlt
      have := max_le (a := Int.log 2 |x|) (b := -1022) (c := 1023) (by omega) (by omega)
      omega
  have h3 : (2 : ℝ) ^ (971 : ℤ) / 2 + (2 : ℝ) ^ (1023 : ℤ) < (2 : ℝ) ^ (1024 : ℤ) := by
    norm_num
  have habs : |(Dbl.roundHalfEven (x / (2 : ℝ) ^ u) : ℝ) * (2 : ℝ) ^ u|
      ≤ |(Dbl.roundHalfEven (x / (2 : ℝ) ^ u) : ℝ) * (2 : ℝ) ^ u - x| + |x| := by
    have := abs_add ((Dbl.roundHalfEven (x / (2 : ℝ) ^ u) : ℝ) * (2 : ℝ) ^ u - x) x
    simpa using this
  linarith

/-- A value `x = m * 2^k` of the binary64 format rounds to itself. -/
theorem roundNearest_of_exact (x : ℝ) (m k : ℤ) (hx : x = (m : ℝ) * (2 : ℝ) ^ k)
    (hm : |m| < 2 ^ 53) (hk : -1074 ≤ k) (hbig : |x| < (2 : ℝ) ^ (1024 : ℤ)) :
    Dbl.roundNearest x = Dbl.fin x := by
  subst hx
  exact roundNearest_exact m k hm hk hbig

/-- A real number in the binade of `2^e` that is less than half a unit in the last place
away from `y = m * 2^(e-52)` rounds to `y`. -/
theorem roundNearest_of_near (x y : ℝ) (e m : ℤ) (he : -1022 ≤ e)
    (h1 : (2 : ℝ) ^ e ≤ |x|) (h2 : |x| < (2 : ℝ) ^ (e + 1))
    (hy : y = (m : ℝ) * (2 : ℝ) ^ (e - 52))
    (hclose : |x / (2 : ℝ) ^ (e - 52) - m| < 1 / 2)
    (hfin : |y| < (2 : ℝ) ^ (1024 : ℤ)) :
    Dbl.roundNearest x = Dbl.fin y := by
  unfold Dbl.roundNearest
  simp only [ulpExp_eq x e he h1 h2, roundHalfEven_eq _ m hclose, ← hy]
  rw [if_neg (not_le.2 hfin)]

/-! ### The operations on finite values -/

theorem dbl_lit (m : Nat) (s : Bool) (e : Nat) :
    (OfScientific.ofScientific m s e : Dbl)
      = Dbl.roundNearest (OfScientific.ofScientific m s e : ℝ) := rfl
theorem dbl_add (x y : ℝ) : (Dbl.fin x + Dbl.fin y : Dbl) = Dbl.roundNearest (x + y) := rfl
theorem dbl_sub (x y : ℝ) : (Dbl.fin x - Dbl.fin y : Dbl) = Dbl.roundNearest (x + -y) := rfl
theorem dbl_mul (x y : ℝ) : (Dbl.fin x * Dbl.fin y : Dbl) = Dbl.roundNearest (x * y) := rfl
theorem dbl_div (x y : ℝ) (hy : y ≠ 0) :
    (Dbl.fin x / Dbl.fin y : Dbl) = Dbl.roundNearest (x / y) := by
  show Dbl.div (Dbl.fin x) (Dbl.fin y) = _
  simp only [Dbl.div, if_neg hy]
theorem dbl_neg (x : ℝ) : (-Dbl.fin x : Dbl) = Dbl.fin (-x) := rfl
theorem dbl_lt (x y : ℝ) : (Dbl.fin x < Dbl.fin y) ↔ x < y := Iff.rfl
theorem dbl_le (x y : ℝ) : (Dbl.fin x ≤ Dbl.fin y) ↔ x ≤ y := Iff.rfl
theorem dbl_beq (x y : ℝ) : (Dbl.fin x == Dbl.fin y) = decide (x = y) := rfl
theorem dbl_fabs (x : ℝ) : fabs (Dbl.fin x) = Dbl.fin |x| := rfl
theorem dbl_ceil (x : ℝ) : ceil (Dbl.fin x) = Dbl.fin (⌈x⌉ : ℝ) := rfl
theorem dbl_floor (x : ℝ) : floor (Dbl.fin x) = Dbl.fin (⌊x⌋ : ℝ) := rfl
theorem dbl_isfinite (x : ℝ) : isfinite (Dbl.fin x) = true := rfl
theorem dbl_strtod (s : List Char) :
    strtod (α := Dbl) s = (Dbl.roundNearest ((strtodRat s).1 : ℝ), (strtodRat s).2) := rfl

/-- The function `pow` with exponent zero. -/
theorem dbl_pow_zero (x : Dbl) : pow x (Dbl.fin 0) = Dbl.fin 1 := by
  show Dbl.pow x (Dbl.fin 0) = _
  cases x <;> simp [Dbl.pow]

/-- The function `pow` with base one. -/
theorem dbl_pow_one (y : Dbl) : pow (Dbl.fin 1) y = Dbl.fin 1 := by
  show Dbl.pow (Dbl.fin 1) y = _
  cases y <;> simp [Dbl.pow]

/-- The function `pow` on a positive base other than one and a finite exponent other
than zero. -/
theorem dbl_pow (a b : ℝ) (ha : 0 < a) (ha1 : a ≠ 1) (hb : b ≠ 0) :
    pow (Dbl.fin a) (Dbl.fin b) = Dbl.roundNearest (a ^ b) := by
  show Dbl.pow (Dbl.fin a) (Dbl.fin b) = _
  simp only [Dbl.pow, if_neg hb, if_neg ha1, if_neg ha.ne', if_pos ha]

/-- The function `log` on a positive argument. -/
theorem dbl_log (a : ℝ) (ha : 0 < a) : log (Dbl.fin a) = Dbl.roundNearest (Real.log a) := by
  show Dbl.log (Dbl.fin a) = _
  simp only [Dbl.log, if_neg ha.ne', if_neg (not_lt.2 ha.le)]

/-- The literals `0.0`, `1.0` and `360.0`. -/
theorem dbl_lit_zero : (0.0 : Dbl) = Dbl.fin 0 := by
  rw [dbl_lit, show (OfScientific.ofScientific 0 true 1 : ℝ) = 0 by norm_num]
  exact roundNearest_zero
theorem dbl_lit_one : (1.0 : Dbl) = Dbl.fin 1 := by
  rw [dbl_lit, show (OfScientific.ofScientific 10 true 1 : ℝ) = 1 by norm_num]
  exact roundNearest_of_exact 1 1 0 (by norm_num) (by decide) (by decide) (by norm_num)
theorem dbl_lit_360 : (360.0 : Dbl) = Dbl.fin 360 := by
  rw [dbl_lit, show (OfScientific.ofScientific 3600 true 1 : ℝ) = 360 by norm_num]
  exact roundNearest_of_exact 360 360 0 (by norm_num) (by decide) (by decide) (by norm_num)

/-- An integer of magnitude below `2^53` is a value of the binary64 format. -/
theorem roundNearest_int (m : ℤ) (hm : |m| < 2 ^ 53) :
    Dbl.roundNearest (m : ℝ) = Dbl.fin (m : ℝ) := by
  refine roundNearest_of_exact (m : ℝ) m 0 (by simp) hm (by decide) ?_
  have h1 : |(m : ℝ)| < (2 : ℝ) ^ (53 : ℕ) := by
    have : ((|m| : ℤ) : ℝ) < ((2 ^ 53 : ℤ) : ℝ) := by exact_mod_cast hm
    rw [Int.cast_abs] at this
    calc |(m : ℝ)| < ((2 ^ 53 : ℤ) : ℝ) := this
      _ = (2 : ℝ) ^ (53 : ℕ) := by norm_num
  calc |(m : ℝ)| < (2 : ℝ) ^ (53 : ℕ) := h1
    _ < (2 : ℝ) ^ (1024 : ℤ) := by norm_num

/-- In the normal range rounding has a relative error of at most `2^-53`. -/
theorem roundNearest_rel (x : ℝ) (h1 : (2 : ℝ) ^ (-1022 : ℤ) ≤ |x|)
    (h2 : |x| ≤ (2 : ℝ) ^ (1023 : ℤ)) :
    ∃ y : ℝ, Dbl.roundNearest x = Dbl.fin y ∧ |y - x| ≤ (2 : ℝ) ^ (-53 : ℤ) * |x| := by
  obtain ⟨y, hy, hb⟩ := roundNearest_close x h2
  refine ⟨y, hy, le_trans hb ?_⟩
  have := two_zpow_ulpExp_le x h1
  have e : (2 : ℝ) ^ (-53 : ℤ) * |x| = (2 : ℝ) ^ (-52 : ℤ) * |x| / 2 := by
    rw [show (-53 : ℤ) = -52 + -1 by norm_num, zpow_add₀ (by norm_num : (2 : ℝ) ≠ 0)]
    norm_num
    ring
  rw [e]
  exact div_le_div_of_nonneg_right this (by norm_num)

/-- Rounding a positive real number between `lo` and `hi`, in the normal range: the
result is finite and lies between `lo * (1 - 2^-53)` and `hi * (1 + 2^-53)`. -/
theorem roundNearest_bounds (x lo hi : ℝ) (hlo : (2 : ℝ) ^ (-1022 : ℤ) ≤ lo) (hx1 : lo ≤ x)
    (hx2 : x ≤ hi) (hhi : hi ≤ (2 : ℝ) ^ (1023 : ℤ)) :
    ∃ y : ℝ, Dbl.roundNearest x = Dbl.fin y ∧ lo * (1 - 1 / 2 ^ 53) ≤ y ∧
      y ≤ hi * (1 + 1 / 2 ^ 53) := by
  have hlo0 : (0 : ℝ) < lo := lt_of_lt_of_le (by positivity) hlo
  have hx0 : 0 < x := lt_of_lt_of_le hlo0 hx1
  obtain ⟨y, hy, hb⟩ := roundNearest_rel x (by rw [abs_of_pos hx0]; linarith)
    (by rw [abs_of_pos hx0]; linarith)
  rw [abs_of_pos hx0, abs_le, show (2 : ℝ) ^ (-53 : ℤ) = 1 / 2 ^ 53 by norm_num] at hb
  have hc : (0 : ℝ) < 1 / 2 ^ 53 := by positivity
  have hc1 : (1 : ℝ) / 2 ^ 53 < 1 := by norm_num
  refine ⟨y, hy, ?_, ?_⟩
  · have h1 : lo * (1 - 1 / 2 ^ 53) ≤ x * (1 - 1 / 2 ^ 53) :=
      mul_le_mul_of_nonneg_right hx1 (by linarith)
    linarith [hb.1]
  · have h1 : x * (1 + 1 / 2 ^ 53) ≤ hi * (1 + 1 / 2 ^ 53) :=
      mul_le_mul_of_nonneg_right hx2 (by linarith)
    linarith [hb.2]

/-- The literal `1e-8` is the binary64 value `6044629098073146 * 2^-79`. -/
theorem dbl_lit_tol : (1e-8 : Dbl) = Dbl.fin (6044629098073146 * (2 : ℝ) ^ (-79 : ℤ)) := by
  rw [dbl_lit, show (OfScientific.ofScientific 1 true 8 : ℝ) = 1 / 100000000 by norm_num]
  exact roundNearest_of_near _ _ (-27) 6044629098073146 (by decide) (by norm_num [abs_div])
    (by norm_num [abs_div]) (by norm_num) (by rw [abs_lt]; norm_num)
    (by norm_num [abs_div])

/-- A turn of the loop of `newton_raphson_n` on finite values that meets the tolerance
returns the ceiling of the new iterate. -/
theorem newton_raphson_n_loop_stop (st : FinancialState Dbl) (line_number k : Nat)
    (x f p d x1 : ℝ) (hf : fn st (Dbl.fin x) = Dbl.fin f)
    (hp : fn_prime st (Dbl.fin x) = Dbl.fin p) (hp0 : p ≠ 0)
    (hd : Dbl.roundNearest (f / p) = Dbl.fin d)
    (hx : Dbl.roundNearest (x + -d) = Dbl.fin x1)
    (hdt : |d| < 6044629098073146 * (2 : ℝ) ^ (-79 : ℤ)) (hpos : 0 < x1) :
    newton_raphson_n_loop st line_number (k + 1) (Dbl.fin x) = .ok (Dbl.fin (⌈x1⌉ : ℝ)) := by
  have hdelta : (Dbl.fin f / Dbl.fin p : Dbl) = Dbl.fin d := by rw [dbl_div f p hp0, hd]
  have hx1 : (Dbl.fin x - Dbl.fin d : Dbl) = Dbl.fin x1 := by rw [dbl_sub, hx]
  have hlt : (fabs (Dbl.fin d) < (1e-8 : Dbl)) := by
    rw [dbl_lit_tol, dbl_fabs]; exact (dbl_lt _ _).2 hdt
  have hle : ¬ ((Dbl.fin x1 : Dbl) ≤ 0.0) := by
    rw [dbl_lit_zero]; exact fun h => absurd ((dbl_le _ _).1 h) (not_le.2 hpos)
  have hne : ((Dbl.fin p : Dbl) == 0.0) = false := by
    rw [dbl_lit_zero, dbl_beq]; exact decide_eq_false hp0
  simp only [newton_raphson_n_loop, hf, hp, dbl_isfinite, hne, hdelta, hx1, hlt, hle,
    Bool.not_true, Bool.or_self, Bool.false_eq_true, if_false, if_true, dbl_ceil]

/-! ### A run of solve-for-n on doubles -/

/-- The function `fn` at the first guess 360, for `i = 1`, `PV = 1`, `PMT = 0` and
`FV = -(2^360 + 2^308)`: the value is `-2^308`, exactly. -/
theorem fn_at_360 (n0 : Dbl) :
    fn (⟨n0, Dbl.fin 1, Dbl.fin 1, Dbl.fin 0, Dbl.fin (-(2 ^ 360 + 2 ^ 308))⟩ :
      FinancialState Dbl) (Dbl.fin 360) = Dbl.fin (-2 ^ 308) := by
  have a1 : (1.0 : Dbl) + Dbl.fin 1 = Dbl.fin 2 := by
    rw [dbl_lit_one, dbl_add]
    norm_num
    exact roundNearest_of_exact 2 1 1 (by norm_num) (by decide) (by decide) (by norm_num)
  have a2 : (Dbl.fin 0 / Dbl.fin 1 : Dbl) = Dbl.fin 0 := by
    rw [dbl_div 0 1 (by norm_num)]
    norm_num
    exact roundNearest_zero
  have a3 : (Dbl.fin 1 + Dbl.fin 0 : Dbl) = Dbl.fin 1 := by
    rw [dbl_add]
    norm_num
    exact roundNearest_of_exact 1 1 0 (by norm_num) (by decide) (by decide) (by norm_num)
  have a4 : pow (Dbl.fin 2) (Dbl.fin 360) = Dbl.fin (2 ^ 360) := by
    rw [dbl_pow 2 360 (by norm_num) (by norm_num) (by norm_num),
      show (360 : ℝ) = ((360 : ℕ) : ℝ) by norm_num, Real.rpow_natCast]
    exact roundNearest_of_exact _ 1 360 (by norm_num) (by decide) (by decide) (by norm_num)
  have a5 : (Dbl.fin 1 * Dbl.fin (2 ^ 360) : Dbl) = Dbl.fin (2 ^ 360) := by
    rw [dbl_mul, one_mul]
    exact roundNearest_of_exact _ 1 360 (by norm_num) (by decide) (by decide) (by norm_num)
  have a6 : (Dbl.fin (2 ^ 360) - Dbl.fin 0 : Dbl) = Dbl.fin (2 ^ 360) := by
    rw [dbl_sub, neg_zero, add_zero]
    exact roundNearest_of_exact _ 1 360 (by norm_num) (by decide) (by decide) (by norm_num)
  have a7 : (Dbl.fin (2 ^ 360) + Dbl.fin (-(2 ^ 360 + 2 ^ 308)) : Dbl)
      = Dbl.fin (-2 ^ 308) := by
    rw [dbl_add, show (2 : ℝ) ^ 360 + -(2 ^ 360 + 2 ^ 308) = -2 ^ 308 by ring]
    exact roundNearest_of_exact _ (-1) 308 (by norm_num) (by decide) (by decide)
      (by norm_num)
  simp only [fn, a1, a2, a3, a4, a5, a6, a7]

/-- The function `fn_prime` at the first guess 360, for `i = 1`, `PV = 1`, `PMT = 0`:
a finite value between `2^359` and `2^360` (it is `ln 2 * 2^360`, rounded). -/
theorem fn_prime_at_360 (n0 fv : Dbl) :
    ∃ p : ℝ, fn_prime (⟨n0, Dbl.fin 1, Dbl.fin 1, Dbl.fin 0, fv⟩ : FinancialState Dbl)
        (Dbl.fin 360) = Dbl.fin p ∧ (2 : ℝ) ^ 359 ≤ p ∧ p ≤ (2 : ℝ) ^ 360 := by
  have a1 : (1.0 : Dbl) + Dbl.fin 1 = Dbl.fin 2 := by
    rw [dbl_lit_one, dbl_add]
    norm_num
    exact roundNearest_of_exact 2 1 1 (by norm_num) (by decide) (by decide) (by norm_num)
  have a2 : (Dbl.fin 0 / Dbl.fin 1 : Dbl) = Dbl.fin 0 := by
    rw [dbl_div 0 1 (by norm_num)]
    norm_num
    exact roundNearest_zero
  have a3 : (Dbl.fin 1 + Dbl.fin 0 : Dbl) = Dbl.fin 1 := by
    rw [dbl_add]
    norm_num
    exact roundNearest_of_exact 1 1 0 (by norm_num) (by decide) (by decide) (by norm_num)
  have a4 : pow (Dbl.fin 2) (Dbl.fin 360) = Dbl.fin (2 ^ 360) := by
    rw [dbl_pow 2 360 (by norm_num) (by norm_num) (by norm_num),
      show (360 : ℝ) = ((360 : ℕ) : ℝ) by norm_num, Real.rpow_natCast]
    exact roundNearest_of_exact _ 1 360 (by norm_num) (by decide) (by decide) (by norm_num)
  have hlog1 : (0.6931471803 : ℝ) < Real.log 2 := Real.log_two_gt_d9
  have hlog2 : Real.log 2 < (0.6931471808 : ℝ) := Real.log_two_lt_d9
  -- log(2), rounded
  obtain ⟨l0, hl0, hl0lo, hl0hi⟩ := roundNearest_bounds (Real.log 2) 0.6931471803
    0.6931471808 (by norm_num) hlog1.le hlog2.le (by norm_num)
  -- times PV + PMT / i = 1
  obtain ⟨l1, hl1, hl1lo, hl1hi⟩ := roundNearest_bounds (l0 * 1)
    (0.6931471803 * (1 - 1 / 2 ^ 53)) (0.6931471808 * (1 + 1 / 2 ^ 53)) (by norm_num)
    (by rw [mul_one]; exact hl0lo) (by rw [mul_one]; exact hl0hi) (by norm_num)
  -- times 2^360
  have hb : (0 : ℝ) < 2 ^ 360 := by positivity
  obtain ⟨p, hp, hplo, hphi⟩ := roundNearest_bounds (l1 * 2 ^ 360)
    (0.6931471803 * (1 - 1 / 2 ^ 53) * (1 - 1 / 2 ^ 53) * 2 ^ 360)
    (0.6931471808 * (1 + 1 / 2 ^ 53) * (1 + 1 / 2 ^ 53) * 2 ^ 360) (by norm_num)
    (mul_le_mul_of_nonneg_right hl1lo hb.le) (mul_le_mul_of_nonneg_right hl1hi hb.le)
    (by norm_num)
  refine ⟨p, ?_, le_trans (by norm_num) hplo, le_trans hphi (by norm_num)⟩
  simp only [fn_prime, a1, a2, a3, a4, dbl_log 2 (by norm_num), hl0, dbl_mul, hl1, hp]

/-- Solve-for-n on doubles for `i = 1`, `PV = 1`, `PMT = 0`, `FV = -(2^360 + 2^308)`: the
first step is about `3.2e-16`, too small to move 360, and the solver returns 360. -/
theorem newton_raphson_n_at_360 (n0 : Dbl) (line_number : Nat) :
    newton_raphson_n (⟨n0, Dbl.fin 1, Dbl.fin 1, Dbl.fin 0, Dbl.fin (-(2 ^ 360 + 2 ^ 308))⟩ :
      FinancialState Dbl) line_number = .ok (Dbl.fin 360) := by
  obtain ⟨p, hp, hplo, hphi⟩ := fn_prime_at_360 n0 (Dbl.fin (-(2 ^ 360 + 2 ^ 308)))
  have hp0 : 0 < p := lt_of_lt_of_le (by positivity) hplo
  -- the step
  have hq1 : (2 : ℝ) ^ 308 / 2 ^ 360 ≤ 2 ^ 308 / p :=
    div_le_div_of_nonneg_left (by positivity) hp0 hphi
  have hq2 : (2 : ℝ) ^ 308 / p ≤ 2 ^ 308 / 2 ^ 359 :=
    div_le_div_of_nonneg_left (by positivity) (by positivity) hplo
  have hqabs : |(-2 ^ 308 : ℝ) / p| = 2 ^ 308 / p := by
    rw [neg_div, abs_neg, abs_of_pos (by positivity)]
  obtain ⟨d, hd, hdb⟩ := roundNearest_rel ((-2 ^ 308 : ℝ) / p)
    (by rw [hqabs]; exact le_trans (by norm_num) hq1)
    (by rw [hqabs]; exact le_trans hq2 (by norm_num))
  rw [hqabs, show (2 : ℝ) ^ (-53 : ℤ) = 1 / 2 ^ 53 by norm_num] at hdb
  have hdabs : |d| ≤ 1 / 2 ^ 50 := by
    have h1 : |d| ≤ |d - (-2 ^ 308 : ℝ) / p| + |(-2 ^ 308 : ℝ) / p| := by
      have := abs_add (d - (-2 ^ 308 : ℝ) / p) ((-2 ^ 308 : ℝ) / p)
      simpa using this
    rw [hqabs] at h1
    have h2 : (1 : ℝ) / 2 ^ 53 * (2 ^ 308 / p) ≤ 1 / 2 ^ 53 * (2 ^ 308 / 2 ^ 359) :=
      mul_le_mul_of_nonneg_left hq2 (by positivity)
    have h3 : (1 : ℝ) / 2 ^ 53 * (2 ^ 308 / 2 ^ 359) + 2 ^ 308 / 2 ^ 359 ≤ 1 / 2 ^ 50 := by
      norm_num
    linarith
  rw [abs_le] at hdabs
  -- the new iterate
  have hx : Dbl.roundNearest (360 + -d) = Dbl.fin 360 := by
    have hpos : (0 : ℝ) < 360 + -d := by
      have : (1 : ℝ) / 2 ^ 50 < 1 := by norm_num
      linarith [hdabs.2]
    refine roundNearest_of_near _ _ 8 (360 * 2 ^ 44) (by decide) ?_ ?_ (by norm_num) ?_
      (by norm_num)
    · rw [abs_of_pos hpos]
      have : (1 : ℝ) / 2 ^ 50 < 1 := by norm_num
      have h8 : (2 : ℝ) ^ (8 : ℤ) = 256 := by norm_num
      linarith [hdabs.2]
    · rw [abs_of_pos hpos]
      have : (1 : ℝ) / 2 ^ 50 < 1 := by norm_num
      have h9 : (2 : ℝ) ^ ((8 : ℤ) + 1) = 512 := by norm_num
      linarith [hdabs.1]
    · have e : (360 + -d) / (2 : ℝ) ^ ((8 : ℤ) - 52) - ((360 * 2 ^ 44 : ℤ) : ℝ)
          = -d * 2 ^ 44 := by
        rw [show (2 : ℝ) ^ ((8 : ℤ) - 52) = 1 / 2 ^ 44 by norm_num]
        push_cast
        field_simp
        ring
      rw [e, abs_lt]
      have h44 : (0 : ℝ) < 2 ^ 44 := by positivity
      have hc : (1 : ℝ) / 2 ^ 50 * 2 ^ 44 < 1 / 2 := by norm_num
      constructor
      · nlinarith [hdabs.1, hdabs.2]
      · nlinarith [hdabs.1, hdabs.2]
  have hdt : |d| < 6044629098073146 * (2 : ℝ) ^ (-79 : ℤ) := by
    rw [abs_lt]
    have hc : (1 : ℝ) / 2 ^ 50 < 6044629098073146 * (2 : ℝ) ^ (-79 : ℤ) := by norm_num
    exact ⟨lt_of_lt_of_le (neg_lt_neg hc) hdabs.1, lt_of_le_of_lt hdabs.2 hc⟩
  have hi : ¬ ¬ ((⟨n0, Dbl.fin 1, Dbl.fin 1, Dbl.fin 0, Dbl.fin (-(2 ^ 360 + 2 ^ 308))⟩ :
      FinancialState Dbl).i > 0.0) := by
    rw [not_not, dbl_lit_zero]
    exact (dbl_lt 0 1).2 (by norm_num)
  have hstop := newton_raphson_n_loop_stop _ line_number 99999 360 _ p d 360
    (fn_at_360 n0) hp hp0.ne' hd hx hdt (by norm_num)
  unfold newton_raphson_n
  rw [if_neg hi, dbl_lit_360, hstop]
  norm_num

/-! ### Commands on doubles -/

/-- A line `set VAR VALUE` on doubles: `VALUE` is a decimal literal that `strtod` converts
in full, and the variable receives its value rounded to binary64. -/
theorem dbl_process_set (st : FinancialState Dbl) (command var num : CString)
    (line_number : Nat) (q : ℚ) (v : ℝ)
    (htok : tokens (command.take 39) = ["set".toList, var, num])
    (hq : strtodRat num = (q, num.length)) (hne : num.length ≠ 0)
    (hv : Dbl.roundNearest (q : ℝ) = Dbl.fin v) :
    tvm_process_command st command line_number
      = tvm_set_variable st var (Dbl.fin v) line_number := by
  rw [process_set st command var num line_number htok, dbl_strtod, hq]
  simp only [hv]
  rw [if_neg (by simp [hne])]

/-- The command `set n` on doubles with a positive integer value. -/
theorem dbl_set_n (st : FinancialState Dbl) (v : ℝ) (line_number : Nat) (hv : 0 < v)
    (hint : (⌊v⌋ : ℝ) = v) :
    tvm_set_variable st "n".toList (Dbl.fin v) line_number
      = .ok ⟨Dbl.fin v, st.i, st.PV, st.PMT, st.FV⟩ [] := by
  have h1 : (Dbl.fin v : Dbl) > 0.0 := by rw [dbl_lit_zero]; exact (dbl_lt 0 v).2 hv
  have h2 : is_integer_double (Dbl.fin v) = true := by
    simp only [is_integer_double, dbl_isfinite, dbl_floor, dbl_beq, hint, decide_True,
      Bool.and_self]
  simp only [tvm_set_variable, h1, h2, if_true, not_true_eq_false, decide_False,
    Bool.not_true, Bool.or_self, Bool.false_eq_true, if_false]

/-- The command `set i` on doubles with a positive value. -/
theorem dbl_set_i (st : FinancialState Dbl) (v : ℝ) (line_number : Nat) (hv : 0 < v) :
    tvm_set_variable st "i".toList (Dbl.fin v) line_number
      = .ok ⟨st.n, Dbl.fin v, st.PV, st.PMT, st.FV⟩ [] := by
  have h0 : ¬ ("i".toList = "n".toList) := by decide
  have h1 : (Dbl.fin v : Dbl) > 0.0 := by rw [dbl_lit_zero]; exact (dbl_lt 0 v).2 hv
  simp only [tvm_set_variable, h0, h1, if_true, not_true_eq_false, if_false]

/-- The commands `set PV` and `set FV`, for any arithmetic. -/
theorem set_PV_any {α : Type} [CDouble α] (st : FinancialState α) (v : α)
    (line_number : Nat) :
    tvm_set_variable st "PV".toList v line_number = .ok ⟨st.n, st.i, v, st.PMT, st.FV⟩ [] := by
  have h0 : ¬ ("PV".toList = "n".toList) := by decide
  have h1 : ¬ ("PV".toList = "i".toList) := by decide
  simp only [tvm_set_variable, h0, h1, if_true, if_false]
theorem set_FV_any {α : Type} [CDouble α] (st : FinancialState α) (v : α)
    (line_number : Nat) :
    tvm_set_variable st "FV".toList v line_number = .ok ⟨st.n, st.i, st.PV, st.PMT, v⟩ [] := by
  have h0 : ¬ ("FV".toList = "n".toList) := by decide
  have h1 : ¬ ("FV".toList = "i".toList) := by decide
  have h2 : ¬ ("FV".toList = "PV".toList) := by decide
  have h3 : ¬ ("FV".toList = "PMT".toList) := by decide
  simp only [tvm_set_variable, h0, h1, h2, h3, if_true, if_false]

/-- The initial state on doubles. -/
theorem dbl_tvm_clear :
    (tvm_clear : FinancialState Dbl)
      = ⟨Dbl.fin 0, Dbl.fin 0, Dbl.fin 0, Dbl.fin 0, Dbl.fin 0⟩ := by
  simp only [tvm_clear, dbl_lit_zero]

theorem strtodRat_60 : strtodRat "60".toList = (60, 2) := by
  simp [strtodRat, takeSign, digitsVal, digitVal, takeExponent, isSpaceC]
theorem strtodRat_1 : strtodRat "1".toList = (1, 1) := by
  simp [strtodRat, takeSign, digitsVal, digitVal, takeExponent, isSpaceC]
theorem strtodRat_100 : strtodRat "100".toList = (100, 3) := by
  simp [strtodRat, takeSign, digitsVal, digitVal, takeExponent, isSpaceC]
theorem strtodRat_50 : strtodRat "50".toList = (50, 2) := by
  simp [strtodRat, takeSign, digitsVal, digitVal, takeExponent, isSpaceC]

/-- The state after the four lines `set n 60`, `set i 1`, `set PV 100`, `set FV 50`. -/
theorem main_loop_set_60 (rest : List Char) :
    main_loop (tvm_clear : FinancialState Dbl) [] 0
        ("set n 60".toList ++ '\n' :: ("set i 1".toList ++ '\n' ::
          ("set PV 100".toList ++ '\n' :: ("set FV 50".toList ++ '\n' :: rest))))
      = main_loop (⟨Dbl.fin 60, Dbl.fin 1, Dbl.fin 100, Dbl.fin 0, Dbl.fin 50⟩ :
          FinancialState Dbl) [] 4 rest := by
  rw [dbl_tvm_clear]
  rw [main_loop_line _ _ _ _ _ (by decide) (by decide) (by decide) (by decide),
    dbl_process_set _ _ "n".toList "60".toList _ 60 60 (by decide) strtodRat_60 (by decide)
      (by exact_mod_cast roundNearest_int 60 (by decide)),
    dbl_set_n _ 60 _ (by norm_num) (by norm_num)]
  simp only []
  rw [main_loop_line _ _ _ _ _ (by decide) (by decide) (by decide) (by decide),
    dbl_process_set _ _ "i".toList "1".toList _ 1 1 (by decide) strtodRat_1 (by decide)
      (by exact_mod_cast roundNearest_int 1 (by decide)),
    dbl_set_i _ 1 _ (by norm_num)]
  simp only []
  rw [main_loop_line _ _ _ _ _ (by decide) (by decide) (by decide) (by decide),
    dbl_process_set _ _ "PV".toList "100".toList _ 100 100 (by decide) strtodRat_100
      (by decide) (by exact_mod_cast roundNearest_int 100 (by decide)),
    set_PV_any]
  simp only []
  rw [main_loop_line _ _ _ _ _ (by decide) (by decide) (by decide) (by decide),
    dbl_process_set _ _ "FV".toList "50".toList _ 50 50 (by decide) strtodRat_50
      (by decide) (by exact_mod_cast roundNearest_int 50 (by decide)),
    set_FV_any]
  rfl

/-- On doubles `1.0 + 1 = 2`. -/
theorem dbl_one_add_one : (1.0 : Dbl) + Dbl.fin 1 = Dbl.fin 2 := by
  rw [dbl_lit_one, dbl_add]
  norm_num
  exact roundNearest_of_exact 2 1 1 (by norm_num) (by decide) (by decide) (by norm_num)

/-- The command `compute PMT` on doubles for `n = 60`, `i = 1`, `PV = 100`, `FV = 50`:
`FV` is absorbed in `PV * 2^60` and `1` in `2^60`, and `PMT` receives -100. -/
theorem dbl_compute_PMT_60 (line_number : Nat) :
    tvm_compute_variable (⟨Dbl.fin 60, Dbl.fin 1, Dbl.fin 100, Dbl.fin 0, Dbl.fin 50⟩ :
        FinancialState Dbl) "PMT".toList line_number
      = .ok ⟨Dbl.fin 60, Dbl.fin 1, Dbl.fin 100, Dbl.fin (-100), Dbl.fin 50⟩
          [⟨"PMT = %.2f\n", Dbl.fin (-100)⟩] := by
  have hi : (⟨Dbl.fin 60, Dbl.fin 1, Dbl.fin 100, Dbl.fin 0, Dbl.fin 50⟩ :
      FinancialState Dbl).i > 0.0 := by
    rw [dbl_lit_zero]; exact (dbl_lt 0 1).2 (by norm_num)
  have a2 : pow (Dbl.fin 2) (Dbl.fin 60) = Dbl.fin (2 ^ 60) := by
    rw [dbl_pow 2 60 (by norm_num) (by norm_num) (by norm_num),
      show (60 : ℝ) = ((60 : ℕ) : ℝ) by norm_num, Real.rpow_natCast]
    exact roundNearest_of_exact _ 1 60 (by norm_num) (by decide) (by decide) (by norm_num)
  have a3 : (1.0 : Dbl) - Dbl.fin (2 ^ 60) = Dbl.fin (-2 ^ 60) := by
    rw [dbl_lit_one, dbl_sub]
    exact roundNearest_of_near _ _ 59 (-2 ^ 53) (by decide) (by norm_num) (by norm_num)
      (by norm_num) (by rw [abs_lt]; norm_num) (by norm_num)
  have a4 : (Dbl.fin 100 * Dbl.fin (2 ^ 60) : Dbl) = Dbl.fin (100 * 2 ^ 60) := by
    rw [dbl_mul]
    exact roundNearest_of_exact _ 25 62 (by norm_num) (by decide) (by decide) (by norm_num)
  have a5 : (Dbl.fin (100 * 2 ^ 60) + Dbl.fin 50 : Dbl) = Dbl.fin (100 * 2 ^ 60) := by
    rw [dbl_add]
    exact roundNearest_of_near _ _ 66 (100 * 2 ^ 46) (by decide) (by norm_num) (by norm_num)
      (by norm_num) (by rw [abs_lt]; norm_num) (by norm_num)
  have a6 : (Dbl.fin 1 * Dbl.fin (100 * 2 ^ 60) : Dbl) = Dbl.fin (100 * 2 ^ 60) := by
    rw [dbl_mul, one_mul]
    exact roundNearest_of_exact _ 25 62 (by norm_num) (by decide) (by decide) (by norm_num)
  have a7 : (Dbl.fin (100 * 2 ^ 60) / Dbl.fin (-2 ^ 60) : Dbl) = Dbl.fin (-100) := by
    rw [dbl_div _ _ (by norm_num), show (100 * 2 ^ 60 : ℝ) / (-2 ^ 60) = -100 by norm_num]
    exact roundNearest_of_exact _ (-100) 0 (by norm_num) (by decide) (by decide)
      (by norm_num)
  have a8 : ((Dbl.fin (-2 ^ 60) : Dbl) == 0.0) = false := by
    rw [dbl_lit_zero, dbl_beq]; exact decide_eq_false (by norm_num)
  rw [compute_PMT_any_arithmetic _ _ hi]
  simp only [dbl_one_add_one, a2, a3, a4, a5, a6, a7, a8, Bool.false_eq_true, if_false]

/-- The equation `fn(n)` on doubles in the state that `compute PMT` leaves for `n = 60`,
`i = 1`, `PV = 100`, `FV = 50`: the value is 150. -/
theorem dbl_fn_60 :
    fn (⟨Dbl.fin 60, Dbl.fin 1, Dbl.fin 100, Dbl.fin (-100), Dbl.fin 50⟩ :
      FinancialState Dbl) (Dbl.fin 60) = Dbl.fin 150 := by
  have a2 : pow (Dbl.fin 2) (Dbl.fin 60) = Dbl.fin (2 ^ 60) := by
    rw [dbl_pow 2 60 (by norm_num) (by norm_num) (by norm_num),
      show (60 : ℝ) = ((60 : ℕ) : ℝ) by norm_num, Real.rpow_natCast]
    exact roundNearest_of_exact _ 1 60 (by norm_num) (by decide) (by decide) (by norm_num)
  have b1 : (Dbl.fin (-100) / Dbl.fin 1 : Dbl) = Dbl.fin (-100) := by
    rw [dbl_div _ _ (by norm_num), div_one]
    exact roundNearest_of_exact _ (-100) 0 (by norm_num) (by decide) (by decide)
      (by norm_num)
  have b2 : (Dbl.fin 100 + Dbl.fin (-100) : Dbl) = Dbl.fin 0 := by
    rw [dbl_add, show (100 : ℝ) + -100 = 0 by norm_num]
    exact roundNearest_zero
  have b3 : (Dbl.fin 0 * Dbl.fin (2 ^ 60) : Dbl) = Dbl.fin 0 := by
    rw [dbl_mul, zero_mul]
    exact roundNearest_zero
  have b4 : (Dbl.fin 0 - Dbl.fin (-100) : Dbl) = Dbl.fin 100 := by
    rw [dbl_sub, show (0 : ℝ) + - -100 = 100 by norm_num]
    exact roundNearest_of_exact _ 100 0 (by norm_num) (by decide) (by decide) (by norm_num)
  have b5 : (Dbl.fin 100 + Dbl.fin 50 : Dbl) = Dbl.fin 150 := by
    rw [dbl_add, show (100 : ℝ) + 50 = 150 by norm_num]
    exact roundNearest_of_exact _ 150 0 (by norm_num) (by decide) (by decide) (by norm_num)
  simp only [fn, dbl_one_add_one, a2, b1, b2, b3, b4, b5]

/-- The command `compute FV` for any arithmetic: with `i > 0.0` it stores and prints
`-PV * a_to_n - PMT * (a_to_n - 1.0) / i`. -/
theorem compute_FV_any_arithmetic {α : Type} [CDouble α] (st : FinancialState α)
    (line_number : Nat) (hi : st.i > 0.0) :
    tvm_compute_variable st "FV".toList line_number
      = .ok ⟨st.n, st.i, st.PV, st.PMT,
            -st.PV * pow (1.0 + st.i) st.n
              - st.PMT * (pow (1.0 + st.i) st.n - 1.0) / st.i⟩
          [⟨"FV = %.2f\n",
            -st.PV * pow (1.0 + st.i) st.n
              - st.PMT * (pow (1.0 + st.i) st.n - 1.0) / st.i⟩] := by
  have h1 : ¬ ("FV".toList = "n".toList) := by decide
  have h2 : ¬ ("FV".toList = "i".toList) := by decide
  have h3 : ¬ ("FV".toList = "PV".toList) := by decide
  have h4 : ¬ ("FV".toList = "PMT".toList) := by decide
  have hc : check_i st line_number = .ok () := by simp [check_i, hi]
  simp only [tvm_compute_variable, h1, h2, h3, h4, if_false, if_true, hc]

/-- The command `compute PV` for any arithmetic: with `i > 0.0` it stores and prints
`-PMT * (1.0 - disc) / i - FV * disc` with `disc = pow(1.0 + i, -n)`. -/
theorem compute_PV_any_arithmetic {α : Type} [CDouble α] (st : FinancialState α)
    (line_number : Nat) (hi : st.i > 0.0) :
    tvm_compute_variable st "PV".toList line_number
      = .ok ⟨st.n, st.i,
            -st.PMT * (1.0 - pow (1.0 + st.i) (-st.n)) / st.i
              - st.FV * pow (1.0 + st.i) (-st.n),
            st.PMT, st.FV⟩
          [⟨"PV = %.2f\n",
            -st.PMT * (1.0 - pow (1.0 + st.i) (-st.n)) / st.i
              - st.FV * pow (1.0 + st.i) (-st.n)⟩] := by
  have h1 : ¬ ("PV".toList = "n".toList) := by decide
  have h2 : ¬ ("PV".toList = "i".toList) := by decide
  have hc : check_i st line_number = .ok () := by simp [check_i, hi]
  simp only [tvm_compute_variable, h1, h2, if_false, if_true, hc]

/-- The test `i > 0.0` on doubles. -/
theorem dbl_i_pos (n0 pv pmt fv : Dbl) (v : ℝ) (hv : 0 < v) :
    (⟨n0, Dbl.fin v, pv, pmt, fv⟩ : FinancialState Dbl).i > 0.0 := by
  rw [dbl_lit_zero]; exact (dbl_lt 0 v).2 hv

/-- A power of two with exponent between -1074 and 1023 is a value of the binary64
format. -/
theorem roundNearest_two_zpow (k : ℤ) (h1 : -1074 ≤ k) (h2 : k ≤ 1023) :
    Dbl.roundNearest ((2 : ℝ) ^ k) = Dbl.fin ((2 : ℝ) ^ k) := by
  refine roundNearest_of_exact _ 1 k (by simp) (by decide) h1 ?_
  rw [abs_of_pos (by positivity)]
  exact zpow_lt_zpow_right₀ (by norm_num) (by omega)

/-! ### A round trip on doubles -/

/-- The command `compute PMT` on doubles for `n = 1`, `i = 1`, `PV = 1`, `FV = 2^60`:
`PV * 2` is absorbed in `FV` and `PMT` receives `-2^60`. -/
theorem dbl_compute_PMT_trip (line_number : Nat) :
    tvm_compute_variable (⟨Dbl.fin 1, Dbl.fin 1, Dbl.fin 1, Dbl.fin 0, Dbl.fin (2 ^ 60)⟩ :
        FinancialState Dbl) "PMT".toList line_number
      = .ok ⟨Dbl.fin 1, Dbl.fin 1, Dbl.fin 1, Dbl.fin (-2 ^ 60), Dbl.fin (2 ^ 60)⟩
          [⟨"PMT = %.2f\n", Dbl.fin (-2 ^ 60)⟩] := by
  have a2 : pow (Dbl.fin 2) (Dbl.fin 1) = Dbl.fin 2 := by
    rw [dbl_pow 2 1 (by norm_num) (by norm_num) (by norm_num), Real.rpow_one]
    exact roundNearest_of_exact 2 1 1 (by norm_num) (by decide) (by decide) (by norm_num)
  have a3 : (1.0 : Dbl) - Dbl.fin 2 = Dbl.fin (-1) := by
    rw [dbl_lit_one, dbl_sub, show (1 : ℝ) + -2 = -1 by norm_num]
    exact roundNearest_of_exact _ (-1) 0 (by norm_num) (by decide) (by decide) (by norm_num)
  have a4 : (Dbl.fin 1 * Dbl.fin 2 : Dbl) = Dbl.fin 2 := by
    rw [dbl_mul, one_mul]
    exact roundNearest_of_exact 2 1 1 (by norm_num) (by decide) (by decide) (by norm_num)
  have a5 : (Dbl.fin 2 + Dbl.fin (2 ^ 60) : Dbl) = Dbl.fin (2 ^ 60) := by
    rw [dbl_add]
    exact roundNearest_of_near _ _ 60 (2 ^ 52) (by decide) (by norm_num) (by norm_num)
      (by norm_num) (by rw [abs_lt]; norm_num) (by norm_num)
  have a6 : (Dbl.fin 1 * Dbl.fin (2 ^ 60) : Dbl) = Dbl.fin (2 ^ 60) := by
    rw [dbl_mul, one_mul]
    exact roundNearest_of_exact _ 1 60 (by norm_num) (by decide) (by decide) (by norm_num)
  have a7 : (Dbl.fin (2 ^ 60) / Dbl.fin (-1) : Dbl) = Dbl.fin (-2 ^ 60) := by
    rw [dbl_div _ _ (by norm_num), show (2 ^ 60 : ℝ) / (-1) = -2 ^ 60 by norm_num]
    exact roundNearest_of_exact _ (-1) 60 (by norm_num) (by decide) (by decide)
      (by norm_num)
  have a8 : ((Dbl.fin (-1) : Dbl) == 0.0) = false := by
    rw [dbl_lit_zero, dbl_beq]; exact decide_eq_false (by norm_num)
  rw [compute_PMT_any_arithmetic _ _ (dbl_i_pos _ _ _ _ 1 (by norm_num))]
  simp only [dbl_one_add_one, a2, a3, a4, a5, a6, a7, a8, Bool.false_eq_true, if_false]

/-- The command `compute FV` on doubles for `n = 1`, `i = 1`, `PV = 1`, `PMT = -2^60`,
whatever `FV` holds: `FV` receives `2^60`. -/
theorem dbl_compute_FV_trip (fv0 : Dbl) (line_number : Nat) :
    tvm_compute_variable (⟨Dbl.fin 1, Dbl.fin 1, Dbl.fin 1, Dbl.fin (-2 ^ 60), fv0⟩ :
        FinancialState Dbl) "FV".toList line_number
      = .ok ⟨Dbl.fin 1, Dbl.fin 1, Dbl.fin 1, Dbl.fin (-2 ^ 60), Dbl.fin (2 ^ 60)⟩
          [⟨"FV = %.2f\n", Dbl.fin (2 ^ 60)⟩] := by
  have a2 : pow (Dbl.fin 2) (Dbl.fin 1) = Dbl.fin 2 := by
    rw [dbl_pow 2 1 (by norm_num) (by norm_num) (by norm_num), Real.rpow_one]
    exact roundNearest_of_exact 2 1 1 (by norm_num) (by decide) (by decide) (by norm_num)
  have b1 : (Dbl.fin (-1) * Dbl.fin 2 : Dbl) = Dbl.fin (-2) := by
    rw [dbl_mul, show (-1 : ℝ) * 2 = -2 by norm_num]
    exact roundNearest_of_exact _ (-1) 1 (by norm_num) (by decide) (by decide) (by norm_num)
  have b2 : (Dbl.fin 2 - 1.0 : Dbl) = Dbl.fin 1 := by
    rw [dbl_lit_one, dbl_sub, show (2 : ℝ) + -1 = 1 by norm_num]
    exact roundNearest_of_exact 1 1 0 (by norm_num) (by decide) (by decide) (by norm_num)
  have b3 : (Dbl.fin (-2 ^ 60) * Dbl.fin 1 : Dbl) = Dbl.fin (-2 ^ 60) := by
    rw [dbl_mul, mul_one]
    exact roundNearest_of_exact _ (-1) 60 (by norm_num) (by decide) (by decide)
      (by norm_num)
  have b4 : (Dbl.fin (-2 ^ 60) / Dbl.fin 1 : Dbl) = Dbl.fin (-2 ^ 60) := by
    rw [dbl_div _ _ (by norm_num), div_one]
    exact roundNearest_of_exact _ (-1) 60 (by norm_num) (by decide) (by decide)
      (by norm_num)
  have b5 : (Dbl.fin (-2) - Dbl.fin (-2 ^ 60) : Dbl) = Dbl.fin (2 ^ 60) := by
    rw [dbl_sub]
    exact roundNearest_of_near _ _ 59 (2 ^ 53) (by decide) (by norm_num) (by norm_num)
      (by norm_num) (by rw [abs_lt]; norm_num) (by norm_num)
  rw [compute_FV_any_arithmetic _ _ (dbl_i_pos _ _ _ _ 1 (by norm_num))]
  simp only [dbl_one_add_one, dbl_neg, a2, b1, b2, b3, b4, b5]

/-- The command `compute PV` on doubles for `n = 1`, `i = 1`, `PMT = -2^60`, `FV = 2^60`,
whatever `PV` holds: `PV` receives 0. -/
theorem dbl_compute_PV_trip (pv0 : Dbl) (line_number : Nat) :
    tvm_compute_variable (⟨Dbl.fin 1, Dbl.fin 1, pv0, Dbl.fin (-2 ^ 60), Dbl.fin (2 ^ 60)⟩ :
        FinancialState Dbl) "PV".toList line_number
      = .ok ⟨Dbl.fin 1, Dbl.fin 1, Dbl.fin 0, Dbl.fin (-2 ^ 60), Dbl.fin (2 ^ 60)⟩
          [⟨"PV = %.2f\n", Dbl.fin 0⟩] := by
  have c1 : pow (Dbl.fin 2) (Dbl.fin (-1)) = Dbl.fin (1 / 2) := by
    rw [dbl_pow 2 (-1) (by norm_num) (by norm_num) (by norm_num), Real.rpow_neg_one,
      show (2 : ℝ)⁻¹ = 1 / 2 by norm_num]
    exact roundNearest_of_exact _ 1 (-1) (by norm_num) (by decide) (by decide)
      (by norm_num [abs_div])
  have c2 : ((1.0 : Dbl) - Dbl.fin (1 / 2) : Dbl) = Dbl.fin (1 / 2) := by
    rw [dbl_lit_one, dbl_sub, show (1 : ℝ) + -(1 / 2) = 1 / 2 by norm_num]
    exact roundNearest_of_exact _ 1 (-1) (by norm_num) (by decide) (by decide)
      (by norm_num [abs_div])
  have c3 : (Dbl.fin (2 ^ 60) * Dbl.fin (1 / 2) : Dbl) = Dbl.fin (2 ^ 59) := by
    rw [dbl_mul, show (2 ^ 60 : ℝ) * (1 / 2) = 2 ^ 59 by norm_num]
    exact roundNearest_of_exact _ 1 59 (by norm_num) (by decide) (by decide) (by norm_num)
  have c4 : (Dbl.fin (2 ^ 59) / Dbl.fin 1 : Dbl) = Dbl.fin (2 ^ 59) := by
    rw [dbl_div _ _ (by norm_num), div_one]
    exact roundNearest_of_exact _ 1 59 (by norm_num) (by decide) (by decide) (by norm_num)
  have c5 : (Dbl.fin (2 ^ 59) - Dbl.fin (2 ^ 59) : Dbl) = Dbl.fin 0 := by
    rw [dbl_sub, add_neg_cancel]
    exact roundNearest_zero
  rw [compute_PV_any_arithmetic _ _ (dbl_i_pos _ _ _ _ 1 (by norm_num))]
  simp only [dbl_one_add_one, dbl_neg, neg_neg, c1, c2, c3, c4, c5]

theorem strtodRat_2pow60 :
    strtodRat "1152921504606846976".toList = (1152921504606846976, 19) := by
  simp [strtodRat, takeSign, digitsVal, digitVal, takeExponent, isSpaceC]
theorem strtodRat_1em17 : strtodRat "1e-17".toList = (1 / 10 ^ 17, 5) := by
  simp [strtodRat, takeSign, digitsVal, digitVal, takeExponent, isSpaceC]
  norm_num
theorem strtodRat_big :
    strtodRat "-2.348542582773834e108".toList = (-(2348542582773834 * 10 ^ 93), 22) := by
  simp [strtodRat, takeSign, digitsVal, digitVal, takeExponent, isSpaceC]
  norm_num

/-- The decimal literal `1e-17` converts to the binary64 value `6490371073168535 * 2^-109`,
which is below `2^-53`. -/
theorem roundNearest_1em17 :
    Dbl.roundNearest (((1 / 10 ^ 17 : ℚ)) : ℝ)
      = Dbl.fin (6490371073168535 * (2 : ℝ) ^ (-109 : ℤ)) := by
  push_cast
  exact roundNearest_of_near _ _ (-57) 6490371073168535 (by decide) (by norm_num [abs_div])
    (by norm_num [abs_div]) (by norm_num) (by rw [abs_lt]; norm_num)
    (by norm_num [abs_div])

/-- The decimal literal `0.05` converts to the binary64 value `7205759403792794 * 2^-57`. -/
theorem roundNearest_0_05 :
    Dbl.roundNearest (((1 / 20 : ℚ)) : ℝ)
      = Dbl.fin (7205759403792794 * (2 : ℝ) ^ (-57 : ℤ)) := by
  push_cast
  exact roundNearest_of_near _ _ (-5) 7205759403792794 (by decide) (by norm_num [abs_div])
    (by norm_num [abs_div]) (by norm_num) (by rw [abs_lt]; norm_num)
    (by norm_num [abs_div])

/-- The decimal literal `-2.348542582773834e108` converts to the binary64 value
`-(2^360 + 2^308)`. -/
theorem roundNearest_big :
    Dbl.roundNearest (((-(2348542582773834 * 10 ^ 93) : ℚ)) : ℝ)
      = Dbl.fin (-(2 ^ 360 + 2 ^ 308)) := by
  push_cast
  exact roundNearest_of_near _ _ 360 (-(2 ^ 52 + 1)) (by decide) (by norm_num)
    (by norm_num) (by norm_num) (by rw [abs_lt]; norm_num) (by norm_num)

/-- The decimal literal `1152921504606846976` is `2^60`. -/
theorem roundNearest_2pow60 :
    Dbl.roundNearest (((1152921504606846976 : ℚ)) : ℝ) = Dbl.fin (2 ^ 60) := by
  push_cast
  rw [show (1152921504606846976 : ℝ) = 2 ^ 60 by norm_num]
  exact roundNearest_of_exact _ 1 60 (by norm_num) (by decide) (by decide) (by norm_num)

/-- The command `compute PMT` on doubles for `n = 5` and `i = 1e-17`: `1.0 + i` rounds to
`1.0`, the denominator is zero and the command fails. -/
theorem dbl_compute_PMT_tiny_i (pv pmt fv : Dbl) (line_number : Nat) :
    tvm_compute_variable (⟨Dbl.fin 5, Dbl.fin (6490371073168535 * (2 : ℝ) ^ (-109 : ℤ)),
        pv, pmt, fv⟩ : FinancialState Dbl) "PMT".toList line_number
      = .die line_number "solver did not converge"
          ⟨Dbl.fin 5, Dbl.fin (6490371073168535 * (2 : ℝ) ^ (-109 : ℤ)), pv, pmt, fv⟩ [] := by
  have a1 : (1.0 : Dbl) + Dbl.fin (6490371073168535 * (2 : ℝ) ^ (-109 : ℤ)) = Dbl.fin 1 := by
    rw [dbl_lit_one, dbl_add]
    exact roundNearest_of_near _ _ 0 (2 ^ 52) (by decide) (by norm_num [abs_div])
      (by norm_num [abs_div]) (by norm_num) (by rw [abs_lt]; norm_num) (by norm_num)
  have a3 : (1.0 : Dbl) - Dbl.fin 1 = Dbl.fin 0 := by
    rw [dbl_lit_one, dbl_sub, add_neg_cancel]
    exact roundNearest_zero
  have a4 : ((Dbl.fin 0 : Dbl) == 0.0) = true := by
    rw [dbl_lit_zero, dbl_beq]; exact decide_eq_true rfl
  rw [compute_PMT_any_arithmetic _ _ (dbl_i_pos _ _ _ _ _ (by positivity))]
  simp only [a1, dbl_pow_one, a3, a4, if_true]

/-- The run of `main` on doubles for the lines `set n 5`, `set i 1e-17`, `set PV 1`,
`set FV 1`, `compute PMT`. -/
theorem dbl_main_tiny_i :
    main (α := Dbl) "set n 5\nset i 1e-17\nset PV 1\nset FV 1\ncompute PMT\n".toList
      = some (.die 5 "solver did not converge"
          ⟨Dbl.fin 5, Dbl.fin (6490371073168535 * (2 : ℝ) ^ (-109 : ℤ)), Dbl.fin 1,
            Dbl.fin 0, Dbl.fin 1⟩ []) := by
  unfold main
  rw [show "set n 5\nset i 1e-17\nset PV 1\nset FV 1\ncompute PMT\n".toList
      = "set n 5".toList ++ '\n' :: ("set i 1e-17".toList ++ '\n' ::
        ("set PV 1".toList ++ '\n' :: ("set FV 1".toList ++ '\n' ::
          ("compute PMT".toList ++ '\n' :: [])))) by decide]
  rw [dbl_tvm_clear]
  rw [main_loop_line _ _ _ _ _ (by decide) (by decide) (by decide) (by decide),
    dbl_process_set _ _ "n".toList "5".toList _ 5 5 (by decide) strtodRat_5 (by decide)
      (by exact_mod_cast roundNearest_int 5 (by decide)),
    dbl_set_n _ 5 _ (by norm_num) (by norm_num)]
  simp only []
  rw [main_loop_line _ _ _ _ _ (by decide) (by decide) (by decide) (by decide),
    dbl_process_set _ _ "i".toList "1e-17".toList _ _ _ (by decide) strtodRat_1em17
      (by decide) roundNearest_1em17,
    dbl_set_i _ _ _ (by positivity)]
  simp only []
  rw [main_loop_line _ _ _ _ _ (by decide) (by decide) (by decide) (by decide),
    dbl_process_set _ _ "PV".toList "1".toList _ 1 1 (by decide) strtodRat_1 (by decide)
      (by exact_mod_cast roundNearest_int 1 (by decide)),
    set_PV_any]
  simp only []
  rw [main_loop_line _ _ _ _ _ (by decide) (by decide) (by decide) (by decide),
    dbl_process_set _ _ "FV".toList "1".toList _ 1 1 (by decide) strtodRat_1 (by decide)
      (by exact_mod_cast roundNearest_int 1 (by decide)),
    set_FV_any]
  simp only []
  rw [main_loop_line _ _ _ _ _ (by decide) (by decide) (by decide) (by decide),
    process_compute _ _ "PMT".toList _ (by decide), dbl_compute_PMT_tiny_i]
  rfl

/-- The run of `main` on doubles for the lines `set n 1`, `set i 1`, `set PV 1`,
`set FV 1152921504606846976`, `compute PMT`, `compute FV`, `compute PV`. -/
theorem dbl_main_trip :
    main (α := Dbl)
        ("set n 1\nset i 1\nset PV 1\nset FV 1152921504606846976\n"
          ++ "compute PMT\ncompute FV\ncompute PV\n").toList
      = some (.ok ⟨Dbl.fin 1, Dbl.fin 1, Dbl.fin 0, Dbl.fin (-2 ^ 60), Dbl.fin (2 ^ 60)⟩
          [⟨"PMT = %.2f\n", Dbl.fin (-2 ^ 60)⟩, ⟨"FV = %.2f\n", Dbl.fin (2 ^ 60)⟩,
            ⟨"PV = %.2f\n", Dbl.fin 0⟩]) := by
  unfold main
  rw [show ("set n 1\nset i 1\nset PV 1\nset FV 1152921504606846976\n"
          ++ "compute PMT\ncompute FV\ncompute PV\n").toList
      = "set n 1".toList ++ '\n' :: ("set i 1".toList ++ '\n' ::
        ("set PV 1".toList ++ '\n' :: ("set FV 1152921504606846976".toList ++ '\n' ::
          ("compute PMT".toList ++ '\n' :: ("compute FV".toList ++ '\n' ::
            ("compute PV".toList ++ '\n' :: [])))))) by decide]
  rw [dbl_tvm_clear]
  rw [main_loop_line _ _ _ _ _ (by decide) (by decide) (by decide) (by decide),
    dbl_process_set _ _ "n".toList "1".toList _ 1 1 (by decide) strtodRat_1 (by decide)
      (by exact_mod_cast roundNearest_int 1 (by decide)),
    dbl_set_n _ 1 _ (by norm_num) (by norm_num)]
  simp only []
  rw [main_loop_line _ _ _ _ _ (by decide) (by decide) (by decide) (by decide),
    dbl_process_set _ _ "i".toList "1".toList _ 1 1 (by decide) strtodRat_1 (by decide)
      (by exact_mod_cast roundNearest_int 1 (by decide)),
    dbl_set_i _ 1 _ (by norm_num)]
  simp only []
  rw [main_loop_line _ _ _ _ _ (by decide) (by decide) (by decide) (by decide),
    dbl_process_set _ _ "PV".toList "1".toList _ 1 1 (by decide) strtodRat_1 (by decide)
      (by exact_mod_cast roundNearest_int 1 (by decide)),
    set_PV_any]
  simp only []
  rw [main_loop_line _ _ _ _ _ (by decide) (by decide) (by decide) (by decide),
    dbl_process_set _ _ "FV".toList "1152921504606846976".toList _ _ _ (by decide)
      strtodRat_2pow60 (by decide) roundNearest_2pow60,
    set_FV_any]
  simp only []
  rw [main_loop_line _ _ _ _ _ (by decide) (by decide) (by decide) (by decide),
    process_compute _ _ "PMT".toList _ (by decide), dbl_compute_PMT_trip]
  simp only []
  rw [main_loop_line _ _ _ _ _ (by decide) (by decide) (by decide) (by decide),
    process_compute _ _ "FV".toList _ (by decide), dbl_compute_FV_trip]
  simp only []
  rw [main_loop_line _ _ _ _ _ (by decide) (by decide) (by decide) (by decide),
    process_compute _ _ "PV".toList _ (by decide), dbl_compute_PV_trip]
  simp only []
  rw [main_loop_nil]
  rfl

/-- The run of `main` on doubles for the lines `set n 60`, `set i 1`, `set PV 100`,
`set FV 50`, `compute PMT`. -/
theorem dbl_main_60 :
    main (α := Dbl) "set n 60\nset i 1\nset PV 100\nset FV 50\ncompute PMT\n".toList
      = some (.ok ⟨Dbl.fin 60, Dbl.fin 1, Dbl.fin 100, Dbl.fin (-100), Dbl.fin 50⟩
          [⟨"PMT = %.2f\n", Dbl.fin (-100)⟩]) := by
  unfold main
  rw [show "set n 60\nset i 1\nset PV 100\nset FV 50\ncompute PMT\n".toList
      = "set n 60".toList ++ '\n' :: ("set i 1".toList ++ '\n' ::
        ("set PV 100".toList ++ '\n' :: ("set FV 50".toList ++ '\n' ::
          ("compute PMT".toList ++ '\n' :: [])))) by decide]
  rw [main_loop_set_60,
    main_loop_line _ _ _ _ _ (by decide) (by decide) (by decide) (by decide),
    process_compute _ _ "PMT".toList _ (by decide), dbl_compute_PMT_60]
  simp only []
  rw [main_loop_nil]
  rfl

/-- The run of `main` on doubles for the lines `set i 1`, `set PV 1`,
`set FV -2.348542582773834e108`, `compute n`. -/
theorem dbl_main_360 :
    main (α := Dbl) "set i 1\nset PV 1\nset FV -2.348542582773834e108\ncompute n\n".toList
      = some (.ok ⟨Dbl.fin 360, Dbl.fin 1, Dbl.fin 1, Dbl.fin 0,
            Dbl.fin (-(2 ^ 360 + 2 ^ 308))⟩
          [⟨"n = %.0f\n", Dbl.fin 360⟩]) := by
  unfold main
  rw [show "set i 1\nset PV 1\nset FV -2.348542582773834e108\ncompute n\n".toList
      = "set i 1".toList ++ '\n' :: ("set PV 1".toList ++ '\n' ::
        ("set FV -2.348542582773834e108".toList ++ '\n' ::
          ("compute n".toList ++ '\n' :: []))) by decide]
  rw [dbl_tvm_clear]
  rw [main_loop_line _ _ _ _ _ (by decide) (by decide) (by decide) (by decide),
    dbl_process_set _ _ "i".toList "1".toList _ 1 1 (by decide) strtodRat_1 (by decide)
      (by exact_mod_cast roundNearest_int 1 (by decide)),
    dbl_set_i _ 1 _ (by norm_num)]
  simp only []
  rw [main_loop_line _ _ _ _ _ (by decide) (by decide) (by decide) (by decide),
    dbl_process_set _ _ "PV".toList "1".toList _ 1 1 (by decide) strtodRat_1 (by decide)
      (by exact_mod_cast roundNearest_int 1 (by decide)),
    set_PV_any]
  simp only []
  rw [main_loop_line _ _ _ _ _ (by decide) (by decide) (by decide) (by decide),
    dbl_process_set _ _ "FV".toList "-2.348542582773834e108".toList _ _ _ (by decide)
      strtodRat_big (by decide) roundNearest_big,
    set_FV_any]
  simp only []
  rw [main_loop_line _ _ _ _ _ (by decide) (by decide) (by decide) (by decide),
    process_compute _ _ "n".toList _ (by decide)]
  simp only [tvm_compute_variable, if_true, newton_raphson_n_at_360]
  rw [main_loop_nil]
  rfl

/-- The run of `main` on doubles for the lines `clear`, `set i 0.05`, `compute PMT`:
with `n = 0` the power is 1 and the denominator 0. -/
theorem dbl_main_clear_set_i_compute_PMT :
    main (α := Dbl) "clear\nset i 0.05\ncompute PMT\n".toList
      = some (.die 3 "solver did not converge"
          ⟨Dbl.fin 0, Dbl.fin (7205759403792794 * (2 : ℝ) ^ (-57 : ℤ)), Dbl.fin 0,
            Dbl.fin 0, Dbl.fin 0⟩ []) := by
  have a3 : (1.0 : Dbl) - Dbl.fin 1 = Dbl.fin 0 := by
    rw [dbl_lit_one, dbl_sub, add_neg_cancel]
    exact roundNearest_zero
  have a4 : ((Dbl.fin 0 : Dbl) == 0.0) = true := by
    rw [dbl_lit_zero, dbl_beq]; exact decide_eq_true rfl
  unfold main
  rw [show "clear\nset i 0.05\ncompute PMT\n".toList
      = "clear".toList ++ '\n' :: ("set i 0.05".toList ++ '\n' ::
        ("compute PMT".toList ++ '\n' :: [])) by decide]
  rw [main_loop_line _ _ _ _ _ (by decide) (by decide) (by decide) (by decide),
    process_clear _ _ _ (by decide)]
  simp only []
  rw [dbl_tvm_clear]
  rw [main_loop_line _ _ _ _ _ (by decide) (by decide) (by decide) (by decide),
    dbl_process_set _ _ "i".toList "0.05".toList _ _ _ (by decide) strtodRat_0_05
      (by decide) roundNearest_0_05,
    dbl_set_i _ _ _ (by positivity)]
  simp only []
  rw [main_loop_line _ _ _ _ _ (by decide) (by decide) (by decide) (by decide),
    process_compute _ _ "PMT".toList _ (by decide),
    compute_PMT_any_arithmetic _ _ (dbl_i_pos _ _ _ _ _ (by positivity))]
  simp only [dbl_pow_zero, a3, a4, if_true]
  rfl

/-- C10: for every double arithmetic and every state with `i > 0.0`, `compute PMT` fails
with "solver did not converge" (variables untouched, nothing printed) exactly when the
computed `d = 1.0 - pow(1.0 + i, n)` compares equal to `0.0`, and otherwise succeeds,
printing and storing `i * (PV * pow(1.0 + i, n) + FV) / d` in `PMT` and leaving `n`, `i`,
`PV`, `FV` unchanged; the line `compute PMT` runs that command.  As real numbers, for
`i > 0`, `1 - (1 + i)^n = 0` exactly when `n = 0`. -/
theorem compute_PMT_contract {α : Type} [CDouble α] (st : FinancialState α)
    (line_number : Nat) (hi : st.i > 0.0) :
    (tvm_compute_variable st "PMT".toList line_number
        = .die line_number "solver did not converge" st []
      ↔ (1.0 - pow (1.0 + st.i) st.n == (0.0 : α)) = true) ∧
    (tvm_compute_variable st "PMT".toList line_number
        = .ok ⟨st.n, st.i, st.PV,
            st.i * (st.PV * pow (1.0 + st.i) st.n + st.FV) / (1.0 - pow (1.0 + st.i) st.n),
            st.FV⟩
          [⟨"PMT = %.2f\n",
            st.i * (st.PV * pow (1.0 + st.i) st.n + st.FV)
              / (1.0 - pow (1.0 + st.i) st.n)⟩]
      ↔ (1.0 - pow (1.0 + st.i) st.n == (0.0 : α)) = false) ∧
    tvm_process_command st "compute PMT".toList line_number
      = tvm_compute_variable st "PMT".toList line_number ∧
    (∀ i n : ℝ, 0 < i → ((1 : ℝ) - (1 + i) ^ n = 0 ↔ n = 0)) := by
  refine ⟨?_, ?_, process_compute st _ "PMT".toList line_number (by decide),
    fun i n h => one_sub_rpow_eq_zero_iff i n h⟩
  · rw [compute_PMT_any_arithmetic st line_number hi]
    cases h : (1.0 - pow (1.0 + st.i) st.n == (0.0 : α)) <;> simp
  · rw [compute_PMT_any_arithmetic st line_number hi]
    cases h : (1.0 - pow (1.0 + st.i) st.n == (0.0 : α)) <;> simp

/-- The state after `clear` and `set i 0.05` on doubles, where `n = 0`: the power is 1,
`d` is zero and `compute PMT` fails; the run of `main` on the three lines stops at line 3. -/
theorem compute_PMT_contract_witness :
    ((⟨Dbl.fin 0, Dbl.fin (7205759403792794 * (2 : ℝ) ^ (-57 : ℤ)), Dbl.fin 0, Dbl.fin 0,
        Dbl.fin 0⟩ : FinancialState Dbl).i > 0.0) ∧
    tvm_compute_variable (⟨Dbl.fin 0, Dbl.fin (7205759403792794 * (2 : ℝ) ^ (-57 : ℤ)),
        Dbl.fin 0, Dbl.fin 0, Dbl.fin 0⟩ : FinancialState Dbl) "PMT".toList 3
      = .die 3 "solver did not converge"
          ⟨Dbl.fin 0, Dbl.fin (7205759403792794 * (2 : ℝ) ^ (-57 : ℤ)), Dbl.fin 0,
            Dbl.fin 0, Dbl.fin 0⟩ [] ∧
    main (α := Dbl) "clear\nset i 0.05\ncompute PMT\n".toList
      = some (.die 3 "solver did not converge"
          ⟨Dbl.fin 0, Dbl.fin (7205759403792794 * (2 : ℝ) ^ (-57 : ℤ)), Dbl.fin 0,
            Dbl.fin 0, Dbl.fin 0⟩ []) := by
  have hi := dbl_i_pos (Dbl.fin 0) (Dbl.fin 0) (Dbl.fin 0) (Dbl.fin 0)
    (7205759403792794 * (2 : ℝ) ^ (-57 : ℤ)) (by positivity)
  refine ⟨hi, ?_, dbl_main_clear_set_i_compute_PMT⟩
  refine ((compute_PMT_contract _ 3 hi).1).2 ?_
  have a3 : (1.0 : Dbl) - Dbl.fin 1 = Dbl.fin 0 := by
    rw [dbl_lit_one, dbl_sub, add_neg_cancel]
    exact roundNearest_zero
  simp only [dbl_pow_zero, a3, dbl_lit_zero, dbl_beq, decide_True]

/-! ## Solve-for-n: what the stored value is -/

/-- For any arithmetic: a value returned by the loop of `newton_raphson_n` started at `x`
is the ceiling of the first iterate `N^[j+1] x` reached by a step below the tolerance,
with `N y = y - fn(y) / fn_prime(y)` the update of the loop; that iterate is finite and
not `<= 0.0`. -/
theorem newton_raphson_n_loop_ok_last {α : Type} [CDouble α] (st : FinancialState α)
    (line_number : Nat) :
    ∀ (k : Nat) (x v : α), newton_raphson_n_loop st line_number k x = .ok v →
      ∃ j : Nat, j < k ∧
        (∀ m : Nat, m < j →
          ¬ (fabs (fn st ((fun y => y - fn st y / fn_prime st y)^[m] x)
            / fn_prime st ((fun y => y - fn st y / fn_prime st y)^[m] x)) < 1e-8)) ∧
        fabs (fn st ((fun y => y - fn st y / fn_prime st y)^[j] x)
          / fn_prime st ((fun y => y - fn st y / fn_prime st y)^[j] x)) < 1e-8 ∧
        isfinite ((fun y => y - fn st y / fn_prime st y)^[j + 1] x) = true ∧
        ¬ ((fun y => y - fn st y / fn_prime st y)^[j + 1] x ≤ 0.0) ∧
        v = ceil ((fun y => y - fn st y / fn_prime st y)^[j + 1] x) := by
  intro k
  induction k with
  | zero =>
    intro x v h
    simp [newton_raphson_n_loop] at h
  | succ k ih =>
    intro x v h
    simp only [newton_raphson_n_loop] at h
    split at h
    · simp at h
    · split at h
      · simp at h
      · rename_i hfin
        split at h
        · rename_i htol
          split at h
          · simp at h
          · rename_i hpos
            simp only [Except.ok.injEq] at h
            refine ⟨0, by omega, fun m hm => absurd hm (by omega), htol, ?_, hpos, h.symm⟩
            simpa using hfin
        · rename_i htol
          obtain ⟨j, hj, hbefore, hstep, hf, hp, hv⟩ := ih _ v h
          refine ⟨j + 1, by omega, ?_, ?_, ?_, ?_, ?_⟩
          · intro m hm
            cases m with
            | zero => exact htol
            | succ m =>
              rw [Function.iterate_succ_apply]
              exact hbefore m (by omega)
          · rw [Function.iterate_succ_apply]; exact hstep
          · rw [Function.iterate_succ_apply]; exact hf
          · rw [Function.iterate_succ_apply]; exact hp
          · rw [Function.iterate_succ_apply]; exact hv

/-- For any arithmetic: after a successful `compute n` the stored `n` is the ceiling of
the first Newton iterate, counted from the guess `360.0`, that a step below the tolerance
`1e-8` reaches; the other variables are unchanged and the value is printed. -/
theorem compute_n_ok_last {α : Type} [CDouble α] (st st1 : FinancialState α)
    (line_number : Nat) (out : List (Printed α))
    (hok : tvm_compute_variable st "n".toList line_number = .ok st1 out) :
    st.i > 0.0 ∧
    ∃ j : Nat, j < 100000 ∧
      (∀ m : Nat, m < j →
        ¬ (fabs (fn st ((fun y => y - fn st y / fn_prime st y)^[m] 360.0)
          / fn_prime st ((fun y => y - fn st y / fn_prime st y)^[m] 360.0)) < 1e-8)) ∧
      fabs (fn st ((fun y => y - fn st y / fn_prime st y)^[j] 360.0)
        / fn_prime st ((fun y => y - fn st y / fn_prime st y)^[j] 360.0)) < 1e-8 ∧
      isfinite ((fun y => y - fn st y / fn_prime st y)^[j + 1] 360.0) = true ∧
      ¬ ((fun y => y - fn st y / fn_prime st y)^[j + 1] 360.0 ≤ 0.0) ∧
      st1 = ⟨ceil ((fun y => y - fn st y / fn_prime st y)^[j + 1] 360.0),
        st.i, st.PV, st.PMT, st.FV⟩ ∧
      out = [⟨"n = %.0f\n", ceil ((fun y => y - fn st y / fn_prime st y)^[j + 1] 360.0)⟩] := by
  simp only [tvm_compute_variable, if_true] at hok
  cases hnr : newton_raphson_n st line_number with
  | error e => rw [hnr] at hok; simp at hok
  | ok v =>
    rw [hnr] at hok
    simp only [Outcome.ok.injEq] at hok
    unfold newton_raphson_n at hnr
    simp only at hnr
    split at hnr
    · simp at hnr
    · rename_i hi
      obtain ⟨j, hj, hbefore, hstep, hf, hp, hv⟩ :=
        newton_raphson_n_loop_ok_last st line_number _ _ _ hnr
      refine ⟨not_not.1 hi, j, hj, hbefore, hstep, hf, hp, ?_, ?_⟩
      · rw [← hok.1, hv]
      · rw [← hok.2, hv]

/-- The real root of `2^x - (2^360 + 2^308)`: it lies strictly between 360 and 361. -/
theorem root_above_360 :
    ((1 : ℝ) + 0 / 1) * (1 + 1) ^ Real.logb 2 (2 ^ 360 + 2 ^ 308) - 0 / 1
        + -(2 ^ 360 + 2 ^ 308) = 0 ∧
    (360 : ℝ) < Real.logb 2 (2 ^ 360 + 2 ^ 308) ∧
    Real.logb 2 (2 ^ 360 + 2 ^ 308) < 361 := by
  have hpos : (0 : ℝ) < 2 ^ 360 + 2 ^ 308 := by positivity
  refine ⟨?_, ?_, ?_⟩
  · rw [show (1 : ℝ) + 1 = 2 by norm_num,
      Real.rpow_logb (by norm_num) (by norm_num) hpos]
    ring
  · rw [Real.lt_logb_iff_rpow_lt (by norm_num) hpos,
      show (360 : ℝ) = ((360 : ℕ) : ℝ) by norm_num, Real.rpow_natCast]
    norm_num
  · rw [Real.logb_lt_iff_lt_rpow (by norm_num) hpos,
      show (361 : ℝ) = ((361 : ℕ) : ℝ) by norm_num, Real.rpow_natCast]
    norm_num

/-- A finite double that is not `<= 0.0` stands for a positive real number. -/
theorem dbl_pos_of_isfinite (v : Dbl) (hf : isfinite v = true) (hp : ¬ (v ≤ 0.0)) :
    ∃ x : ℝ, v = Dbl.fin x ∧ 0 < x := by
  cases v with
  | fin x =>
    refine ⟨x, rfl, ?_⟩
    rw [dbl_lit_zero] at hp
    exact not_le.1 (fun h => hp ((dbl_le x 0).2 h))
  | pinf => exact absurd hf (by simp [show isfinite Dbl.pinf = false from rfl])
  | ninf => exact absurd hf (by simp [show isfinite Dbl.ninf = false from rfl])
  | nan => exact absurd hf (by simp [show isfinite Dbl.nan = false from rfl])

/-- In exact real arithmetic a Newton step of `f(x) = (PV + PMT/i) * (1+i)^x - PMT/i + FV`
lands at or above a root `r`, from any point `y`, and does not go up from a point at or
above `r`. -/
theorem newton_step_above_root (i PV PMT FV r y : ℝ) (hi : 0 < i)
    (hT : PV + PMT / i ≠ 0) (hroot : (PV + PMT / i) * (1 + i) ^ r - PMT / i + FV = 0) :
    r ≤ y - ((PV + PMT / i) * (1 + i) ^ y - PMT / i + FV)
        / (Real.log (1 + i) * (PV + PMT / i) * (1 + i) ^ y) ∧
    (r ≤ y →
      y - ((PV + PMT / i) * (1 + i) ^ y - PMT / i + FV)
        / (Real.log (1 + i) * (PV + PMT / i) * (1 + i) ^ y) ≤ y) := by
  have hroot1 : fn (⟨0, i, PV, PMT, FV⟩ : FinancialState ℝ) r = 0 := by
    rw [fn_real]; exact hroot
  have hfp := fn_prime_ne_zero (⟨0, i, PV, PMT, FV⟩ : FinancialState ℝ) y hi hT
  have h1 := (newton_iterate_near_root (⟨0, i, PV, PMT, FV⟩ : FinancialState ℝ) r y hi
    hroot1 hfp).1
  rw [fn_real, fn_prime_real] at h1
  refine ⟨h1, fun hy => ?_⟩
  have h2 := newton_step_nonneg (⟨0, i, PV, PMT, FV⟩ : FinancialState ℝ) r y hi hroot1 hfp hy
  rw [fn_real, fn_prime_real] at h2
  simp only at h2
  linarith

/-- As formulas over the real numbers the three closed forms solve the equation
`(PV + PMT/i) * (1+i)^n - PMT/i + FV = 0`, each for its own variable. -/
theorem closed_forms_are_roots (n i PV PMT FV : ℝ) (hi : 0 < i) :
    ((-PMT * (1 - (1 + i) ^ (-n)) / i - FV * (1 + i) ^ (-n)) + PMT / i) * (1 + i) ^ n
        - PMT / i + FV = 0 ∧
    (PV + PMT / i) * (1 + i) ^ n - PMT / i
        + (-PV * (1 + i) ^ n - PMT * ((1 + i) ^ n - 1) / i) = 0 ∧
    (1 - (1 + i) ^ n ≠ 0 →
      (PV + i * (PV * (1 + i) ^ n + FV) / (1 - (1 + i) ^ n) / i) * (1 + i) ^ n
        - i * (PV * (1 + i) ^ n + FV) / (1 - (1 + i) ^ n) / i + FV = 0) := by
  have ha : (0 : ℝ) < 1 + i := by linarith
  have hA : 0 < (1 + i) ^ n := Real.rpow_pos_of_pos ha _
  have hinv : (1 + i) ^ (-n) = ((1 + i) ^ n)⁻¹ := Real.rpow_neg ha.le _
  refine ⟨?_, ?_, ?_⟩
  · rw [hinv]
    field_simp
    ring
  · field_simp
    ring
  · intro hd
    field_simp
    ring

/-- C19, counterexample: on doubles the lines `set n 60`, `set i 1`, `set PV 100`,
`set FV 50`, `compute PMT` succeed and store `PMT = -100`; in the resulting state
`fn(n)` is 150, not 0, both as the program computes it and as a real-number formula on
the stored values. -/
theorem closed_form_residual_on_doubles :
    main (α := Dbl) "set n 60\nset i 1\nset PV 100\nset FV 50\ncompute PMT\n".toList
      = some (.ok ⟨Dbl.fin 60, Dbl.fin 1, Dbl.fin 100, Dbl.fin (-100), Dbl.fin 50⟩
          [⟨"PMT = %.2f\n", Dbl.fin (-100)⟩]) ∧
    fn (⟨Dbl.fin 60, Dbl.fin 1, Dbl.fin 100, Dbl.fin (-100), Dbl.fin 50⟩ :
      FinancialState Dbl) (Dbl.fin 60) = Dbl.fin 150 ∧
    (fn (⟨Dbl.fin 60, Dbl.fin 1, Dbl.fin 100, Dbl.fin (-100), Dbl.fin 50⟩ :
      FinancialState Dbl) (Dbl.fin 60) == (0.0 : Dbl)) = false ∧
    ((100 : ℝ) + -100 / 1) * (1 + 1) ^ (60 : ℝ) - -100 / 1 + 50 = 150 := by
  refine ⟨dbl_main_60, dbl_fn_60, ?_, by norm_num⟩
  rw [dbl_fn_60, dbl_lit_zero, dbl_beq]
  exact decide_eq_false (by norm_num)

/-! ## The round trip of the closed forms -/

/-- As formulas over the real numbers, with `i > 0` and `n ≠ 0`: the future value computed
from the payment that the closed form for `PMT` gives is the starting `FV`, and the present
value computed from that payment and that future value is the original `PV`. -/
theorem round_trip_formulas (n i PV FV : ℝ) (hi : 0 < i) (hn : n ≠ 0) :
    -PV * (1 + i) ^ n
        - i * (PV * (1 + i) ^ n + FV) / (1 - (1 + i) ^ n) * ((1 + i) ^ n - 1) / i = FV ∧
    -(i * (PV * (1 + i) ^ n + FV) / (1 - (1 + i) ^ n)) * (1 - (1 + i) ^ (-n)) / i
        - FV * (1 + i) ^ (-n) = PV := by
  have ha : (0 : ℝ) < 1 + i := by linarith
  have hA : 0 < (1 + i) ^ n := Real.rpow_pos_of_pos ha _
  have hd : 1 - (1 + i) ^ n ≠ 0 := by
    rw [Ne, one_sub_rpow_eq_zero_iff i n hi]; exact hn
  have hinv : (1 + i) ^ (-n) = ((1 + i) ^ n)⁻¹ := Real.rpow_neg ha.le _
  constructor
  · field_simp
    ring
  · rw [hinv]
    field_simp
    ring

/-- C8, counterexample: on doubles the round trip can fail and can lose `PV`.  The lines
`set n 5`, `set i 1e-17`, `set PV 1`, `set FV 1`, `compute PMT` end at line 5 with
"solver did not converge" (`1.0 + i` rounds to `1.0`).  The lines `set n 1`, `set i 1`,
`set PV 1`, `set FV 1152921504606846976` (that is `2^60`), `compute PMT`, `compute FV`,
`compute PV` succeed and end with `PV = 0`, not within `1e-4` of the original 1. -/
theorem round_trip_fails_on_doubles :
    main (α := Dbl) "set n 5\nset i 1e-17\nset PV 1\nset FV 1\ncompute PMT\n".toList
      = some (.die 5 "solver did not converge"
          ⟨Dbl.fin 5, Dbl.fin (6490371073168535 * (2 : ℝ) ^ (-109 : ℤ)), Dbl.fin 1,
            Dbl.fin 0, Dbl.fin 1⟩ []) ∧
    (0 : ℝ) < 6490371073168535 * (2 : ℝ) ^ (-109 : ℤ) ∧
    main (α := Dbl)
        ("set n 1\nset i 1\nset PV 1\nset FV 1152921504606846976\n"
          ++ "compute PMT\ncompute FV\ncompute PV\n").toList
      = some (.ok ⟨Dbl.fin 1, Dbl.fin 1, Dbl.fin 0, Dbl.fin (-2 ^ 60), Dbl.fin (2 ^ 60)⟩
          [⟨"PMT = %.2f\n", Dbl.fin (-2 ^ 60)⟩, ⟨"FV = %.2f\n", Dbl.fin (2 ^ 60)⟩,
            ⟨"PV = %.2f\n", Dbl.fin 0⟩]) ∧
    ¬ (|(0 : ℝ) - 1| ≤ 1 / 10000 * |(1 : ℝ)|) :=
  ⟨dbl_main_tiny_i, by positivity, dbl_main_trip, by norm_num⟩

/-! ## Rounding errors -/

/-- Rounding a real number of magnitude at most `2^1023`: the result is finite and the
error is at most `2^-53 * |x| + 2^-1075` (the second term covers the subnormal range). -/
theorem roundNearest_err (x : ℝ) (hx : |x| ≤ 2 ^ 1023) :
    ∃ y : ℝ, Dbl.roundNearest x = Dbl.fin y ∧ |y - x| ≤ 1 / 2 ^ 53 * |x| + 1 / 2 ^ 1075 := by
  have hx' : |x| ≤ (2 : ℝ) ^ (1023 : ℤ) := by
    rw [show (2 : ℝ) ^ (1023 : ℤ) = 2 ^ 1023 by norm_num]; exact hx
  by_cases h0 : x = 0
  · subst h0
    exact ⟨0, roundNearest_zero, by norm_num⟩
  by_cases hn : (2 : ℝ) ^ (-1022 : ℤ) ≤ |x|
  · obtain ⟨y, hy, hb⟩ := roundNearest_rel x hn hx'
    refine ⟨y, hy, ?_⟩
    rw [show (2 : ℝ) ^ (-53 : ℤ) = 1 / 2 ^ 53 by norm_num] at hb
    have : (0 : ℝ) ≤ 1 / 2 ^ 1075 := by positivity
    linarith
  · push_neg at hn
    obtain ⟨y, hy, hb⟩ := roundNearest_close x hx'
    refine ⟨y, hy, ?_⟩
    have hpos : 0 < |x| := abs_pos.2 h0
    have hL : Int.log 2 |x| < -1022 :=
      (Int.lt_zpow_iff_log_lt (by norm_num) hpos).1 (by exact_mod_cast hn)
    have hu : Dbl.ulpExp x = -1074 := by
      unfold Dbl.ulpExp
      rw [max_eq_right (by omega)]
      norm_num
    rw [hu, show (2 : ℝ) ^ (-1074 : ℤ) / 2 = 1 / 2 ^ 1075 by norm_num] at hb
    have : (0 : ℝ) ≤ 1 / 2 ^ 53 * |x| := by positivity
    linarith

/-- A value with a rounding error is at most the exact magnitude plus the error. -/
theorem abs_le_of_err (y x b : ℝ) (h : |y - x| ≤ b) : |y| ≤ |x| + b := by
  have := abs_add (y - x) x
  simp only [sub_add_cancel] at this
  linarith

/-- A value with a rounding error is at least the exact magnitude minus the error. -/
theorem abs_ge_of_err (y x b : ℝ) (h : |y - x| ≤ b) : |x| - b ≤ |y| := by
  have := abs_add (x - y) y
  simp only [sub_add_cancel] at this
  rw [abs_sub_comm] at this
  linarith

/-- The error of a product whose second factor carries an error. -/
theorem err_mul_left (a b c δ : ℝ) (h : |b - c| ≤ δ) : |a * b - a * c| ≤ |a| * δ := by
  rw [← mul_sub, abs_mul]
  exact mul_le_mul_of_nonneg_left h (abs_nonneg a)

/-- The error of a quotient whose numerator carries an error. -/
theorem err_div_right (x y i δ : ℝ) (hi : 0 < i) (h : |x - y| ≤ δ) :
    |x / i - y / i| ≤ δ / i := by
  rw [← sub_div, abs_div, abs_of_pos hi]
  exact div_le_div_of_nonneg_right h hi.le

/-! ### The round trip on doubles: magnitudes in `compute PMT` -/

set_option maxHeartbeats 1000000 in
/-- First stage of the round trip, `compute PMT` with
`t1 = PV * A`, `t2 = t1 + FV`, `t3 = i * t2`, `d = 1 - A`, `PMT = t3 / d`, each rounded
(the error bound of a rounding holds when its argument does not overflow): no argument
overflows, `d` is not zero and `|PMT| * (A - 1) ≤ 17 * i * M` with
`M = (2^20 + 2) * |PV| * A`. -/
theorem round_trip_stage_PMT (i A P F t1 t2 t3 d pm : ℝ)
    (hi1 : 1 / 2 ^ 100 ≤ i) (hi2 : i ≤ 2 ^ 100)
    (hA1 : 1 + 1 / 2 ^ 10 ≤ A) (hA2 : A ≤ 2 ^ 100)
    (hP1 : 1 / 2 ^ 100 ≤ |P|) (hP2 : |P| ≤ 2 ^ 100) (hF : |F| ≤ 2 ^ 20 * (|P| * A))
    (r1 : |P * A| ≤ 2 ^ 1023 → |t1 - P * A| ≤ 1 / 2 ^ 53 * |P * A| + 1 / 2 ^ 1075)
    (r2 : |t1 + F| ≤ 2 ^ 1023 → |t2 - (t1 + F)| ≤ 1 / 2 ^ 53 * |t1 + F| + 1 / 2 ^ 1075)
    (r3 : |i * t2| ≤ 2 ^ 1023 → |t3 - i * t2| ≤ 1 / 2 ^ 53 * |i * t2| + 1 / 2 ^ 1075)
    (r4 : |1 + -A| ≤ 2 ^ 1023 → |d - (1 + -A)| ≤ 1 / 2 ^ 53 * |1 + -A| + 1 / 2 ^ 1075)
    (r5 : |t3 / d| ≤ 2 ^ 1023 → |pm - t3 / d| ≤ 1 / 2 ^ 53 * |t3 / d| + 1 / 2 ^ 1075) :
    |P * A| ≤ 2 ^ 1023 ∧ |t1 + F| ≤ 2 ^ 1023 ∧ |i * t2| ≤ 2 ^ 1023 ∧
    |1 + -A| ≤ 2 ^ 1023 ∧ |t3 / d| ≤ 2 ^ 1023 ∧ d ≠ 0 ∧
    |pm| * (A - 1) ≤ 17 * (i * ((2 ^ 20 + 2) * (|P| * A))) := by
  have hq : (0 : ℝ) < 1 / 2 ^ 10 := by positivity
  have hi0 : 0 < i := lt_of_lt_of_le (by positivity) hi1
  have hA0 : 0 < A := by linarith
  have ha1 : 1 / 2 ^ 10 ≤ A - 1 := by linarith
  have ha2 : A - 1 ≤ 2 ^ 100 := by linarith
  have hp0 : 0 < |P| := lt_of_lt_of_le (by positivity) hP1
  obtain ⟨S, hS⟩ : ∃ S, S = |P| * A := ⟨_, rfl⟩
  have hSlo : 1 / 2 ^ 100 ≤ S := by
    rw [hS]
    calc (1 : ℝ) / 2 ^ 100 = 1 / 2 ^ 100 * 1 := by ring
      _ ≤ |P| * A := mul_le_mul hP1 (by linarith) (by norm_num) hp0.le
  have hShi : S ≤ 2 ^ 200 := by
    rw [hS]
    calc |P| * A ≤ 2 ^ 100 * 2 ^ 100 := mul_le_mul hP2 hA2 hA0.le (by positivity)
      _ = 2 ^ 200 := by norm_num
  have hPA : |P * A| = S := by rw [hS, abs_mul, abs_of_pos hA0]
  rw [hPA] at r1 ⊢
  rw [← hS] at hF ⊢
  obtain ⟨M, hM⟩ : ∃ M, M = (2 ^ 20 + 2) * S := ⟨_, rfl⟩
  rw [← hM]
  have hMlo : 1 / 2 ^ 100 ≤ M := by rw [hM]; linarith
  have hMhi : M ≤ 2 ^ 221 := by
    rw [hM]
    calc (2 ^ 20 + 2) * S ≤ (2 ^ 20 + 2) * 2 ^ 200 :=
          mul_le_mul_of_nonneg_left hShi (by positivity)
      _ ≤ 2 ^ 221 := by norm_num
  have hSM : (2 ^ 20 + 2) * S = M := hM.symm
  obtain ⟨iM, hiM⟩ : ∃ iM, iM = i * M := ⟨_, rfl⟩
  rw [← hiM]
  have hiMlo : 1 / 2 ^ 200 ≤ iM := by
    rw [hiM]
    calc (1 : ℝ) / 2 ^ 200 = 1 / 2 ^ 100 * (1 / 2 ^ 100) := by norm_num
      _ ≤ i * M := mul_le_mul hi1 hMlo (by positivity) hi0.le
  have hiMhi : iM ≤ 2 ^ 321 := by
    rw [hiM]
    calc i * M ≤ 2 ^ 100 * 2 ^ 221 := mul_le_mul hi2 hMhi (by linarith) (by positivity)
      _ = 2 ^ 321 := by norm_num
  -- the constants, as atoms
  have f0 : (0 : ℝ) ≤ 1 / 2 ^ 1075 := by positivity
  have f1 : (1 : ℝ) / 2 ^ 1075 ≤ 1 / 2 ^ 300 := by norm_num
  have hΩ : (2 : ℝ) ^ 340 ≤ 2 ^ 1023 := by norm_num
  have f2 : (1 : ℝ) / 2 ^ 1075 * (A - 1) ≤ 1 / 2 ^ 300 := by
    calc (1 : ℝ) / 2 ^ 1075 * (A - 1) ≤ 1 / 2 ^ 1075 * 2 ^ 100 :=
          mul_le_mul_of_nonneg_left ha2 (by positivity)
      _ ≤ 1 / 2 ^ 300 := by norm_num
  generalize (1 : ℝ) / 2 ^ 1075 = η at *
  generalize (2 : ℝ) ^ 1023 = Ω at *
  -- t1
  have b1 : S ≤ Ω := by linarith
  have r1' := r1 b1
  have m1 : |t1| ≤ 2 * S := by
    have := abs_le_of_err t1 (P * A) _ r1'
    rw [hPA] at this
    linarith
  -- t2
  have h2 : |t1 + F| ≤ |t1| + |F| := abs_add t1 F
  have b2 : |t1 + F| ≤ Ω := by linarith
  have r2' := r2 b2
  have m2 : |t2| ≤ 2 * M := by
    have h := abs_le_of_err t2 (t1 + F) _ r2'
    linarith
  -- t3
  have h3 : |i * t2| ≤ 2 * iM := by
    rw [abs_mul, abs_of_pos hi0, hiM]
    have := mul_le_mul_of_nonneg_left m2 hi0.le
    linarith
  have b3 : |i * t2| ≤ Ω := by linarith
  have r3' := r3 b3
  have m3 : |t3| ≤ 4 * iM := by
    have h := abs_le_of_err t3 (i * t2) _ r3'
    linarith
  -- d
  have hA1' : |1 + -A| = A - 1 := by rw [abs_of_neg (by linarith)]; ring
  rw [hA1'] at r4 ⊢
  have b4 : A - 1 ≤ Ω := by linarith
  have r4' := r4 b4
  have m4 : (A - 1) / 2 ≤ |d| := by
    have h := abs_ge_of_err d (1 + -A) _ r4'
    rw [hA1'] at h
    linarith
  have hd0 : 0 < |d| := lt_of_lt_of_le (by linarith) m4
  -- pm
  have hq5 : |t3 / d| * (A - 1) ≤ 8 * iM := by
    rw [abs_div, div_mul_eq_mul_div, div_le_iff₀ hd0]
    calc |t3| * (A - 1) ≤ 4 * iM * (A - 1) :=
          mul_le_mul_of_nonneg_right m3 (by linarith)
      _ = 8 * iM * ((A - 1) / 2) := by ring
      _ ≤ 8 * iM * |d| := mul_le_mul_of_nonneg_left m4 (by linarith)
  have h5 : |t3 / d| ≤ 2 ^ 10 * (8 * iM) := by
    have h6 : |t3 / d| * (1 / 2 ^ 10) ≤ |t3 / d| * (A - 1) :=
      mul_le_mul_of_nonneg_left ha1 (abs_nonneg _)
    have e : |t3 / d| = 2 ^ 10 * (|t3 / d| * (1 / 2 ^ 10)) := by ring
    rw [e]
    exact mul_le_mul_of_nonneg_left (le_trans h6 hq5) (by positivity)
  have b5 : |t3 / d| ≤ Ω := by linarith
  have r5' := r5 b5
  refine ⟨b1, b2, b3, b4, b5, abs_pos.1 hd0, ?_⟩
  have h := abs_le_of_err pm (t3 / d) _ r5'
  have h7 : |pm| * (A - 1) ≤ (|t3 / d| + (1 / 2 ^ 53 * |t3 / d| + η)) * (A - 1) :=
    mul_le_mul_of_nonneg_right h (by linarith)
  have e : (|t3 / d| + (1 / 2 ^ 53 * |t3 / d| + η)) * (A - 1)
      = |t3 / d| * (A - 1) + 1 / 2 ^ 53 * (|t3 / d| * (A - 1)) + η * (A - 1) := by ring
  rw [e] at h7
  linarith

/-! ### The round trip on doubles: the error of `compute FV` -/

set_option maxHeartbeats 1000000 in
/-- Second stage of the round trip, `compute FV` with `e = A - 1`, `s2 = PMT * e`,
`s3 = s2 / i`, `s1 = -PV * A`, `FV = s1 - s3`, each rounded: with `W * i = PMT * (A - 1)`
and `|W| ≤ 17 * M`, no argument overflows and the stored `FV` is within
`8 * 2^-53 * (|PV| * A + |W|) + 2^-970` of `-PV * A - W`. -/
theorem round_trip_stage_FV (i A P pm W e s2 s3 s1 fv : ℝ)
    (hi1 : 1 / 2 ^ 100 ≤ i) (hi2 : i ≤ 2 ^ 100)
    (hA1 : 1 + 1 / 2 ^ 10 ≤ A) (hA2 : A ≤ 2 ^ 100) (hP2 : |P| ≤ 2 ^ 100)
    (hW : W * i = pm * (A - 1))
    (hwM : |W| ≤ 17 * ((2 ^ 20 + 2) * (|P| * A)))
    (r6 : |A + -1| ≤ 2 ^ 1023 → |e - (A + -1)| ≤ 1 / 2 ^ 53 * |A + -1| + 1 / 2 ^ 1075)
    (r7 : |pm * e| ≤ 2 ^ 1023 → |s2 - pm * e| ≤ 1 / 2 ^ 53 * |pm * e| + 1 / 2 ^ 1075)
    (r8 : |s2 / i| ≤ 2 ^ 1023 → |s3 - s2 / i| ≤ 1 / 2 ^ 53 * |s2 / i| + 1 / 2 ^ 1075)
    (r9 : |-P * A| ≤ 2 ^ 1023 → |s1 - -P * A| ≤ 1 / 2 ^ 53 * |-P * A| + 1 / 2 ^ 1075)
    (r10 : |s1 + -s3| ≤ 2 ^ 1023 →
      |fv - (s1 + -s3)| ≤ 1 / 2 ^ 53 * |s1 + -s3| + 1 / 2 ^ 1075) :
    |A + -1| ≤ 2 ^ 1023 ∧ |pm * e| ≤ 2 ^ 1023 ∧ |s2 / i| ≤ 2 ^ 1023 ∧
    |-P * A| ≤ 2 ^ 1023 ∧ |s1 + -s3| ≤ 2 ^ 1023 ∧
    |fv - (-P * A - W)| ≤ 8 / 2 ^ 53 * (|P| * A + |W|) + 1 / 2 ^ 970 := by
  have hq : (0 : ℝ) < 1 / 2 ^ 10 := by positivity
  have hi0 : 0 < i := lt_of_lt_of_le (by positivity) hi1
  have hA0 : 0 < A := by linarith
  have ha1 : 1 / 2 ^ 10 ≤ A - 1 := by linarith
  have ha2 : A - 1 ≤ 2 ^ 100 := by linarith
  have hinv : 1 / i ≤ 2 ^ 100 := by
    rw [div_le_iff₀ hi0]
    have := mul_le_mul_of_nonneg_left hi1 (show (0 : ℝ) ≤ 2 ^ 100 by positivity)
    have e : (2 : ℝ) ^ 100 * (1 / 2 ^ 100) = 1 := by norm_num
    linarith
  obtain ⟨S, hS⟩ : ∃ S, S = |P| * A := ⟨_, rfl⟩
  have hS0 : 0 ≤ S := by rw [hS]; positivity
  have hShi : S ≤ 2 ^ 200 := by
    rw [hS]
    calc |P| * A ≤ 2 ^ 100 * 2 ^ 100 := mul_le_mul hP2 hA2 hA0.le (by positivity)
      _ = 2 ^ 200 := by norm_num
  obtain ⟨w, hw⟩ : ∃ w, w = |W| := ⟨_, rfl⟩
  have hw0 : 0 ≤ w := by rw [hw]; exact abs_nonneg W
  rw [← hS, ← hw] at hwM
  have hwhi : w ≤ 2 ^ 226 := by
    calc w ≤ 17 * ((2 ^ 20 + 2) * S) := hwM
      _ ≤ 17 * ((2 ^ 20 + 2) * 2 ^ 200) :=
          mul_le_mul_of_nonneg_left (mul_le_mul_of_nonneg_left hShi (by positivity))
            (by positivity)
      _ ≤ 2 ^ 226 := by norm_num
  obtain ⟨wi, hwi⟩ : ∃ wi, wi = w * i := ⟨_, rfl⟩
  have hwi0 : 0 ≤ wi := by rw [hwi]; positivity
  have hwihi : wi ≤ 2 ^ 326 := by
    rw [hwi]
    calc w * i ≤ 2 ^ 226 * 2 ^ 100 := mul_le_mul hwhi hi2 hi0.le (by positivity)
      _ = 2 ^ 326 := by norm_num
  have hpa : |pm| * (A - 1) = wi := by
    rw [hwi, hw]
    calc |pm| * (A - 1) = |pm * (A - 1)| := by
          rw [abs_mul, abs_of_pos (by linarith : 0 < A - 1)]
      _ = |W * i| := by rw [hW]
      _ = |W| * i := by rw [abs_mul, abs_of_pos hi0]
  -- the constants, as atoms
  have f0 : (0 : ℝ) ≤ 1 / 2 ^ 1075 := by positivity
  have f1 : (1 : ℝ) / 2 ^ 1075 ≤ 1 / 2 ^ 63 := by norm_num
  have f2 : 8 * ((1 : ℝ) / 2 ^ 1075 * 2 ^ 100) ≤ 1 / 2 ^ 970 := by norm_num
  have f3 : (1 : ℝ) / 2 ^ 1075 / i ≤ 1 / 2 ^ 1075 * 2 ^ 100 := by
    rw [div_eq_mul_one_div]
    exact mul_le_mul_of_nonneg_left hinv (by positivity)
  have f4 : (1 : ℝ) / 2 ^ 1075 ≤ 1 / 2 ^ 1075 * 2 ^ 100 := by norm_num
  have f5 : (1 : ℝ) / 2 ^ 970 ≤ 1 := by
    rw [div_le_one (by positivity)]
    exact one_le_pow₀ (by norm_num)
  have hΩ : (2 : ℝ) ^ 340 ≤ 2 ^ 1023 := by norm_num
  generalize (1 : ℝ) / 2 ^ 1075 = η at *
  generalize (1 : ℝ) / 2 ^ 970 = τ at *
  generalize (2 : ℝ) ^ 1023 = Ω at *
  obtain ⟨η', hη'⟩ : ∃ η', η' = η * 2 ^ 100 := ⟨_, rfl⟩
  rw [← hη'] at f2 f3 f4
  clear hη'
  rw [← hS, ← hw]
  -- e
  have hA1' : |A + -1| = A - 1 := by rw [abs_of_pos (by linarith)]; ring
  rw [hA1'] at r6 ⊢
  have b6 : A - 1 ≤ Ω := by linarith
  have r6' := r6 b6
  have he : |e - (A - 1)| ≤ 2 / 2 ^ 53 * (A - 1) := by
    have h2 : (1 : ℝ) / 2 ^ 53 * (1 / 2 ^ 10) ≤ 1 / 2 ^ 53 * (A - 1) :=
      mul_le_mul_of_nonneg_left ha1 (by positivity)
    have h3 : (1 : ℝ) / 2 ^ 53 * (1 / 2 ^ 10) = 1 / 2 ^ 63 := by norm_num
    rw [show e - (A - 1) = e - (A + -1) by ring]
    linarith
  -- pm * e
  have hpe : |pm * e - pm * (A - 1)| ≤ 2 / 2 ^ 53 * wi := by
    have := err_mul_left pm e (A - 1) _ he
    calc |pm * e - pm * (A - 1)| ≤ |pm| * (2 / 2 ^ 53 * (A - 1)) := this
      _ = 2 / 2 ^ 53 * (|pm| * (A - 1)) := by ring
      _ = 2 / 2 ^ 53 * wi := by rw [hpa]
  have hpa' : |pm * (A - 1)| = wi := by
    rw [abs_mul, abs_of_pos (by linarith : 0 < A - 1), hpa]
  have m7' : |pm * e| ≤ wi + 2 / 2 ^ 53 * wi := by
    have := abs_le_of_err _ _ _ hpe
    rw [hpa'] at this
    exact this
  have m7 : |pm * e| ≤ 2 * wi := by linarith
  have b7 : |pm * e| ≤ Ω := by linarith
  have r7' := r7 b7
  -- s2
  have h2 : |s2 - W * i| ≤ 4 / 2 ^ 53 * wi + η := by
    rw [hW]
    have := abs_sub_le s2 (pm * e) (pm * (A - 1))
    have hu : (1 : ℝ) / 2 ^ 53 * |pm * e| ≤ 1 / 2 ^ 53 * (2 * wi) :=
      mul_le_mul_of_nonneg_left m7 (by positivity)
    linarith
  -- s2 / i
  have h3 : |s2 / i - W| ≤ 4 / 2 ^ 53 * w + η' := by
    have := err_div_right s2 (W * i) i _ hi0 h2
    rw [mul_div_assoc, div_self hi0.ne', mul_one] at this
    have e : (4 / 2 ^ 53 * wi + η) / i = 4 / 2 ^ 53 * w + η / i := by
      rw [hwi]; field_simp; ring
    rw [e] at this
    linarith
  have m8 : |s2 / i| ≤ w + (4 / 2 ^ 53 * w + η') := by
    have := abs_le_of_err _ _ _ h3
    rw [← hw] at this
    exact this
  have b8 : |s2 / i| ≤ Ω := by linarith
  have r8' := r8 b8
  -- s3
  have h4 : |s3 - W| ≤ 6 / 2 ^ 53 * w + 3 * η' := by
    have := abs_sub_le s3 (s2 / i) W
    have hu : (1 : ℝ) / 2 ^ 53 * |s2 / i| ≤ 1 / 2 ^ 53 * (w + (4 / 2 ^ 53 * w + η')) :=
      mul_le_mul_of_nonneg_left m8 (by positivity)
    linarith
  -- s1
  have hPA : |-P * A| = S := by rw [hS, abs_mul, abs_neg, abs_of_pos hA0]
  rw [hPA] at r9 ⊢
  have b9 : S ≤ Ω := by linarith
  have r9' := r9 b9
  -- s1 - s3
  have h5 : |(s1 + -s3) - (-P * A - W)| ≤ 1 / 2 ^ 53 * S + 6 / 2 ^ 53 * w + 4 * η' := by
    have e : (s1 + -s3) - (-P * A - W) = (s1 - -P * A) - (s3 - W) := by ring
    rw [e]
    have := abs_sub (s1 - -P * A) (s3 - W)
    linarith
  have hX : |-P * A - W| ≤ S + w := by
    have := abs_sub (-P * A) W
    rw [hPA, ← hw] at this
    exact this
  have m10 : |s1 + -s3| ≤ S + w + (1 / 2 ^ 53 * S + 6 / 2 ^ 53 * w + 4 * η') := by
    have := abs_le_of_err _ _ _ h5
    linarith
  have b10 : |s1 + -s3| ≤ Ω := by linarith
  have r10' := r10 b10
  refine ⟨b6, b7, b8, b9, b10, ?_⟩
  have := abs_sub_le fv (s1 + -s3) (-P * A - W)
  have hu : (1 : ℝ) / 2 ^ 53 * |s1 + -s3|
      ≤ 1 / 2 ^ 53 * (S + w + (1 / 2 ^ 53 * S + 6 / 2 ^ 53 * w + 4 * η')) :=
    mul_le_mul_of_nonneg_left m10 (by positivity)
  linarith

/-! ### The round trip on doubles: the error of `compute PV` -/

set_option maxHeartbeats 4000000 in
/-- Third stage of the round trip, `compute PV` with `g1 = 1 - D`, `g2 = -PMT * g1`,
`g3 = g2 / i`, `g4 = FV * D`, `PV = g3 - g4`, each rounded, where `D` is the computed
`pow(1 + i, -n)` and `|A * D - 1| ≤ 2^-50`: no argument overflows and the stored `PV` is
within `1e-4 * |P|` of the original `P`. -/
theorem round_trip_stage_PV (i A D P pm W fv g1 g2 g3 g4 pv : ℝ)
    (hi1 : 1 / 2 ^ 100 ≤ i) (hi2 : i ≤ 2 ^ 100)
    (hA1 : 1 + 1 / 2 ^ 10 ≤ A) (hA2 : A ≤ 2 ^ 100)
    (hP1 : 1 / 2 ^ 100 ≤ |P|) (hP2 : |P| ≤ 2 ^ 100) (hAD : |A * D - 1| ≤ 1 / 2 ^ 50)
    (hW : W * i = pm * (A - 1))
    (hwM : |W| ≤ 17 * ((2 ^ 20 + 2) * (|P| * A)))
    (hfv : |fv - (-P * A - W)| ≤ 8 / 2 ^ 53 * (|P| * A + |W|) + 1 / 2 ^ 970)
    (r11 : |1 + -D| ≤ 2 ^ 1023 → |g1 - (1 + -D)| ≤ 1 / 2 ^ 53 * |1 + -D| + 1 / 2 ^ 1075)
    (r12 : |-pm * g1| ≤ 2 ^ 1023 → |g2 - -pm * g1| ≤ 1 / 2 ^ 53 * |-pm * g1| + 1 / 2 ^ 1075)
    (r13 : |g2 / i| ≤ 2 ^ 1023 → |g3 - g2 / i| ≤ 1 / 2 ^ 53 * |g2 / i| + 1 / 2 ^ 1075)
    (r14 : |fv * D| ≤ 2 ^ 1023 → |g4 - fv * D| ≤ 1 / 2 ^ 53 * |fv * D| + 1 / 2 ^ 1075)
    (r15 : |g3 + -g4| ≤ 2 ^ 1023 →
      |pv - (g3 + -g4)| ≤ 1 / 2 ^ 53 * |g3 + -g4| + 1 / 2 ^ 1075) :
    |1 + -D| ≤ 2 ^ 1023 ∧ |-pm * g1| ≤ 2 ^ 1023 ∧ |g2 / i| ≤ 2 ^ 1023 ∧
    |fv * D| ≤ 2 ^ 1023 ∧ |g3 + -g4| ≤ 2 ^ 1023 ∧
    |pv - P| ≤ 1 / 10000 * |P| := by
  have hq : (0 : ℝ) < 1 / 2 ^ 10 := by positivity
  have hi0 : 0 < i := lt_of_lt_of_le (by positivity) hi1
  have hA0 : 0 < A := by linarith
  have ha1 : 1 / 2 ^ 10 ≤ A - 1 := by linarith
  have hp0 : 0 < |P| := lt_of_lt_of_le (by positivity) hP1
  have hinv : 1 / i ≤ 2 ^ 100 := by
    rw [div_le_iff₀ hi0]
    have := mul_le_mul_of_nonneg_left hi1 (show (0 : ℝ) ≤ 2 ^ 100 by positivity)
    have e : (2 : ℝ) ^ 100 * (1 / 2 ^ 100) = 1 := by norm_num
    linarith
  -- c = 1 / A
  obtain ⟨c, hc⟩ : ∃ c, c = 1 / A := ⟨_, rfl⟩
  have hc0 : 0 < c := by rw [hc]; positivity
  have hAc : A * c = 1 := by rw [hc]; field_simp
  have hc1 : c ≤ 1 := by
    have : 1 * c ≤ A * c := mul_le_mul_of_nonneg_right (by linarith) hc0.le
    linarith
  -- D = (1 + ε) * c
  obtain ⟨ε, hε⟩ : ∃ ε, ε = A * D - 1 := ⟨_, rfl⟩
  rw [← hε] at hAD
  have hD : D = (1 + ε) * c := by
    rw [hε, hc]; field_simp
  obtain ⟨hε1, hε2⟩ := abs_le.1 hAD
  -- the atoms
  obtain ⟨p, hp⟩ : ∃ p, p = |P| := ⟨_, rfl⟩
  obtain ⟨S, hS⟩ : ∃ S, S = |P| * A := ⟨_, rfl⟩
  obtain ⟨w, hw⟩ : ∃ w, w = |W| := ⟨_, rfl⟩
  obtain ⟨v, hv⟩ : ∃ v, v = w * c := ⟨_, rfl⟩
  obtain ⟨wi, hwi⟩ : ∃ wi, wi = w * i := ⟨_, rfl⟩
  obtain ⟨vi, hvi⟩ : ∃ vi, vi = v * i := ⟨_, rfl⟩
  have hw0 : 0 ≤ w := by rw [hw]; exact abs_nonneg W
  have hv0 : 0 ≤ v := by rw [hv]; positivity
  have hwi0 : 0 ≤ wi := by rw [hwi]; positivity
  have hvi0 : 0 ≤ vi := by rw [hvi]; positivity
  have hS0 : 0 ≤ S := by rw [hS]; positivity
  have hSc : S * c = p := by rw [hS, hp, mul_assoc, hAc, mul_one]
  have hwic : wi * c = vi := by rw [hwi, hvi, hv]; ring
  have hviA : vi * A = wi := by rw [← hwic, mul_assoc, mul_comm c A, hAc, mul_one]
  have hvA : v * A = w := by rw [hv, mul_assoc, mul_comm c A, hAc, mul_one]
  have hwi_le : wi ≤ 2 ^ 100 * vi := by
    rw [← hviA]
    have := mul_le_mul_of_nonneg_left hA2 hvi0
    linarith
  have hpa : |pm| * (A - 1) = wi := by
    rw [hwi, hw]
    calc |pm| * (A - 1) = |pm * (A - 1)| := by
          rw [abs_mul, abs_of_pos (by linarith : 0 < A - 1)]
      _ = |W * i| := by rw [hW]
      _ = |W| * i := by rw [abs_mul, abs_of_pos hi0]
  have hpm : |pm| ≤ 2 ^ 10 * wi := by
    have h1 : |pm| * (1 / 2 ^ 10) ≤ |pm| * (A - 1) :=
      mul_le_mul_of_nonneg_left ha1 (abs_nonneg pm)
    rw [hpa] at h1
    have e : |pm| = 2 ^ 10 * (|pm| * (1 / 2 ^ 10)) := by ring
    rw [e]
    exact mul_le_mul_of_nonneg_left h1 (by positivity)
  have hvp : v ≤ 17 * ((2 ^ 20 + 2) * p) := by
    rw [← hw, ← hS] at hwM
    have := mul_le_mul_of_nonneg_right hwM hc0.le
    rw [← hv] at this
    have e : 17 * ((2 ^ 20 + 2) * S) * c = 17 * ((2 ^ 20 + 2) * (S * c)) := by ring
    rw [e, hSc] at this
    exact this
  rw [← hw, ← hS] at hfv
  have hShi : S ≤ 2 ^ 200 := by
    rw [hS]
    calc |P| * A ≤ 2 ^ 100 * 2 ^ 100 := mul_le_mul hP2 hA2 hA0.le (by positivity)
      _ = 2 ^ 200 := by norm_num
  have hwhi : w ≤ 2 ^ 226 := by
    rw [← hw, ← hS] at hwM
    calc w ≤ 17 * ((2 ^ 20 + 2) * S) := hwM
      _ ≤ 17 * ((2 ^ 20 + 2) * 2 ^ 200) :=
          mul_le_mul_of_nonneg_left (mul_le_mul_of_nonneg_left hShi (by positivity))
            (by positivity)
      _ ≤ 2 ^ 226 := by norm_num
  have hwihi : wi ≤ 2 ^ 326 := by
    rw [hwi]
    calc w * i ≤ 2 ^ 226 * 2 ^ 100 := mul_le_mul hwhi hi2 hi0.le (by positivity)
      _ = 2 ^ 326 := by norm_num
  have hwiv : vi ≤ wi := by
    rw [← hwic]
    have := mul_le_mul_of_nonneg_left hc1 hwi0
    linarith
  have hvw : v ≤ w := by
    rw [hv]
    have := mul_le_mul_of_nonneg_left hc1 hw0
    linarith
  have hpS : p ≤ S := by
    rw [← hSc]
    have := mul_le_mul_of_nonneg_left hc1 hS0
    linarith
  -- the small constants, as atoms
  have f0 : (0 : ℝ) ≤ 1 / 2 ^ 1075 := by positivity
  have f1 : |pm| * (1 / 2 ^ 1075) ≤ 1 / 2 ^ 53 * vi := by
    have h1 : |pm| ≤ 2 ^ 10 * (2 ^ 100 * vi) :=
      le_trans hpm (mul_le_mul_of_nonneg_left hwi_le (by positivity))
    have h2 := mul_le_mul_of_nonneg_right h1 f0
    have e : (2 : ℝ) ^ 10 * (2 ^ 100 * vi) * (1 / 2 ^ 1075) = 1 / 2 ^ 965 * vi := by
      field_simp
      ring
    rw [e] at h2
    have h3 : (1 : ℝ) / 2 ^ 965 * vi ≤ 1 / 2 ^ 53 * vi :=
      mul_le_mul_of_nonneg_right (by norm_num) hvi0
    linarith
  have f2 : 6 * ((1 : ℝ) / 2 ^ 1075 * 2 ^ 100) + 6 * (1 / 2 ^ 970) + 1 / 2 ^ 1075
      ≤ 1 / 2 ^ 60 * p := by
    have h1 : (1 : ℝ) / 2 ^ 60 * (1 / 2 ^ 100) ≤ 1 / 2 ^ 60 * p := by
      rw [hp]; exact mul_le_mul_of_nonneg_left hP1 (by positivity)
    have h2 : 6 * ((1 : ℝ) / 2 ^ 1075 * 2 ^ 100) + 6 * (1 / 2 ^ 970) + 1 / 2 ^ 1075
        ≤ 1 / 2 ^ 60 * (1 / 2 ^ 100) := by norm_num
    linarith
  have f3 : (1 : ℝ) / 2 ^ 1075 / i ≤ 1 / 2 ^ 1075 * 2 ^ 100 := by
    rw [div_eq_mul_one_div]
    exact mul_le_mul_of_nonneg_left hinv (by positivity)
  have f4 : (1 : ℝ) / 2 ^ 1075 ≤ 1 / 2 ^ 1075 * 2 ^ 100 := by norm_num
  have f5 : (2 : ℝ) * (1 / 2 ^ 1075 * 2 ^ 100) ≤ 1 / 2 ^ 970 := by norm_num
  have f6 : (0 : ℝ) ≤ 1 / 2 ^ 970 := by positivity
  have f7 : (1 : ℝ) / 2 ^ 970 ≤ 1 := by
    rw [div_le_one (by positivity)]
    exact one_le_pow₀ (by norm_num)
  have hΩ : (2 : ℝ) ^ 340 ≤ 2 ^ 1023 := by norm_num
  generalize (1 : ℝ) / 2 ^ 1075 = η at *
  generalize (1 : ℝ) / 2 ^ 970 = τ at *
  generalize (2 : ℝ) ^ 1023 = Ω at *
  obtain ⟨η', hη'⟩ : ∃ η', η' = η * 2 ^ 100 := ⟨_, rfl⟩
  rw [← hη'] at f2 f3 f4 f5
  clear hη'
  rw [← hp]
  -- 1 - D
  have h1D : 1 + -D = (1 - c) - ε * c := by rw [hD]; ring
  have hc1' : 1 - c = (A - 1) * c := by linarith [hAc]
  have h1Dlo : 0 ≤ 1 + -D := by
    rw [h1D, hc1']
    have h1 : (1 / 2 ^ 10) * c ≤ (A - 1) * c := mul_le_mul_of_nonneg_right ha1 hc0.le
    have h2 : ε * c ≤ 1 / 2 ^ 50 * c := mul_le_mul_of_nonneg_right hε2 hc0.le
    have h3 : (1 : ℝ) / 2 ^ 50 * c ≤ 1 / 2 ^ 10 * c :=
      mul_le_mul_of_nonneg_right (by norm_num) hc0.le
    linarith
  have habs1D : |1 + -D| = 1 + -D := abs_of_nonneg h1Dlo
  have h1Dhi : 1 + -D ≤ 1 := by
    rw [h1D]
    have h2 : -(1 / 2 ^ 50) * c ≤ ε * c := mul_le_mul_of_nonneg_right hε1 hc0.le
    have h3 : (1 : ℝ) / 2 ^ 50 * c ≤ 1 * c :=
      mul_le_mul_of_nonneg_right (by norm_num) hc0.le
    linarith
  rw [habs1D] at r11 ⊢
  have b11 : 1 + -D ≤ Ω := by linarith
  have r11' := r11 b11
  -- T = -pm * (1 - D), Y0 = -(W * i) * c
  have hT : |-pm * (1 + -D) - -(W * i) * c| ≤ 1 / 2 ^ 40 * vi := by
    have e : -pm * (1 + -D) - -(W * i) * c = pm * (ε * c) := by
      rw [h1D, hW, hc1']; ring
    rw [e, abs_mul, abs_mul, abs_of_pos hc0]
    have h1 : |pm| * (|ε| * c) ≤ 2 ^ 10 * wi * (1 / 2 ^ 50 * c) :=
      mul_le_mul hpm (mul_le_mul_of_nonneg_right hAD hc0.le) (by positivity) (by positivity)
    have e2 : (2 : ℝ) ^ 10 * wi * (1 / 2 ^ 50 * c) = 1 / 2 ^ 40 * (wi * c) := by
      field_simp
      ring
    rw [e2, hwic] at h1
    exact h1
  have hY0 : |-(W * i) * c| = vi := by
    rw [abs_mul, abs_neg, abs_mul, abs_of_pos hi0, abs_of_pos hc0, ← hw, ← hwi, hwic]
  have mT : |-pm * (1 + -D)| ≤ vi + 1 / 2 ^ 40 * vi := by
    have := abs_le_of_err _ _ _ hT
    rw [hY0] at this
    exact this
  -- -pm * g1
  have hg1 : |-pm * g1 - -pm * (1 + -D)| ≤ 3 / 2 ^ 53 * vi := by
    have h1 := err_mul_left (-pm) g1 (1 + -D) _ r11'
    rw [abs_neg] at h1
    have e : |pm| * (1 / 2 ^ 53 * (1 + -D) + η) = 1 / 2 ^ 53 * (|pm| * (1 + -D)) + |pm| * η := by
      ring
    rw [e] at h1
    have h2 : |pm| * (1 + -D) = |-pm * (1 + -D)| := by
      rw [abs_mul, abs_neg, abs_of_nonneg h1Dlo]
    rw [h2] at h1
    have h3 : (1 : ℝ) / 2 ^ 53 * |-pm * (1 + -D)| ≤ 1 / 2 ^ 53 * (vi + 1 / 2 ^ 40 * vi) :=
      mul_le_mul_of_nonneg_left mT (by positivity)
    linarith
  have m12 : |-pm * g1| ≤ 2 * vi := by
    have := abs_le_of_err _ _ _ hg1
    linarith
  have b12 : |-pm * g1| ≤ Ω := by linarith
  have r12' := r12 b12
  -- g2
  have hg2 : |g2 - -(W * i) * c| ≤ (1 / 2 ^ 40 + 5 / 2 ^ 53) * vi + η := by
    have t1 := abs_sub_le g2 (-pm * g1) (-(W * i) * c)
    have t2 := abs_sub_le (-pm * g1) (-pm * (1 + -D)) (-(W * i) * c)
    have h3 : (1 : ℝ) / 2 ^ 53 * |-pm * g1| ≤ 1 / 2 ^ 53 * (2 * vi) :=
      mul_le_mul_of_nonneg_left m12 (by positivity)
    linarith
  -- g2 / i
  have hg2i : |g2 / i - -(W * c)| ≤ (1 / 2 ^ 40 + 5 / 2 ^ 53) * v + η' := by
    have := err_div_right g2 (-(W * i) * c) i _ hi0 hg2
    have e1 : -(W * i) * c / i = -(W * c) := by field_simp; ring
    have e2 : ((1 / 2 ^ 40 + 5 / 2 ^ 53) * vi + η) / i
        = (1 / 2 ^ 40 + 5 / 2 ^ 53) * v + η / i := by
      rw [hvi]; field_simp; ring
    rw [e1, e2] at this
    linarith
  have hWc : |-(W * c)| = v := by
    rw [abs_neg, abs_mul, abs_of_pos hc0, ← hw, hv]
  have m13 : |g2 / i| ≤ v + ((1 / 2 ^ 40 + 5 / 2 ^ 53) * v + η') := by
    have := abs_le_of_err _ _ _ hg2i
    rw [hWc] at this
    exact this
  have b13 : |g2 / i| ≤ Ω := by linarith
  have r13' := r13 b13
  -- g3
  have hg3 : |g3 - -(W * c)| ≤ (1 / 2 ^ 40 + 7 / 2 ^ 53) * v + 3 * η' := by
    have t1 := abs_sub_le g3 (g2 / i) (-(W * c))
    have h3 : (1 : ℝ) / 2 ^ 53 * |g2 / i|
        ≤ 1 / 2 ^ 53 * (v + ((1 / 2 ^ 40 + 5 / 2 ^ 53) * v + η')) :=
      mul_le_mul_of_nonneg_left m13 (by positivity)
    linarith
  -- fv * D
  have hX : |-P * A - W| ≤ S + w := by
    have := abs_sub (-P * A) W
    rw [abs_mul, abs_neg, abs_of_pos hA0, ← hS, ← hw] at this
    exact this
  have hDabs : |D| ≤ 2 * c := by
    rw [hD, abs_mul, abs_of_pos hc0]
    have : |1 + ε| ≤ 2 := by
      rw [abs_le]
      have : (1 : ℝ) / 2 ^ 50 ≤ 1 := by norm_num
      constructor <;> linarith
    exact mul_le_mul_of_nonneg_right this hc0.le
  have hXc : (-P * A - W) * c = -P - W * c := by
    have : -P * A * c = -P * (A * c) := by ring
    rw [sub_mul, this, hAc]; ring
  have hfvD : |fv * D - (-P - W * c)| ≤ (16 / 2 ^ 53 + 1 / 2 ^ 50) * (p + v) + 2 * τ := by
    have e : fv * D - (-P - W * c) = (fv - (-P * A - W)) * D + (-P * A - W) * (ε * c) := by
      rw [← hXc, hD]; ring
    rw [e]
    have t1 := abs_add ((fv - (-P * A - W)) * D) ((-P * A - W) * (ε * c))
    have h1 : |(fv - (-P * A - W)) * D| ≤ (8 / 2 ^ 53 * (S + w) + τ) * (2 * c) := by
      rw [abs_mul]
      exact mul_le_mul hfv hDabs (abs_nonneg D) (by positivity)
    have h2 : |(-P * A - W) * (ε * c)| ≤ (S + w) * (1 / 2 ^ 50 * c) := by
      rw [abs_mul, abs_mul, abs_of_pos hc0]
      exact mul_le_mul hX (mul_le_mul_of_nonneg_right hAD hc0.le) (by positivity)
        (by positivity)
    have e1 : (8 / 2 ^ 53 * (S + w) + τ) * (2 * c)
        = 16 / 2 ^ 53 * (S * c + w * c) + 2 * (τ * c) := by ring
    have e2 : (S + w) * (1 / 2 ^ 50 * c) = 1 / 2 ^ 50 * (S * c + w * c) := by ring
    rw [e1, hSc, ← hv] at h1
    rw [e2, hSc, ← hv] at h2
    have h3 : τ * c ≤ τ * 1 := mul_le_mul_of_nonneg_left hc1 f6
    linarith
  have hXc' : |-P - W * c| ≤ p + v := by
    have := abs_sub (-P) (W * c)
    rw [abs_neg, abs_mul, abs_of_pos hc0, ← hw, ← hv, ← hp] at this
    exact this
  have m14 : |fv * D| ≤ (p + v) + ((16 / 2 ^ 53 + 1 / 2 ^ 50) * (p + v) + 2 * τ) := by
    have := abs_le_of_err _ _ _ hfvD
    linarith
  have hpv0 : 0 ≤ p + v := by rw [hp]; positivity
  have b14 : |fv * D| ≤ Ω := by linarith
  have r14' := r14 b14
  -- g4
  have hg4 : |g4 - (-P - W * c)| ≤ (18 / 2 ^ 53 + 1 / 2 ^ 50) * (p + v) + 3 * τ := by
    have t1 := abs_sub_le g4 (fv * D) (-P - W * c)
    have h3 : (1 : ℝ) / 2 ^ 53 * |fv * D|
        ≤ 1 / 2 ^ 53 * ((p + v) + ((16 / 2 ^ 53 + 1 / 2 ^ 50) * (p + v) + 2 * τ)) :=
      mul_le_mul_of_nonneg_left m14 (by positivity)
    linarith
  -- g3 - g4
  have hdiff : |(g3 + -g4) - P|
      ≤ (1 / 2 ^ 40 + 7 / 2 ^ 53) * v + 3 * η' + ((18 / 2 ^ 53 + 1 / 2 ^ 50) * (p + v) + 3 * τ) := by
    have e : (g3 + -g4) - P = (g3 - -(W * c)) - (g4 - (-P - W * c)) := by ring
    rw [e]
    have := abs_sub (g3 - -(W * c)) (g4 - (-P - W * c))
    linarith
  have m15 : |g3 + -g4| ≤ p + ((1 / 2 ^ 40 + 7 / 2 ^ 53) * v + 3 * η'
      + ((18 / 2 ^ 53 + 1 / 2 ^ 50) * (p + v) + 3 * τ)) := by
    have := abs_le_of_err _ _ _ hdiff
    rw [← hp] at this
    exact this
  have b15 : |g3 + -g4| ≤ Ω := by linarith
  have r15' := r15 b15
  refine ⟨b11, b12, b13, b14, b15, ?_⟩
  have t1 := abs_sub_le pv (g3 + -g4) P
  have h3 : (1 : ℝ) / 2 ^ 53 * |g3 + -g4|
      ≤ 1 / 2 ^ 53 * (p + ((1 / 2 ^ 40 + 7 / 2 ^ 53) * v + 3 * η'
        + ((18 / 2 ^ 53 + 1 / 2 ^ 50) * (p + v) + 3 * τ))) :=
    mul_le_mul_of_nonneg_left m15 (by positivity)
  have hp0' : 0 < p := by rw [hp]; exact hp0
  linarith

/-- Rounding, with the error bound conditional on the absence of overflow. -/
theorem roundNearest_cond (x : ℝ) :
    ∃ y : ℝ, |x| ≤ 2 ^ 1023 →
      Dbl.roundNearest x = Dbl.fin y ∧ |y - x| ≤ 1 / 2 ^ 53 * |x| + 1 / 2 ^ 1075 := by
  by_cases h : |x| ≤ 2 ^ 1023
  · obtain ⟨y, h1, h2⟩ := roundNearest_err x h
    exact ⟨y, fun _ => ⟨h1, h2⟩⟩
  · exact ⟨0, fun h' => absurd h' h⟩

set_option maxHeartbeats 1000000 in
/-- The round trip on doubles.  In a state with `2^-100 ≤ i ≤ 2^100` and
`2^-100 ≤ |PV| ≤ 2^100`, where `pow` returns finite values `A = pow(1.0 + i, n)` and
`D = pow(1.0 + i, -n)` with `1 + 2^-10 ≤ A ≤ 2^100` and `|A * D - 1| ≤ 2^-50`, and
`|FV| ≤ 2^20 * |PV| * A`: `compute PMT`, then `compute FV` (whatever `FV` holds), then
`compute PV` (whatever `PV` holds) succeed, and the stored `PV` is within `1e-4 * |PV|`
of the original one. -/
theorem round_trip_on_doubles (n pmt0 fv0 pv0 : Dbl) (i P F A D : ℝ) (l1 l2 l3 : Nat)
    (hi1 : 1 / 2 ^ 100 ≤ i) (hi2 : i ≤ 2 ^ 100)
    (hP1 : 1 / 2 ^ 100 ≤ |P|) (hP2 : |P| ≤ 2 ^ 100)
    (hA : pow (1.0 + Dbl.fin i) n = Dbl.fin A)
    (hD : pow (1.0 + Dbl.fin i) (-n) = Dbl.fin D)
    (hA1 : 1 + 1 / 2 ^ 10 ≤ A) (hA2 : A ≤ 2 ^ 100) (hAD : |A * D - 1| ≤ 1 / 2 ^ 50)
    (hF : |F| ≤ 2 ^ 20 * (|P| * A)) :
    ∃ pm fv pv : ℝ,
      tvm_compute_variable (⟨n, Dbl.fin i, Dbl.fin P, pmt0, Dbl.fin F⟩ : FinancialState Dbl)
          "PMT".toList l1
        = .ok ⟨n, Dbl.fin i, Dbl.fin P, Dbl.fin pm, Dbl.fin F⟩
            [⟨"PMT = %.2f\n", Dbl.fin pm⟩] ∧
      tvm_compute_variable (⟨n, Dbl.fin i, Dbl.fin P, Dbl.fin pm, fv0⟩ : FinancialState Dbl)
          "FV".toList l2
        = .ok ⟨n, Dbl.fin i, Dbl.fin P, Dbl.fin pm, Dbl.fin fv⟩
            [⟨"FV = %.2f\n", Dbl.fin fv⟩] ∧
      tvm_compute_variable (⟨n, Dbl.fin i, pv0, Dbl.fin pm, Dbl.fin fv⟩ : FinancialState Dbl)
          "PV".toList l3
        = .ok ⟨n, Dbl.fin i, Dbl.fin pv, Dbl.fin pm, Dbl.fin fv⟩
            [⟨"PV = %.2f\n", Dbl.fin pv⟩] ∧
      |pv - P| ≤ 1 / 10000 * |P| := by
  have hi0 : 0 < i := lt_of_lt_of_le (by positivity) hi1
  have ha0 : 0 < A - 1 := by linarith [show (0 : ℝ) < 1 / 2 ^ 10 by positivity]
  -- compute PMT
  obtain ⟨t1, c1⟩ := roundNearest_cond (P * A)
  obtain ⟨t2, c2⟩ := roundNearest_cond (t1 + F)
  obtain ⟨t3, c3⟩ := roundNearest_cond (i * t2)
  obtain ⟨d, c4⟩ := roundNearest_cond (1 + -A)
  obtain ⟨pm, c5⟩ := roundNearest_cond (t3 / d)
  obtain ⟨b1, b2, b3, b4, b5, hd0, hpmM⟩ :=
    round_trip_stage_PMT i A P F t1 t2 t3 d pm hi1 hi2 hA1 hA2 hP1 hP2 hF
      (fun h => (c1 h).2) (fun h => (c2 h).2) (fun h => (c3 h).2) (fun h => (c4 h).2)
      (fun h => (c5 h).2)
  -- W = PMT * (A - 1) / i
  obtain ⟨W, hWdef⟩ : ∃ W, W = pm * (A - 1) / i := ⟨_, rfl⟩
  have hW : W * i = pm * (A - 1) := by rw [hWdef]; field_simp
  have hwM : |W| ≤ 17 * ((2 ^ 20 + 2) * (|P| * A)) := by
    rw [hWdef, abs_div, abs_mul, abs_of_pos ha0, abs_of_pos hi0, div_le_iff₀ hi0]
    calc |pm| * (A - 1) ≤ 17 * (i * ((2 ^ 20 + 2) * (|P| * A))) := hpmM
      _ = 17 * ((2 ^ 20 + 2) * (|P| * A)) * i := by ring
  -- compute FV
  obtain ⟨e, c6⟩ := roundNearest_cond (A + -1)
  obtain ⟨s2, c7⟩ := roundNearest_cond (pm * e)
  obtain ⟨s3, c8⟩ := roundNearest_cond (s2 / i)
  obtain ⟨s1, c9⟩ := roundNearest_cond (-P * A)
  obtain ⟨fv, c10⟩ := roundNearest_cond (s1 + -s3)
  obtain ⟨b6, b7, b8, b9, b10, hfv⟩ :=
    round_trip_stage_FV i A P pm W e s2 s3 s1 fv hi1 hi2 hA1 hA2 hP2 hW hwM
      (fun h => (c6 h).2) (fun h => (c7 h).2) (fun h => (c8 h).2) (fun h => (c9 h).2)
      (fun h => (c10 h).2)
  -- compute PV
  obtain ⟨g1, c11⟩ := roundNearest_cond (1 + -D)
  obtain ⟨g2, c12⟩ := roundNearest_cond (-pm * g1)
  obtain ⟨g3, c13⟩ := roundNearest_cond (g2 / i)
  obtain ⟨g4, c14⟩ := roundNearest_cond (fv * D)
  obtain ⟨pv, c15⟩ := roundNearest_cond (g3 + -g4)
  obtain ⟨b11, b12, b13, b14, b15, hpv⟩ :=
    round_trip_stage_PV i A D P pm W fv g1 g2 g3 g4 pv hi1 hi2 hA1 hA2 hP1 hP2 hAD hW hwM hfv
      (fun h => (c11 h).2) (fun h => (c12 h).2) (fun h => (c13 h).2) (fun h => (c14 h).2)
      (fun h => (c15 h).2)
  refine ⟨pm, fv, pv, ?_, ?_, ?_, hpv⟩
  · have e1 : (Dbl.fin P * Dbl.fin A : Dbl) = Dbl.fin t1 := by rw [dbl_mul]; exact (c1 b1).1
    have e2 : (Dbl.fin t1 + Dbl.fin F : Dbl) = Dbl.fin t2 := by rw [dbl_add]; exact (c2 b2).1
    have e3 : (Dbl.fin i * Dbl.fin t2 : Dbl) = Dbl.fin t3 := by rw [dbl_mul]; exact (c3 b3).1
    have e4 : ((1.0 : Dbl) - Dbl.fin A) = Dbl.fin d := by
      rw [dbl_lit_one, dbl_sub]; exact (c4 b4).1
    have e5 : (Dbl.fin t3 / Dbl.fin d : Dbl) = Dbl.fin pm := by
      rw [dbl_div _ _ hd0]; exact (c5 b5).1
    have e6 : ((Dbl.fin d : Dbl) == 0.0) = false := by
      rw [dbl_lit_zero, dbl_beq]; exact decide_eq_false hd0
    rw [compute_PMT_any_arithmetic _ _ (dbl_i_pos _ _ _ _ i hi0)]
    simp only [hA, e1, e2, e3, e4, e5, e6, Bool.false_eq_true, if_false]
  · have e1 : (Dbl.fin (-P) * Dbl.fin A : Dbl) = Dbl.fin s1 := by rw [dbl_mul]; exact (c9 b9).1
    have e2 : (Dbl.fin A - (1.0 : Dbl)) = Dbl.fin e := by
      rw [dbl_lit_one, dbl_sub]; exact (c6 b6).1
    have e3 : (Dbl.fin pm * Dbl.fin e : Dbl) = Dbl.fin s2 := by rw [dbl_mul]; exact (c7 b7).1
    have e4 : (Dbl.fin s2 / Dbl.fin i : Dbl) = Dbl.fin s3 := by
      rw [dbl_div _ _ hi0.ne']; exact (c8 b8).1
    have e5 : (Dbl.fin s1 - Dbl.fin s3 : Dbl) = Dbl.fin fv := by
      rw [dbl_sub]; exact (c10 b10).1
    rw [compute_FV_any_arithmetic _ _ (dbl_i_pos _ _ _ _ i hi0)]
    simp only [hA, dbl_neg, e1, e2, e3, e4, e5]
  · have e1 : ((1.0 : Dbl) - Dbl.fin D) = Dbl.fin g1 := by
      rw [dbl_lit_one, dbl_sub]; exact (c11 b11).1
    have e2 : (Dbl.fin (-pm) * Dbl.fin g1 : Dbl) = Dbl.fin g2 := by
      rw [dbl_mul]; exact (c12 b12).1
    have e3 : (Dbl.fin g2 / Dbl.fin i : Dbl) = Dbl.fin g3 := by
      rw [dbl_div _ _ hi0.ne']; exact (c13 b13).1
    have e4 : (Dbl.fin fv * Dbl.fin D : Dbl) = Dbl.fin g4 := by
      rw [dbl_mul]; exact (c14 b14).1
    have e5 : (Dbl.fin g3 - Dbl.fin g4 : Dbl) = Dbl.fin pv := by
      rw [dbl_sub]; exact (c15 b15).1
    rw [compute_PV_any_arithmetic _ _ (dbl_i_pos _ _ _ _ i hi0)]
    simp only [hD, dbl_neg, e1, e2, e3, e4, e5]

/-- C8 (amended): round trip of the closed-form rules on doubles.  In a state with
`2^-100 ≤ i ≤ 2^100` and `2^-100 ≤ |PV| ≤ 2^100`, in which `pow` returns finite values
`A = pow(1.0 + i, n)` and `D = pow(1.0 + i, -n)` with `1 + 2^-10 ≤ A ≤ 2^100` and
`|A * D - 1| ≤ 2^-50` (what a `pow` accurate to one unit in the last place gives), and
with a starting `FV` such that `|FV| ≤ 2^20 * |PV| * A`: the line `compute PMT` succeeds,
then `compute FV` succeeds from `n`, `i`, `PV` and the computed `PMT` (whatever `FV`
holds), then `compute PV` succeeds from `n`, `i`, that `PMT` and that `FV` (whatever `PV`
holds), and the `PV` it stores and prints is within `1e-4 * |PV|` of the original `PV`.
As formulas over the real numbers (with `i > 0`, `n ≠ 0`) the round trip returns the
starting `FV` and the original `PV` exactly. -/
theorem round_trip_PMT_FV_PV (n pmt0 fv0 pv0 : Dbl) (i P F A D : ℝ) (l1 l2 l3 : Nat)
    (hi1 : 1 / 2 ^ 100 ≤ i) (hi2 : i ≤ 2 ^ 100)
    (hP1 : 1 / 2 ^ 100 ≤ |P|) (hP2 : |P| ≤ 2 ^ 100)
    (hA : pow (1.0 + Dbl.fin i) n = Dbl.fin A)
    (hD : pow (1.0 + Dbl.fin i) (-n) = Dbl.fin D)
    (hA1 : 1 + 1 / 2 ^ 10 ≤ A) (hA2 : A ≤ 2 ^ 100) (hAD : |A * D - 1| ≤ 1 / 2 ^ 50)
    (hF : |F| ≤ 2 ^ 20 * (|P| * A)) :
    (∃ pm fv pv : ℝ,
      tvm_process_command (⟨n, Dbl.fin i, Dbl.fin P, pmt0, Dbl.fin F⟩ : FinancialState Dbl)
          "compute PMT".toList l1
        = .ok ⟨n, Dbl.fin i, Dbl.fin P, Dbl.fin pm, Dbl.fin F⟩
            [⟨"PMT = %.2f\n", Dbl.fin pm⟩] ∧
      tvm_process_command (⟨n, Dbl.fin i, Dbl.fin P, Dbl.fin pm, fv0⟩ : FinancialState Dbl)
          "compute FV".toList l2
        = .ok ⟨n, Dbl.fin i, Dbl.fin P, Dbl.fin pm, Dbl.fin fv⟩
            [⟨"FV = %.2f\n", Dbl.fin fv⟩] ∧
      tvm_process_command (⟨n, Dbl.fin i, pv0, Dbl.fin pm, Dbl.fin fv⟩ : FinancialState Dbl)
          "compute PV".toList l3
        = .ok ⟨n, Dbl.fin i, Dbl.fin pv, Dbl.fin pm, Dbl.fin fv⟩
            [⟨"PV = %.2f\n", Dbl.fin pv⟩] ∧
      |pv - P| ≤ 1 / 10000 * |P|) ∧
    (∀ m j PV FV : ℝ, 0 < j → m ≠ 0 →
      -PV * (1 + j) ^ m
        - j * (PV * (1 + j) ^ m + FV) / (1 - (1 + j) ^ m) * ((1 + j) ^ m - 1) / j = FV ∧
      -(j * (PV * (1 + j) ^ m + FV) / (1 - (1 + j) ^ m)) * (1 - (1 + j) ^ (-m)) / j
        - FV * (1 + j) ^ (-m) = PV) := by
  refine ⟨?_, fun m j PV FV h1 h2 => round_trip_formulas m j PV FV h1 h2⟩
  obtain ⟨pm, fv, pv, h1, h2, h3, h4⟩ :=
    round_trip_on_doubles n pmt0 fv0 pv0 i P F A D l1 l2 l3 hi1 hi2 hP1 hP2 hA hD hA1 hA2
      hAD hF
  refine ⟨pm, fv, pv, ?_, ?_, ?_, h4⟩
  · rw [process_compute _ _ "PMT".toList l1 (by decide)]; exact h1
  · rw [process_compute _ _ "FV".toList l2 (by decide)]; exact h2
  · rw [process_compute _ _ "PV".toList l3 (by decide)]; exact h3

/-- The state `n = 1`, `i = 1`, `PV = 100`, `FV = 50` on doubles, where `A = 2` and
`D = 1/2`: the three commands succeed and the final `PV` is within `1e-4 * 100` of 100. -/
theorem round_trip_PMT_FV_PV_witness :
    pow ((1.0 : Dbl) + Dbl.fin 1) (Dbl.fin 1) = Dbl.fin 2 ∧
    pow ((1.0 : Dbl) + Dbl.fin 1) (-Dbl.fin 1) = Dbl.fin (1 / 2) ∧
    ∃ pm fv pv : ℝ,
      tvm_process_command (⟨Dbl.fin 1, Dbl.fin 1, Dbl.fin 100, Dbl.fin 0, Dbl.fin 50⟩ :
          FinancialState Dbl) "compute PMT".toList 5
        = .ok ⟨Dbl.fin 1, Dbl.fin 1, Dbl.fin 100, Dbl.fin pm, Dbl.fin 50⟩
            [⟨"PMT = %.2f\n", Dbl.fin pm⟩] ∧
      tvm_process_command (⟨Dbl.fin 1, Dbl.fin 1, Dbl.fin 100, Dbl.fin pm, Dbl.fin 0⟩ :
          FinancialState Dbl) "compute FV".toList 6
        = .ok ⟨Dbl.fin 1, Dbl.fin 1, Dbl.fin 100, Dbl.fin pm, Dbl.fin fv⟩
            [⟨"FV = %.2f\n", Dbl.fin fv⟩] ∧
      tvm_process_command (⟨Dbl.fin 1, Dbl.fin 1, Dbl.fin 0, Dbl.fin pm, Dbl.fin fv⟩ :
          FinancialState Dbl) "compute PV".toList 7
        = .ok ⟨Dbl.fin 1, Dbl.fin 1, Dbl.fin pv, Dbl.fin pm, Dbl.fin fv⟩
            [⟨"PV = %.2f\n", Dbl.fin pv⟩] ∧
      |pv - 100| ≤ 1 / 10000 * |(100 : ℝ)| := by
  have hA : pow ((1.0 : Dbl) + Dbl.fin 1) (Dbl.fin 1) = Dbl.fin 2 := by
    rw [dbl_one_add_one, dbl_pow 2 1 (by norm_num) (by norm_num) (by norm_num),
      Real.rpow_one]
    exact roundNearest_of_exact 2 1 1 (by norm_num) (by decide) (by decide) (by norm_num)
  have hD : pow ((1.0 : Dbl) + Dbl.fin 1) (-Dbl.fin 1) = Dbl.fin (1 / 2) := by
    rw [dbl_one_add_one, dbl_neg, dbl_pow 2 (-1) (by norm_num) (by norm_num) (by norm_num),
      Real.rpow_neg_one, show (2 : ℝ)⁻¹ = 1 / 2 by norm_num]
    exact roundNearest_of_exact _ 1 (-1) (by norm_num) (by decide) (by decide)
      (by norm_num [abs_div])
  exact ⟨hA, hD,
    (round_trip_PMT_FV_PV (Dbl.fin 1) (Dbl.fin 0) (Dbl.fin 0) (Dbl.fin 0) 1 100 50 2 (1 / 2)
      5 6 7 (by norm_num) (by norm_num) (by norm_num) (by norm_num) hA hD (by norm_num)
      (by norm_num) (by norm_num) (by norm_num)).1⟩

/-! ## The residual of the solver equation on doubles -/

set_option maxHeartbeats 1000000 in
/-- The evaluation of `fn(n)` on doubles,
`Q = PMT / i`, `T = PV + Q`, `TA = T * A`, `TQ = TA - Q`, `fn = TQ + FV`, each rounded
(the error bound of a rounding holds when its argument does not overflow), with
`q * i = PMT`: no argument overflows and the result is within
`13 * 2^-53 * ((|PV| + |q|) * A + |FV|) + 2^-970` of `(PV + q) * A - q + FV`. -/
theorem residual_stage_fn (i A p m q f Q T TA TQ fh : ℝ)
    (hi1 : 1 / 2 ^ 100 ≤ i) (hA1 : 1 ≤ A) (hA2 : A ≤ 2 ^ 100)
    (hq : q * i = m) (hp : |p| ≤ 2 ^ 400) (hqM : |q| ≤ 2 ^ 500) (hf : |f| ≤ 2 ^ 400)
    (r1 : |m / i| ≤ 2 ^ 1023 → |Q - m / i| ≤ 1 / 2 ^ 53 * |m / i| + 1 / 2 ^ 1075)
    (r2 : |p + Q| ≤ 2 ^ 1023 → |T - (p + Q)| ≤ 1 / 2 ^ 53 * |p + Q| + 1 / 2 ^ 1075)
    (r3 : |T * A| ≤ 2 ^ 1023 → |TA - T * A| ≤ 1 / 2 ^ 53 * |T * A| + 1 / 2 ^ 1075)
    (r4 : |TA + -Q| ≤ 2 ^ 1023 → |TQ - (TA + -Q)| ≤ 1 / 2 ^ 53 * |TA + -Q| + 1 / 2 ^ 1075)
    (r5 : |TQ + f| ≤ 2 ^ 1023 → |fh - (TQ + f)| ≤ 1 / 2 ^ 53 * |TQ + f| + 1 / 2 ^ 1075) :
    |m / i| ≤ 2 ^ 1023 ∧ |p + Q| ≤ 2 ^ 1023 ∧ |T * A| ≤ 2 ^ 1023 ∧ |TA + -Q| ≤ 2 ^ 1023 ∧
    |TQ + f| ≤ 2 ^ 1023 ∧
    |fh - ((p + q) * A - q + f)| ≤ 13 / 2 ^ 53 * ((|p| + |q|) * A + |f|) + 1 / 2 ^ 970 := by
  have hi0 : 0 < i := lt_of_lt_of_le (by positivity) hi1
  have hA0 : 0 < A := by linarith
  have hmq : m / i = q := by rw [← hq]; field_simp
  rw [hmq] at r1 ⊢
  obtain ⟨a, ha⟩ : ∃ a, a = |p| := ⟨_, rfl⟩
  obtain ⟨b, hb⟩ : ∃ b, b = |q| := ⟨_, rfl⟩
  obtain ⟨c, hc⟩ : ∃ c, c = |f| := ⟨_, rfl⟩
  have ha0 : 0 ≤ a := by rw [ha]; exact abs_nonneg p
  have hb0 : 0 ≤ b := by rw [hb]; exact abs_nonneg q
  have hc0 : 0 ≤ c := by rw [hc]; exact abs_nonneg f
  rw [← ha] at hp
  rw [← hb] at hqM r1
  rw [← hc] at hf
  rw [← ha, ← hb, ← hc]
  obtain ⟨N, hN⟩ : ∃ N, N = (a + b) * A := ⟨_, rfl⟩
  rw [← hN]
  have hN1 : a + b ≤ N := by rw [hN]; exact le_mul_of_one_le_right (by linarith) hA1
  have hNhi : N ≤ 2 ^ 601 := by
    rw [hN]
    calc (a + b) * A ≤ 2 ^ 501 * 2 ^ 100 :=
          mul_le_mul (by linarith [show (2 : ℝ) ^ 400 + 2 ^ 500 ≤ 2 ^ 501 by norm_num]) hA2
            hA0.le (by positivity)
      _ = 2 ^ 601 := by norm_num
  have hc1 : c ≤ 2 ^ 601 := le_trans hf (by norm_num)
  -- the constants, as atoms
  have f0 : (0 : ℝ) ≤ 1 / 2 ^ 1075 := by positivity
  have f1 : (1 : ℝ) / 2 ^ 1075 ≤ 1 / 2 ^ 1075 * A := le_mul_of_one_le_right (by positivity) hA1
  have f2 : 16 * ((1 : ℝ) / 2 ^ 1075 * A) ≤ 1 / 2 ^ 970 := by
    calc 16 * ((1 : ℝ) / 2 ^ 1075 * A) ≤ 16 * (1 / 2 ^ 1075 * 2 ^ 100) :=
          mul_le_mul_of_nonneg_left (mul_le_mul_of_nonneg_left hA2 (by positivity))
            (by positivity)
      _ ≤ 1 / 2 ^ 970 := by norm_num
  have f3 : (1 : ℝ) / 2 ^ 970 ≤ 1 := by
    rw [div_le_one (by positivity)]
    exact one_le_pow₀ (by norm_num)
  have hΩ : (2 : ℝ) ^ 610 ≤ 2 ^ 1023 := by norm_num
  generalize (1 : ℝ) / 2 ^ 1075 = η at *
  generalize (1 : ℝ) / 2 ^ 970 = τ at *
  generalize (2 : ℝ) ^ 1023 = Ω at *
  obtain ⟨ηA, hηA⟩ : ∃ ηA, ηA = η * A := ⟨_, rfl⟩
  rw [← hηA] at f1 f2
  -- Q
  have b1 : b ≤ Ω := by linarith
  have r1' := r1 b1
  have mQ : |Q| ≤ b + (1 / 2 ^ 53 * b + η) := by
    have := abs_le_of_err Q q _ r1'
    rw [← hb] at this
    exact this
  -- T
  have h2 : |p + Q| ≤ a + |Q| := by
    have := abs_add p Q
    rw [← ha] at this
    exact this
  have b2 : |p + Q| ≤ Ω := by linarith
  have r2' := r2 b2
  have eT : |T - (p + q)| ≤ 3 / 2 ^ 53 * (a + b) + 3 * η := by
    have := abs_sub_le T (p + Q) (p + q)
    have e : p + Q - (p + q) = Q - q := by ring
    rw [e] at this
    have hu : (1 : ℝ) / 2 ^ 53 * |p + Q| ≤ 1 / 2 ^ 53 * (a + |Q|) :=
      mul_le_mul_of_nonneg_left h2 (by positivity)
    linarith
  have hX : |p + q| ≤ a + b := by
    have := abs_add p q
    rw [← ha, ← hb] at this
    exact this
  have mT : |T| ≤ (a + b) + (3 / 2 ^ 53 * (a + b) + 3 * η) := by
    have := abs_le_of_err T (p + q) _ eT
    linarith
  -- TA
  have hTA : |T * A| = |T| * A := by rw [abs_mul, abs_of_pos hA0]
  have mTA0 : |T| * A ≤ N + 3 / 2 ^ 53 * N + 3 * ηA := by
    have := mul_le_mul_of_nonneg_right mT hA0.le
    have e : ((a + b) + (3 / 2 ^ 53 * (a + b) + 3 * η)) * A
        = N + 3 / 2 ^ 53 * N + 3 * ηA := by rw [hN, hηA]; ring
    linarith
  rw [hTA] at r3 ⊢
  have b3 : |T| * A ≤ Ω := by linarith
  have r3' := r3 b3
  have eTA : |TA - (p + q) * A| ≤ 5 / 2 ^ 53 * N + 5 * ηA := by
    have := abs_sub_le TA (T * A) ((p + q) * A)
    have h : |T * A - (p + q) * A| ≤ (3 / 2 ^ 53 * (a + b) + 3 * η) * A := by
      rw [← sub_mul, abs_mul, abs_of_pos hA0]
      exact mul_le_mul_of_nonneg_right eT hA0.le
    have e : (3 / 2 ^ 53 * (a + b) + 3 * η) * A = 3 / 2 ^ 53 * N + 3 * ηA := by
      rw [hN, hηA]; ring
    rw [e] at h
    have hu : (1 : ℝ) / 2 ^ 53 * (|T| * A) ≤ 1 / 2 ^ 53 * (N + 3 / 2 ^ 53 * N + 3 * ηA) :=
      mul_le_mul_of_nonneg_left mTA0 (by positivity)
    linarith
  have hXA : |(p + q) * A| ≤ N := by
    rw [abs_mul, abs_of_pos hA0, hN]
    exact mul_le_mul_of_nonneg_right hX hA0.le
  have mTA : |TA| ≤ N + (5 / 2 ^ 53 * N + 5 * ηA) := by
    have := abs_le_of_err TA ((p + q) * A) _ eTA
    linarith
  -- TQ
  have h4 : |TA + -Q| ≤ |TA| + |Q| := by
    have := abs_add TA (-Q)
    rwa [abs_neg] at this
  have b4 : |TA + -Q| ≤ Ω := by linarith
  have r4' := r4 b4
  have eTQ : |TQ - ((p + q) * A - q)| ≤ 10 / 2 ^ 53 * N + 8 * ηA := by
    have := abs_sub_le TQ (TA + -Q) ((p + q) * A - q)
    have e : TA + -Q - ((p + q) * A - q) = (TA - (p + q) * A) - (Q - q) := by ring
    have h := abs_sub (TA - (p + q) * A) (Q - q)
    rw [e] at this
    have hu : (1 : ℝ) / 2 ^ 53 * |TA + -Q| ≤ 1 / 2 ^ 53 * (|TA| + |Q|) :=
      mul_le_mul_of_nonneg_left h4 (by positivity)
    linarith
  have hY : |(p + q) * A - q| ≤ N + b := by
    have := abs_sub ((p + q) * A) q
    rw [← hb] at this
    linarith
  have mTQ : |TQ| ≤ N + b + (10 / 2 ^ 53 * N + 8 * ηA) := by
    have := abs_le_of_err TQ ((p + q) * A - q) _ eTQ
    linarith
  -- fn
  have h5 : |TQ + f| ≤ |TQ| + c := by
    have := abs_add TQ f
    rw [← hc] at this
    exact this
  have b5 : |TQ + f| ≤ Ω := by linarith
  have r5' := r5 b5
  refine ⟨b1, b2, b3, b4, b5, ?_⟩
  have := abs_sub_le fh (TQ + f) ((p + q) * A - q + f)
  have e : TQ + f - ((p + q) * A - q + f) = TQ - ((p + q) * A - q) := by ring
  rw [e] at this
  have hu : (1 : ℝ) / 2 ^ 53 * |TQ + f| ≤ 1 / 2 ^ 53 * (|TQ| + c) :=
    mul_le_mul_of_nonneg_left h5 (by positivity)
  linarith

set_option maxHeartbeats 1000000 in
/-- The residual after `compute FV` with `e = A - 1`, `s2 = PMT * e`, `s3 = s2 / i`,
`s1 = -PV * A`, `FV = s1 - s3`, each rounded, and `q * i = PMT`: no argument overflows
and `(PV + q) * A - q + FV` is at most `8 * 2^-53 * (|PV| + |q|) * A + 2^-860` in
magnitude. -/
theorem residual_stage_FV (i A P M q e s2 s3 s1 fv : ℝ)
    (hi1 : 1 / 2 ^ 100 ≤ i) (hi2 : i ≤ 2 ^ 100) (hA1 : 1 ≤ A) (hA2 : A ≤ 2 ^ 100)
    (hP : |P| ≤ 2 ^ 100) (hM : |M| ≤ 2 ^ 100) (hq : q * i = M)
    (r1 : |A + -1| ≤ 2 ^ 1023 → |e - (A + -1)| ≤ 1 / 2 ^ 53 * |A + -1| + 1 / 2 ^ 1075)
    (r2 : |M * e| ≤ 2 ^ 1023 → |s2 - M * e| ≤ 1 / 2 ^ 53 * |M * e| + 1 / 2 ^ 1075)
    (r3 : |s2 / i| ≤ 2 ^ 1023 → |s3 - s2 / i| ≤ 1 / 2 ^ 53 * |s2 / i| + 1 / 2 ^ 1075)
    (r4 : |-P * A| ≤ 2 ^ 1023 → |s1 - -P * A| ≤ 1 / 2 ^ 53 * |-P * A| + 1 / 2 ^ 1075)
    (r5 : |s1 + -s3| ≤ 2 ^ 1023 →
      |fv - (s1 + -s3)| ≤ 1 / 2 ^ 53 * |s1 + -s3| + 1 / 2 ^ 1075) :
    |A + -1| ≤ 2 ^ 1023 ∧ |M * e| ≤ 2 ^ 1023 ∧ |s2 / i| ≤ 2 ^ 1023 ∧
    |-P * A| ≤ 2 ^ 1023 ∧ |s1 + -s3| ≤ 2 ^ 1023 ∧ |fv| ≤ 2 ^ 400 ∧
    |(P + q) * A - q + fv| ≤ 8 / 2 ^ 53 * ((|P| + |q|) * A) + 1 / 2 ^ 860 := by
  have hi0 : 0 < i := lt_of_lt_of_le (by positivity) hi1
  have hA0 : 0 < A := by linarith
  have ha1 : 0 ≤ A - 1 := by linarith
  have ha2 : A - 1 ≤ 2 ^ 100 := by linarith
  have hinv : 1 / i ≤ 2 ^ 100 := by
    rw [div_le_iff₀ hi0]
    have := mul_le_mul_of_nonneg_left hi1 (show (0 : ℝ) ≤ 2 ^ 100 by positivity)
    have e : (2 : ℝ) ^ 100 * (1 / 2 ^ 100) = 1 := by norm_num
    linarith
  obtain ⟨S, hS⟩ : ∃ S, S = |P| * A := ⟨_, rfl⟩
  have hS0 : 0 ≤ S := by rw [hS]; positivity
  have hShi : S ≤ 2 ^ 200 := by
    rw [hS]
    calc |P| * A ≤ 2 ^ 100 * 2 ^ 100 := mul_le_mul hP hA2 hA0.le (by positivity)
      _ = 2 ^ 200 := by norm_num
  obtain ⟨b, hb⟩ : ∃ b, b = |q| := ⟨_, rfl⟩
  have hb0 : 0 ≤ b := by rw [hb]; exact abs_nonneg q
  have hMb : |M| = b * i := by rw [hb, ← hq, abs_mul, abs_of_pos hi0]
  have hbhi : b ≤ 2 ^ 200 := by
    have h1 : b = |M| * (1 / i) := by rw [hMb]; field_simp
    rw [h1]
    calc |M| * (1 / i) ≤ 2 ^ 100 * 2 ^ 100 :=
          mul_le_mul hM hinv (by positivity) (by positivity)
      _ = 2 ^ 200 := by norm_num
  obtain ⟨bA, hbA⟩ : ∃ bA, bA = b * A := ⟨_, rfl⟩
  obtain ⟨w, hw⟩ : ∃ w, w = b * (A - 1) := ⟨_, rfl⟩
  have hw0 : 0 ≤ w := by rw [hw]; positivity
  have hwbA : w ≤ bA := by
    rw [hw, hbA]; exact mul_le_mul_of_nonneg_left (by linarith) hb0
  have hwhi : w ≤ 2 ^ 300 := by
    rw [hw]
    calc b * (A - 1) ≤ 2 ^ 200 * 2 ^ 100 := mul_le_mul hbhi ha2 ha1 (by positivity)
      _ = 2 ^ 300 := by norm_num
  obtain ⟨wi, hwi⟩ : ∃ wi, wi = w * i := ⟨_, rfl⟩
  have hwi0 : 0 ≤ wi := by rw [hwi]; positivity
  have hwihi : wi ≤ 2 ^ 400 := by
    rw [hwi]
    calc w * i ≤ 2 ^ 300 * 2 ^ 100 := mul_le_mul hwhi hi2 hi0.le (by positivity)
      _ = 2 ^ 400 := by norm_num
  have hpa : |M| * (A - 1) = wi := by rw [hwi, hw, hMb]; ring
  have hN : (|P| + |q|) * A = S + bA := by rw [hS, hbA, hb]; ring
  rw [hN]
  -- the constants, as atoms
  have f0 : (0 : ℝ) ≤ 1 / 2 ^ 1075 := by positivity
  have f1 : |M| * ((1 : ℝ) / 2 ^ 1075) ≤ 1 / 2 ^ 1075 * 2 ^ 100 := by
    rw [mul_comm]; exact mul_le_mul_of_nonneg_left hM (by positivity)
  have f2 : 8 * ((1 : ℝ) / 2 ^ 1075 * 2 ^ 200) ≤ 1 / 2 ^ 860 := by norm_num
  have f3 : (1 : ℝ) / 2 ^ 1075 * 2 ^ 100 / i ≤ 1 / 2 ^ 1075 * 2 ^ 200 := by
    rw [div_eq_mul_one_div]
    calc (1 : ℝ) / 2 ^ 1075 * 2 ^ 100 * (1 / i) ≤ 1 / 2 ^ 1075 * 2 ^ 100 * 2 ^ 100 :=
          mul_le_mul_of_nonneg_left hinv (by positivity)
      _ = 1 / 2 ^ 1075 * 2 ^ 200 := by ring
  have f4 : (1 : ℝ) / 2 ^ 1075 ≤ 1 / 2 ^ 1075 * 2 ^ 100 := by norm_num
  have f5 : (1 : ℝ) / 2 ^ 1075 * 2 ^ 100 ≤ 1 / 2 ^ 1075 * 2 ^ 200 := by norm_num
  have f6 : (1 : ℝ) / 2 ^ 860 ≤ 1 := by
    rw [div_le_one (by positivity)]
    exact one_le_pow₀ (by norm_num)
  have hΩ : (2 : ℝ) ^ 410 ≤ 2 ^ 1023 := by norm_num
  generalize (1 : ℝ) / 2 ^ 1075 = η at *
  generalize (1 : ℝ) / 2 ^ 860 = τ at *
  generalize (2 : ℝ) ^ 1023 = Ω at *
  obtain ⟨η', hη'⟩ : ∃ η', η' = η * 2 ^ 100 := ⟨_, rfl⟩
  obtain ⟨η'', hη''⟩ : ∃ η'', η'' = η * 2 ^ 200 := ⟨_, rfl⟩
  rw [← hη'] at f1 f3 f4 f5
  rw [← hη''] at f2 f3 f5
  clear hη' hη''
  -- e
  have hA1' : |A + -1| = A - 1 := by rw [abs_of_nonneg (by linarith)]; ring
  rw [hA1'] at r1 ⊢
  have b1 : A - 1 ≤ Ω := by linarith
  have r1' := r1 b1
  have he : |e - (A - 1)| ≤ 1 / 2 ^ 53 * (A - 1) + η := by
    rw [show e - (A - 1) = e - (A + -1) by ring]
    exact r1'
  -- M * e
  have hpe : |M * e - M * (A - 1)| ≤ 1 / 2 ^ 53 * wi + η' := by
    have := err_mul_left M e (A - 1) _ he
    have e1 : |M| * (1 / 2 ^ 53 * (A - 1) + η) = 1 / 2 ^ 53 * (|M| * (A - 1)) + |M| * η := by
      ring
    rw [e1, hpa] at this
    linarith
  have hpa' : |M * (A - 1)| = wi := by rw [abs_mul, abs_of_nonneg ha1, hpa]
  have m2 : |M * e| ≤ wi + (1 / 2 ^ 53 * wi + η') := by
    have := abs_le_of_err _ _ _ hpe
    rw [hpa'] at this
    exact this
  have b2 : |M * e| ≤ Ω := by linarith
  have r2' := r2 b2
  -- s2
  have hWq : q * (A - 1) * i = M * (A - 1) := by rw [← hq]; ring
  have h2 : |s2 - q * (A - 1) * i| ≤ 3 / 2 ^ 53 * wi + 3 * η' := by
    rw [hWq]
    have := abs_sub_le s2 (M * e) (M * (A - 1))
    have hu : (1 : ℝ) / 2 ^ 53 * |M * e| ≤ 1 / 2 ^ 53 * (wi + (1 / 2 ^ 53 * wi + η')) :=
      mul_le_mul_of_nonneg_left m2 (by positivity)
    linarith
  -- s2 / i
  have h3 : |s2 / i - q * (A - 1)| ≤ 3 / 2 ^ 53 * w + 3 * η'' := by
    have := err_div_right s2 (q * (A - 1) * i) i _ hi0 h2
    rw [mul_div_assoc, div_self hi0.ne', mul_one] at this
    have e : (3 / 2 ^ 53 * wi + 3 * η') / i = 3 / 2 ^ 53 * w + 3 * (η' / i) := by
      rw [hwi]; field_simp; ring
    rw [e] at this
    linarith
  have hqa : |q * (A - 1)| = w := by rw [hw, hb, abs_mul, abs_of_nonneg ha1]
  have m3 : |s2 / i| ≤ w + (3 / 2 ^ 53 * w + 3 * η'') := by
    have := abs_le_of_err _ _ _ h3
    rw [hqa] at this
    exact this
  have b3 : |s2 / i| ≤ Ω := by linarith
  have r3' := r3 b3
  -- s3
  have h4 : |s3 - q * (A - 1)| ≤ 5 / 2 ^ 53 * w + 5 * η'' := by
    have := abs_sub_le s3 (s2 / i) (q * (A - 1))
    have hu : (1 : ℝ) / 2 ^ 53 * |s2 / i| ≤ 1 / 2 ^ 53 * (w + (3 / 2 ^ 53 * w + 3 * η'')) :=
      mul_le_mul_of_nonneg_left m3 (by positivity)
    linarith
  -- s1
  have hPA : |-P * A| = S := by rw [hS, abs_mul, abs_neg, abs_of_pos hA0]
  rw [hPA] at r4 ⊢
  have b4 : S ≤ Ω := by linarith
  have r4' := r4 b4
  -- s1 - s3
  have h5 : |(s1 + -s3) - (-P * A - q * (A - 1))|
      ≤ 1 / 2 ^ 53 * S + 5 / 2 ^ 53 * w + 6 * η'' := by
    have e : (s1 + -s3) - (-P * A - q * (A - 1)) = (s1 - -P * A) - (s3 - q * (A - 1)) := by
      ring
    rw [e]
    have := abs_sub (s1 - -P * A) (s3 - q * (A - 1))
    linarith
  have hX : |-P * A - q * (A - 1)| ≤ S + w := by
    have := abs_sub (-P * A) (q * (A - 1))
    rw [hPA, hqa] at this
    exact this
  have m5 : |s1 + -s3| ≤ S + w + (1 / 2 ^ 53 * S + 5 / 2 ^ 53 * w + 6 * η'') := by
    have := abs_le_of_err _ _ _ h5
    linarith
  have b5 : |s1 + -s3| ≤ Ω := by linarith
  have r5' := r5 b5
  have hfv : |fv - (-P * A - q * (A - 1))| ≤ 3 / 2 ^ 53 * S + 7 / 2 ^ 53 * w + 8 * η'' := by
    have := abs_sub_le fv (s1 + -s3) (-P * A - q * (A - 1))
    have hu : (1 : ℝ) / 2 ^ 53 * |s1 + -s3|
        ≤ 1 / 2 ^ 53 * (S + w + (1 / 2 ^ 53 * S + 5 / 2 ^ 53 * w + 6 * η'')) :=
      mul_le_mul_of_nonneg_left m5 (by positivity)
    linarith
  refine ⟨b1, b2, b3, b4, b5, ?_, ?_⟩
  · have := abs_le_of_err fv _ _ hfv
    have h400 : (2 : ℝ) ^ 200 + 2 ^ 300 + 2 ^ 300 ≤ 2 ^ 400 := by norm_num
    linarith
  · rw [show (P + q) * A - q + fv = fv - (-P * A - q * (A - 1)) by ring]
    linarith

set_option maxHeartbeats 1000000 in
/-- The residual after `compute PV` with `g1 = 1 - D`, `g2 = -PMT * g1`, `g3 = g2 / i`,
`g4 = FV * D`, `PV = g3 - g4`, each rounded, `|A * D - 1| ≤ 2^-50` and `q * i = PMT`:
no argument overflows and `(PV + q) * A - q + FV` is at most
`22 * 2^-53 * (|q| * A + |FV|) + 2^-760` in magnitude. -/
theorem residual_stage_PV (i A D M q F g1 g2 g3 g4 pv : ℝ)
    (hi1 : 1 / 2 ^ 100 ≤ i) (hi2 : i ≤ 2 ^ 100) (hA1 : 1 ≤ A) (hA2 : A ≤ 2 ^ 100)
    (hAD : |A * D - 1| ≤ 1 / 2 ^ 50)
    (hM : |M| ≤ 2 ^ 100) (hF : |F| ≤ 2 ^ 100) (hq : q * i = M)
    (r1 : |1 + -D| ≤ 2 ^ 1023 → |g1 - (1 + -D)| ≤ 1 / 2 ^ 53 * |1 + -D| + 1 / 2 ^ 1075)
    (r2 : |-M * g1| ≤ 2 ^ 1023 → |g2 - -M * g1| ≤ 1 / 2 ^ 53 * |-M * g1| + 1 / 2 ^ 1075)
    (r3 : |g2 / i| ≤ 2 ^ 1023 → |g3 - g2 / i| ≤ 1 / 2 ^ 53 * |g2 / i| + 1 / 2 ^ 1075)
    (r4 : |F * D| ≤ 2 ^ 1023 → |g4 - F * D| ≤ 1 / 2 ^ 53 * |F * D| + 1 / 2 ^ 1075)
    (r5 : |g3 + -g4| ≤ 2 ^ 1023 →
      |pv - (g3 + -g4)| ≤ 1 / 2 ^ 53 * |g3 + -g4| + 1 / 2 ^ 1075) :
    |1 + -D| ≤ 2 ^ 1023 ∧ |-M * g1| ≤ 2 ^ 1023 ∧ |g2 / i| ≤ 2 ^ 1023 ∧
    |F * D| ≤ 2 ^ 1023 ∧ |g3 + -g4| ≤ 2 ^ 1023 ∧ |pv| ≤ 2 ^ 400 ∧
    |(pv + q) * A - q + F| ≤ 22 / 2 ^ 53 * (|q| * A + |F|) + 1 / 2 ^ 760 := by
  have hi0 : 0 < i := lt_of_lt_of_le (by positivity) hi1
  have hA0 : 0 < A := by linarith
  have hinv : 1 / i ≤ 2 ^ 100 := by
    rw [div_le_iff₀ hi0]
    have := mul_le_mul_of_nonneg_left hi1 (show (0 : ℝ) ≤ 2 ^ 100 by positivity)
    have e : (2 : ℝ) ^ 100 * (1 / 2 ^ 100) = 1 := by norm_num
    linarith
  -- the discount factor
  have hAD' := abs_le.1 hAD
  have h50 : (1 : ℝ) / 2 ^ 50 ≤ 1 / 2 := by norm_num
  have hD0 : 0 < D := by
    by_contra h
    have h1 : A * D ≤ 0 := mul_nonpos_of_nonneg_of_nonpos hA0.le (not_lt.1 h)
    linarith [hAD'.1]
  have hDA : D * A ≤ 2 := by
    have : D * A = A * D := mul_comm D A
    linarith [hAD'.2]
  have hD2 : D ≤ 2 := le_trans (le_mul_of_one_le_right hD0.le hA1) hDA
  obtain ⟨c, hc⟩ : ∃ c, c = |1 + -D| := ⟨_, rfl⟩
  have hc0 : 0 ≤ c := by rw [hc]; exact abs_nonneg _
  have hc1 : c ≤ 1 := by
    rw [hc]; exact abs_le.2 ⟨by linarith, by linarith⟩
  rw [← hc] at r1 ⊢
  obtain ⟨b, hb⟩ : ∃ b, b = |q| := ⟨_, rfl⟩
  have hb0 : 0 ≤ b := by rw [hb]; exact abs_nonneg q
  have hMb : |M| = b * i := by rw [hb, ← hq, abs_mul, abs_of_pos hi0]
  have hbhi : b ≤ 2 ^ 200 := by
    have h1 : b = |M| * (1 / i) := by rw [hMb]; field_simp
    rw [h1]
    calc |M| * (1 / i) ≤ 2 ^ 100 * 2 ^ 100 :=
          mul_le_mul hM hinv (by positivity) (by positivity)
      _ = 2 ^ 200 := by norm_num
  obtain ⟨bA, hbA⟩ : ∃ bA, bA = b * A := ⟨_, rfl⟩
  have hbbA : b ≤ bA := by rw [hbA]; exact le_mul_of_one_le_right hb0 hA1
  obtain ⟨w, hw⟩ : ∃ w, w = b * c := ⟨_, rfl⟩
  have hw0 : 0 ≤ w := by rw [hw]; positivity
  have hwb : w ≤ b := by rw [hw]; exact mul_le_of_le_one_right hb0 hc1
  have hwA : w * A ≤ bA := by
    rw [hbA]; exact mul_le_mul_of_nonneg_right hwb hA0.le
  obtain ⟨wi, hwi⟩ : ∃ wi, wi = w * i := ⟨_, rfl⟩
  have hwi0 : 0 ≤ wi := by rw [hwi]; positivity
  have hwihi : wi ≤ 2 ^ 300 := by
    rw [hwi]
    calc w * i ≤ 2 ^ 200 * 2 ^ 100 :=
          mul_le_mul (le_trans hwb hbhi) hi2 hi0.le (by positivity)
      _ = 2 ^ 300 := by norm_num
  have hpa : |M| * c = wi := by rw [hwi, hw, hMb]; ring
  obtain ⟨cF, hcF⟩ : ∃ cF, cF = |F| := ⟨_, rfl⟩
  have hcF0 : 0 ≤ cF := by rw [hcF]; exact abs_nonneg F
  obtain ⟨fd, hfd⟩ : ∃ fd, fd = cF * D := ⟨_, rfl⟩
  have hfd0 : 0 ≤ fd := by rw [hfd]; positivity
  have hfdA : fd * A ≤ 2 * cF := by
    rw [hfd]
    calc cF * D * A = cF * (D * A) := by ring
      _ ≤ cF * 2 := mul_le_mul_of_nonneg_left hDA hcF0
      _ = 2 * cF := by ring
  have hfd2 : fd ≤ 2 * cF := by
    rw [hfd]
    calc cF * D ≤ cF * 2 := mul_le_mul_of_nonneg_left hD2 hcF0
      _ = 2 * cF := by ring
  rw [← hcF] at hF
  rw [← hb, ← hbA, ← hcF]
  -- the constants, as atoms
  have f0 : (0 : ℝ) ≤ 1 / 2 ^ 1075 := by positivity
  have f1 : |M| * ((1 : ℝ) / 2 ^ 1075) ≤ 1 / 2 ^ 1075 * 2 ^ 100 := by
    rw [mul_comm]; exact mul_le_mul_of_nonneg_left hM (by positivity)
  have f2 : 8 * ((1 : ℝ) / 2 ^ 1075 * 2 ^ 300) ≤ 1 / 2 ^ 760 := by norm_num
  have f3 : (1 : ℝ) / 2 ^ 1075 * 2 ^ 100 / i ≤ 1 / 2 ^ 1075 * 2 ^ 200 := by
    rw [div_eq_mul_one_div]
    calc (1 : ℝ) / 2 ^ 1075 * 2 ^ 100 * (1 / i) ≤ 1 / 2 ^ 1075 * 2 ^ 100 * 2 ^ 100 :=
          mul_le_mul_of_nonneg_left hinv (by positivity)
      _ = 1 / 2 ^ 1075 * 2 ^ 200 := by ring
  have f4 : (1 : ℝ) / 2 ^ 1075 ≤ 1 / 2 ^ 1075 * 2 ^ 100 := by norm_num
  have f5 : (1 : ℝ) / 2 ^ 1075 * 2 ^ 100 ≤ 1 / 2 ^ 1075 * 2 ^ 200 := by norm_num
  have f6 : (1 : ℝ) / 2 ^ 760 ≤ 1 := by
    rw [div_le_one (by positivity)]
    exact one_le_pow₀ (by norm_num)
  have f7 : (1 : ℝ) / 2 ^ 1075 * 2 ^ 200 * A ≤ 1 / 2 ^ 1075 * 2 ^ 300 := by
    calc (1 : ℝ) / 2 ^ 1075 * 2 ^ 200 * A ≤ 1 / 2 ^ 1075 * 2 ^ 200 * 2 ^ 100 :=
          mul_le_mul_of_nonneg_left hA2 (by positivity)
      _ = 1 / 2 ^ 1075 * 2 ^ 300 := by ring
  have f8 : (1 : ℝ) / 2 ^ 1075 * 2 ^ 200 ≤ 1 / 2 ^ 1075 * 2 ^ 300 := by norm_num
  have hΩ : (2 : ℝ) ^ 410 ≤ 2 ^ 1023 := by norm_num
  generalize (1 : ℝ) / 2 ^ 1075 = η at *
  generalize (1 : ℝ) / 2 ^ 760 = τ at *
  generalize (2 : ℝ) ^ 1023 = Ω at *
  obtain ⟨η', hη'⟩ : ∃ η', η' = η * 2 ^ 100 := ⟨_, rfl⟩
  obtain ⟨η'', hη''⟩ : ∃ η'', η'' = η * 2 ^ 200 := ⟨_, rfl⟩
  obtain ⟨η₃, hη₃⟩ : ∃ η₃, η₃ = η * 2 ^ 300 := ⟨_, rfl⟩
  rw [← hη'] at f1 f3 f4 f5
  rw [← hη''] at f3 f5 f7 f8
  rw [← hη₃] at f2 f7 f8
  clear hη' hη'' hη₃
  -- g1
  have b1 : c ≤ Ω := by linarith
  have r1' := r1 b1
  -- -M * g1
  have hpe : |-M * g1 - -M * (1 + -D)| ≤ 1 / 2 ^ 53 * wi + η' := by
    have := err_mul_left (-M) g1 (1 + -D) _ r1'
    have e1 : |-M| * (1 / 2 ^ 53 * c + η) = 1 / 2 ^ 53 * (|M| * c) + |M| * η := by
      rw [abs_neg]; ring
    rw [e1, hpa] at this
    linarith
  have hpa' : |-M * (1 + -D)| = wi := by rw [abs_mul, abs_neg, ← hc, hpa]
  have m2 : |-M * g1| ≤ wi + (1 / 2 ^ 53 * wi + η') := by
    have := abs_le_of_err _ _ _ hpe
    rw [hpa'] at this
    exact this
  have b2 : |-M * g1| ≤ Ω := by linarith
  have r2' := r2 b2
  -- g2
  have hVq : -q * (1 + -D) * i = -M * (1 + -D) := by rw [← hq]; ring
  have h2 : |g2 - -q * (1 + -D) * i| ≤ 3 / 2 ^ 53 * wi + 3 * η' := by
    rw [hVq]
    have := abs_sub_le g2 (-M * g1) (-M * (1 + -D))
    have hu : (1 : ℝ) / 2 ^ 53 * |-M * g1| ≤ 1 / 2 ^ 53 * (wi + (1 / 2 ^ 53 * wi + η')) :=
      mul_le_mul_of_nonneg_left m2 (by positivity)
    linarith
  -- g2 / i
  have h3 : |g2 / i - -q * (1 + -D)| ≤ 3 / 2 ^ 53 * w + 3 * η'' := by
    have := err_div_right g2 (-q * (1 + -D) * i) i _ hi0 h2
    rw [mul_div_assoc, div_self hi0.ne', mul_one] at this
    have e : (3 / 2 ^ 53 * wi + 3 * η') / i = 3 / 2 ^ 53 * w + 3 * (η' / i) := by
      rw [hwi]; field_simp; ring
    rw [e] at this
    linarith
  have hqa : |-q * (1 + -D)| = w := by rw [hw, hb, hc, abs_mul, abs_neg]
  have m3 : |g2 / i| ≤ w + (3 / 2 ^ 53 * w + 3 * η'') := by
    have := abs_le_of_err _ _ _ h3
    rw [hqa] at this
    exact this
  have b3 : |g2 / i| ≤ Ω := by linarith
  have r3' := r3 b3
  -- g3
  have h4 : |g3 - -q * (1 + -D)| ≤ 5 / 2 ^ 53 * w + 5 * η'' := by
    have := abs_sub_le g3 (g2 / i) (-q * (1 + -D))
    have hu : (1 : ℝ) / 2 ^ 53 * |g2 / i| ≤ 1 / 2 ^ 53 * (w + (3 / 2 ^ 53 * w + 3 * η'')) :=
      mul_le_mul_of_nonneg_left m3 (by positivity)
    linarith
  -- g4
  have hFD : |F * D| = fd := by rw [hfd, hcF, abs_mul, abs_of_pos hD0]
  rw [hFD] at r4 ⊢
  have b4 : fd ≤ Ω := by linarith
  have r4' := r4 b4
  -- g3 - g4
  have h5 : |(g3 + -g4) - (-q * (1 + -D) - F * D)|
      ≤ 5 / 2 ^ 53 * w + 1 / 2 ^ 53 * fd + 6 * η'' := by
    have e : (g3 + -g4) - (-q * (1 + -D) - F * D)
        = (g3 - -q * (1 + -D)) - (g4 - F * D) := by ring
    rw [e]
    have := abs_sub (g3 - -q * (1 + -D)) (g4 - F * D)
    linarith
  have hX : |-q * (1 + -D) - F * D| ≤ w + fd := by
    have := abs_sub (-q * (1 + -D)) (F * D)
    rw [hqa, hFD] at this
    exact this
  have m5 : |g3 + -g4| ≤ w + fd + (5 / 2 ^ 53 * w + 1 / 2 ^ 53 * fd + 6 * η'') := by
    have := abs_le_of_err _ _ _ h5
    linarith
  have b5 : |g3 + -g4| ≤ Ω := by linarith
  have r5' := r5 b5
  have hpv : |pv - (-q * (1 + -D) - F * D)|
      ≤ 7 / 2 ^ 53 * w + 3 / 2 ^ 53 * fd + 8 * η'' := by
    have := abs_sub_le pv (g3 + -g4) (-q * (1 + -D) - F * D)
    have hu : (1 : ℝ) / 2 ^ 53 * |g3 + -g4|
        ≤ 1 / 2 ^ 53 * (w + fd + (5 / 2 ^ 53 * w + 1 / 2 ^ 53 * fd + 6 * η'')) :=
      mul_le_mul_of_nonneg_left m5 (by positivity)
    linarith
  refine ⟨b1, b2, b3, b4, b5, ?_, ?_⟩
  · have := abs_le_of_err pv _ _ hpv
    have h400 : (2 : ℝ) ^ 200 + 2 ^ 200 + 2 ^ 200 ≤ 2 ^ 400 := by norm_num
    have h100 : (2 : ℝ) ^ 100 ≤ 2 ^ 200 := by norm_num
    linarith
  · have e : (pv + q) * A - q + F
        = (pv - (-q * (1 + -D) - F * D)) * A + (A * D - 1) * (q - F) := by ring
    rw [e]
    have h1 : |(pv - (-q * (1 + -D) - F * D)) * A|
        ≤ 7 / 2 ^ 53 * (w * A) + 3 / 2 ^ 53 * (fd * A) + 8 * (η'' * A) := by
      rw [abs_mul, abs_of_pos hA0]
      have := mul_le_mul_of_nonneg_right hpv hA0.le
      have e2 : (7 / 2 ^ 53 * w + 3 / 2 ^ 53 * fd + 8 * η'') * A
          = 7 / 2 ^ 53 * (w * A) + 3 / 2 ^ 53 * (fd * A) + 8 * (η'' * A) := by ring
      rw [e2] at this
      exact this
    have h2 : |(A * D - 1) * (q - F)| ≤ 1 / 2 ^ 50 * (b + cF) := by
      rw [abs_mul]
      have h3 : |q - F| ≤ b + cF := by
        have := abs_sub q F
        rw [← hb, ← hcF] at this
        exact this
      exact mul_le_mul hAD h3 (abs_nonneg _) (by positivity)
    have h3 := abs_add ((pv - (-q * (1 + -D) - F * D)) * A) ((A * D - 1) * (q - F))
    linarith

set_option maxHeartbeats 1000000 in
/-- The residual after `compute PMT` with `t1 = PV * A`, `t2 = t1 + FV`, `t3 = i * t2`,
`d = 1 - A`, `PMT = t3 / d`, each rounded, `A ≥ 1 + 2^-52` and `q * i = PMT`: no argument
overflows, `d` is not zero and `(PV + q) * A - q + FV` is at most
`19 * 2^-53 * (|PV| * A + |FV|) + 2^-860` in magnitude. -/
theorem residual_stage_PMT (i A P F t1 t2 t3 d pm q : ℝ)
    (hi1 : 1 / 2 ^ 100 ≤ i) (hi2 : i ≤ 2 ^ 100)
    (hA1 : 1 + 1 / 2 ^ 52 ≤ A) (hA2 : A ≤ 2 ^ 100)
    (hP : |P| ≤ 2 ^ 100) (hF : |F| ≤ 2 ^ 100) (hq : q * i = pm)
    (r1 : |P * A| ≤ 2 ^ 1023 → |t1 - P * A| ≤ 1 / 2 ^ 53 * |P * A| + 1 / 2 ^ 1075)
    (r2 : |t1 + F| ≤ 2 ^ 1023 → |t2 - (t1 + F)| ≤ 1 / 2 ^ 53 * |t1 + F| + 1 / 2 ^ 1075)
    (r3 : |i * t2| ≤ 2 ^ 1023 → |t3 - i * t2| ≤ 1 / 2 ^ 53 * |i * t2| + 1 / 2 ^ 1075)
    (r4 : |1 + -A| ≤ 2 ^ 1023 → |d - (1 + -A)| ≤ 1 / 2 ^ 53 * |1 + -A| + 1 / 2 ^ 1075)
    (r5 : |t3 / d| ≤ 2 ^ 1023 → |pm - t3 / d| ≤ 1 / 2 ^ 53 * |t3 / d| + 1 / 2 ^ 1075) :
    |P * A| ≤ 2 ^ 1023 ∧ |t1 + F| ≤ 2 ^ 1023 ∧ |i * t2| ≤ 2 ^ 1023 ∧
    |1 + -A| ≤ 2 ^ 1023 ∧ |t3 / d| ≤ 2 ^ 1023 ∧ d ≠ 0 ∧ |pm| ≤ 2 ^ 400 ∧
    |(P + q) * A - q + F| ≤ 19 / 2 ^ 53 * (|P| * A + |F|) + 1 / 2 ^ 860 := by
  have hq52 : (0 : ℝ) < 1 / 2 ^ 52 := by positivity
  have hi0 : 0 < i := lt_of_lt_of_le (by positivity) hi1
  have hA0 : 0 < A := by linarith
  have ha1 : 1 / 2 ^ 52 ≤ A - 1 := by linarith
  have ha0 : 0 < A - 1 := by linarith
  have ha2 : A - 1 ≤ 2 ^ 100 := by linarith
  obtain ⟨S, hS⟩ : ∃ S, S = |P| * A := ⟨_, rfl⟩
  have hS0 : 0 ≤ S := by rw [hS]; positivity
  have hShi : S ≤ 2 ^ 200 := by
    rw [hS]
    calc |P| * A ≤ 2 ^ 100 * 2 ^ 100 := mul_le_mul hP hA2 hA0.le (by positivity)
      _ = 2 ^ 200 := by norm_num
  have hPA : |P * A| = S := by rw [hS, abs_mul, abs_of_pos hA0]
  rw [hPA] at r1 ⊢
  obtain ⟨cF, hcF⟩ : ∃ cF, cF = |F| := ⟨_, rfl⟩
  have hcF0 : 0 ≤ cF := by rw [hcF]; exact abs_nonneg F
  rw [← hcF] at hF
  rw [← hS, ← hcF]
  obtain ⟨G, hG⟩ : ∃ G, G = S + cF := ⟨_, rfl⟩
  have hG0 : 0 ≤ G := by rw [hG]; linarith
  have hGhi : G ≤ 2 ^ 201 := by
    rw [hG]; linarith [show (2 : ℝ) ^ 200 + 2 ^ 100 ≤ 2 ^ 201 by norm_num]
  rw [← hG]
  obtain ⟨z, hz⟩ : ∃ z, z = |t2| := ⟨_, rfl⟩
  have hz0 : 0 ≤ z := by rw [hz]; exact abs_nonneg t2
  obtain ⟨iz, hiz⟩ : ∃ iz, iz = i * z := ⟨_, rfl⟩
  have hiz0 : 0 ≤ iz := by rw [hiz]; positivity
  have hit2 : |i * t2| = iz := by rw [hiz, hz, abs_mul, abs_of_pos hi0]
  rw [hit2] at r3 ⊢
  -- the constants, as atoms
  have f0 : (0 : ℝ) ≤ 1 / 2 ^ 1075 := by positivity
  have f1 : (1 : ℝ) / 2 ^ 1075 ≤ 1 / 2 ^ 53 * (A - 1) := by
    calc (1 : ℝ) / 2 ^ 1075 ≤ 1 / 2 ^ 53 * (1 / 2 ^ 52) := by norm_num
      _ ≤ 1 / 2 ^ 53 * (A - 1) := mul_le_mul_of_nonneg_left ha1 (by positivity)
  have f2 : 8 * ((1 : ℝ) / 2 ^ 1075 * 2 ^ 200) ≤ 1 / 2 ^ 860 := by norm_num
  have f3 : (1 : ℝ) / 2 ^ 1075 * (A - 1) ≤ 1 / 2 ^ 1075 * 2 ^ 100 :=
    mul_le_mul_of_nonneg_left ha2 (by positivity)
  have f4 : (1 : ℝ) / 2 ^ 1075 ≤ 1 / 2 ^ 1075 * 2 ^ 100 := by norm_num
  have f5 : (1 : ℝ) / 2 ^ 1075 * 2 ^ 100 ≤ 1 / 2 ^ 1075 * 2 ^ 200 * i := by
    calc (1 : ℝ) / 2 ^ 1075 * 2 ^ 100 = 1 / 2 ^ 1075 * 2 ^ 200 * (1 / 2 ^ 100) := by norm_num
      _ ≤ 1 / 2 ^ 1075 * 2 ^ 200 * i := mul_le_mul_of_nonneg_left hi1 (by positivity)
  have f6 : (1 : ℝ) / 2 ^ 860 ≤ 1 := by
    rw [div_le_one (by positivity)]
    exact one_le_pow₀ (by norm_num)
  have f7 : (1 : ℝ) / 2 ^ 1075 * 2 ^ 100 ≤ 1 / 2 ^ 1075 * 2 ^ 200 := by norm_num
  have f8 : (1 : ℝ) / 2 ^ 1075 * 2 ^ 200 ≤ 1 := by norm_num
  have hΩ : (2 : ℝ) ^ 410 ≤ 2 ^ 1023 := by norm_num
  generalize (1 : ℝ) / 2 ^ 1075 = η at *
  generalize (1 : ℝ) / 2 ^ 860 = τ at *
  generalize (2 : ℝ) ^ 1023 = Ω at *
  obtain ⟨η', hη'⟩ : ∃ η', η' = η * 2 ^ 100 := ⟨_, rfl⟩
  obtain ⟨η'', hη''⟩ : ∃ η'', η'' = η * 2 ^ 200 := ⟨_, rfl⟩
  rw [← hη'] at f3 f4 f5 f7
  rw [← hη''] at f2 f5 f7 f8
  clear hη' hη''
  -- t1
  have b1 : S ≤ Ω := by linarith
  have r1' := r1 b1
  have m1 : |t1| ≤ S + (1 / 2 ^ 53 * S + η) := by
    have := abs_le_of_err t1 (P * A) _ r1'
    rw [hPA] at this
    exact this
  -- t2
  have h2 : |t1 + F| ≤ |t1| + cF := by
    have := abs_add t1 F
    rw [← hcF] at this
    exact this
  have b2 : |t1 + F| ≤ Ω := by linarith
  have r2' := r2 b2
  have e2 : |t2 - (P * A + F)| ≤ 3 / 2 ^ 53 * G + 3 * η := by
    have := abs_sub_le t2 (t1 + F) (P * A + F)
    have e : t1 + F - (P * A + F) = t1 - P * A := by ring
    rw [e] at this
    have hu : (1 : ℝ) / 2 ^ 53 * |t1 + F| ≤ 1 / 2 ^ 53 * (|t1| + cF) :=
      mul_le_mul_of_nonneg_left h2 (by positivity)
    linarith
  have hX : |P * A + F| ≤ G := by
    have := abs_add (P * A) F
    rw [hPA, ← hcF] at this
    linarith
  have m2 : z ≤ G + (3 / 2 ^ 53 * G + 3 * η) := by
    have := abs_le_of_err t2 (P * A + F) _ e2
    rw [← hz] at this
    linarith
  have hzhi : z ≤ 2 ^ 203 := by linarith [show (2 : ℝ) ^ 201 + 2 ^ 201 + 3 ≤ 2 ^ 203 by norm_num]
  -- t3
  have hizhi : iz ≤ 2 ^ 303 := by
    rw [hiz]
    calc i * z ≤ 2 ^ 100 * 2 ^ 203 := mul_le_mul hi2 hzhi hz0 (by positivity)
      _ = 2 ^ 303 := by norm_num
  have b3 : iz ≤ Ω := by linarith
  have r3' := r3 b3
  have m3 : |t3| ≤ iz + (1 / 2 ^ 53 * iz + η) := by
    have := abs_le_of_err t3 (i * t2) _ r3'
    rw [hit2] at this
    exact this
  -- d
  have hA1' : |1 + -A| = A - 1 := by rw [abs_of_neg (by linarith)]; ring
  rw [hA1'] at r4 ⊢
  have b4 : A - 1 ≤ Ω := by linarith
  have r4' := r4 b4
  have e4 : |d - (1 + -A)| ≤ 2 / 2 ^ 53 * (A - 1) := by linarith
  have m4 : (A - 1) / 2 ≤ |d| := by
    have h := abs_ge_of_err d (1 + -A) _ e4
    rw [hA1'] at h
    linarith
  have hd0 : 0 < |d| := lt_of_lt_of_le (by linarith) m4
  have hd : d ≠ 0 := abs_pos.1 hd0
  -- y = t3 / d
  obtain ⟨y, hy⟩ : ∃ y, y = t3 / d := ⟨_, rfl⟩
  rw [← hy] at r5 ⊢
  have hyd : y * d = t3 := by rw [hy]; exact div_mul_cancel₀ t3 hd
  obtain ⟨ya, hya⟩ : ∃ ya, ya = |y| * (A - 1) := ⟨_, rfl⟩
  have hya0 : 0 ≤ ya := by rw [hya]; exact mul_nonneg (abs_nonneg y) ha0.le
  have hya1 : ya ≤ 2 * |t3| := by
    have h1 : |y| * |d| = |t3| := by rw [← abs_mul, hyd]
    have h2 : |y| * ((A - 1) / 2) ≤ |y| * |d| := mul_le_mul_of_nonneg_left m4 (abs_nonneg y)
    have e : |y| * ((A - 1) / 2) = ya / 2 := by rw [hya]; ring
    linarith
  have hy1 : |y| ≤ 2 ^ 52 * ya := by
    have h1 : |y| * (1 / 2 ^ 52) ≤ |y| * (A - 1) :=
      mul_le_mul_of_nonneg_left ha1 (abs_nonneg y)
    rw [← hya] at h1
    have e : |y| = 2 ^ 52 * (|y| * (1 / 2 ^ 52)) := by ring
    rw [e]
    exact mul_le_mul_of_nonneg_left h1 (by positivity)
  have hyhi : |y| ≤ 2 ^ 360 := by
    have h1 : ya ≤ 2 ^ 306 := by
      linarith [show 2 * ((2 : ℝ) ^ 303 + 2 ^ 303 + 1) ≤ 2 ^ 306 by norm_num]
    calc |y| ≤ 2 ^ 52 * ya := hy1
      _ ≤ 2 ^ 52 * 2 ^ 306 := mul_le_mul_of_nonneg_left h1 (by positivity)
      _ ≤ 2 ^ 360 := by norm_num
  have b5 : |y| ≤ Ω := by linarith [show (2 : ℝ) ^ 360 ≤ 2 ^ 410 by norm_num]
  have r5' := r5 b5
  -- the residual, times i
  have key : pm * (A - 1) + i * t2
      = (pm - y) * (A - 1) + y * (d - (1 + -A)) + (i * t2 - t3) := by
    linear_combination (-1 : ℝ) * hyd
  have k1 : |(pm - y) * (A - 1)| ≤ 1 / 2 ^ 53 * ya + η' := by
    rw [abs_mul, abs_of_pos ha0]
    have := mul_le_mul_of_nonneg_right r5' ha0.le
    have e : (1 / 2 ^ 53 * |y| + η) * (A - 1) = 1 / 2 ^ 53 * ya + η * (A - 1) := by
      rw [hya]; ring
    rw [e] at this
    linarith
  have k2 : |y * (d - (1 + -A))| ≤ 2 / 2 ^ 53 * ya := by
    rw [abs_mul]
    have := mul_le_mul_of_nonneg_left e4 (abs_nonneg y)
    have e : |y| * (2 / 2 ^ 53 * (A - 1)) = 2 / 2 ^ 53 * ya := by rw [hya]; ring
    rw [e] at this
    exact this
  have k3 : |i * t2 - t3| ≤ 1 / 2 ^ 53 * iz + η := by
    rw [abs_sub_comm]; exact r3'
  have k : |pm * (A - 1) + i * t2| ≤ 8 / 2 ^ 53 * iz + 3 * η' := by
    rw [key]
    have h1 := abs_add ((pm - y) * (A - 1) + y * (d - (1 + -A))) (i * t2 - t3)
    have h2 := abs_add ((pm - y) * (A - 1)) (y * (d - (1 + -A)))
    linarith
  have kq : |q * (A - 1) + t2| ≤ 8 / 2 ^ 53 * z + 3 * η'' := by
    have h1 : |q * (A - 1) + t2| * i ≤ (8 / 2 ^ 53 * z + 3 * η'') * i := by
      have e : |q * (A - 1) + t2| * i = |pm * (A - 1) + i * t2| := by
        rw [← abs_of_pos hi0, ← abs_mul, abs_of_pos hi0, ← hq]
        congr 1; ring
      have e2 : (8 / 2 ^ 53 * z + 3 * η'') * i = 8 / 2 ^ 53 * iz + 3 * (η'' * i) := by
        rw [hiz]; ring
      rw [e, e2]
      linarith
    exact le_of_mul_le_mul_right h1 hi0
  refine ⟨b1, b2, b3, b4, b5, hd, ?_, ?_⟩
  · have := abs_le_of_err pm y _ r5'
    have h400 : (2 : ℝ) ^ 360 + 2 ^ 360 + 1 ≤ 2 ^ 400 := by norm_num
    have hu : (1 : ℝ) / 2 ^ 53 * |y| ≤ |y| := by
      have : (1 : ℝ) / 2 ^ 53 ≤ 1 := by norm_num
      calc (1 : ℝ) / 2 ^ 53 * |y| ≤ 1 * |y| := mul_le_mul_of_nonneg_right this (abs_nonneg y)
        _ = |y| := one_mul _
    linarith
  · have e : (P + q) * A - q + F = (q * (A - 1) + t2) - (t2 - (P * A + F)) := by ring
    rw [e]
    have := abs_sub (q * (A - 1) + t2) (t2 - (P * A + F))
    linarith

/-! ### The residual on doubles: the three commands -/

/-- The function `fn` at `n` on doubles, in a state of finite values with
`2^-100 ≤ i`, `1 ≤ A = pow(1.0 + i, n) ≤ 2^100` and `PV`, `PMT / i`, `FV` of magnitude at
most `2^400`, `2^500`, `2^400`: the value is finite and within
`13 * 2^-53 * ((|PV| + |PMT| / i) * A + |FV|) + 2^-970` of
`(PV + PMT / i) * A - PMT / i + FV`. -/
theorem dbl_fn_residual (n : Dbl) (i p m f A : ℝ)
    (hi1 : 1 / 2 ^ 100 ≤ i) (hA : pow (1.0 + Dbl.fin i) n = Dbl.fin A)
    (hA1 : 1 ≤ A) (hA2 : A ≤ 2 ^ 100)
    (hp : |p| ≤ 2 ^ 400) (hm : |m / i| ≤ 2 ^ 500) (hf : |f| ≤ 2 ^ 400) :
    ∃ fh : ℝ,
      fn (⟨n, Dbl.fin i, Dbl.fin p, Dbl.fin m, Dbl.fin f⟩ : FinancialState Dbl) n
        = Dbl.fin fh ∧
      |fh - ((p + m / i) * A - m / i + f)|
        ≤ 13 / 2 ^ 53 * ((|p| + |m / i|) * A + |f|) + 1 / 2 ^ 970 := by
  have hi0 : 0 < i := lt_of_lt_of_le (by positivity) hi1
  have hq : m / i * i = m := div_mul_cancel₀ m hi0.ne'
  obtain ⟨Q, c1⟩ := roundNearest_cond (m / i)
  obtain ⟨T, c2⟩ := roundNearest_cond (p + Q)
  obtain ⟨TA, c3⟩ := roundNearest_cond (T * A)
  obtain ⟨TQ, c4⟩ := roundNearest_cond (TA + -Q)
  obtain ⟨fh, c5⟩ := roundNearest_cond (TQ + f)
  obtain ⟨b1, b2, b3, b4, b5, h⟩ :=
    residual_stage_fn i A p m (m / i) f Q T TA TQ fh hi1 hA1 hA2 hq hp hm hf
      (fun h => (c1 h).2) (fun h => (c2 h).2) (fun h => (c3 h).2) (fun h => (c4 h).2)
      (fun h => (c5 h).2)
  refine ⟨fh, ?_, h⟩
  have e1 : (Dbl.fin m / Dbl.fin i : Dbl) = Dbl.fin Q := by
    rw [dbl_div _ _ hi0.ne']; exact (c1 b1).1
  have e2 : (Dbl.fin p + Dbl.fin Q : Dbl) = Dbl.fin T := by rw [dbl_add]; exact (c2 b2).1
  have e3 : (Dbl.fin T * Dbl.fin A : Dbl) = Dbl.fin TA := by rw [dbl_mul]; exact (c3 b3).1
  have e4 : (Dbl.fin TA - Dbl.fin Q : Dbl) = Dbl.fin TQ := by rw [dbl_sub]; exact (c4 b4).1
  have e5 : (Dbl.fin TQ + Dbl.fin f : Dbl) = Dbl.fin fh := by rw [dbl_add]; exact (c5 b5).1
  simp only [fn, hA, e1, e2, e3, e4, e5]

/-- A quotient by `i ≥ 2^-100` of a value of magnitude at most `2^400`. -/
theorem abs_div_le_of_range (m i : ℝ) (hi1 : 1 / 2 ^ 100 ≤ i) (hm : |m| ≤ 2 ^ 400) :
    |m / i| ≤ 2 ^ 500 := by
  have hi0 : 0 < i := lt_of_lt_of_le (by positivity) hi1
  rw [abs_div, abs_of_pos hi0, div_le_iff₀ hi0]
  calc |m| ≤ 2 ^ 400 := hm
    _ = 2 ^ 500 * (1 / 2 ^ 100) := by norm_num
    _ ≤ 2 ^ 500 * i := mul_le_mul_of_nonneg_left hi1 (by positivity)

/-- After `compute FV` on doubles, in a state with `2^-100 ≤ i ≤ 2^100`,
`1 ≤ A = pow(1.0 + i, n) ≤ 2^100` and `|PV|`, `|PMT|` at most `2^100`: the command
succeeds and in the state it leaves `fn(n)` is finite, of magnitude at most
`2^-47 * ((|PV| + |PMT| / i) * A + |FV|) + 2^-700`. -/
theorem dbl_residual_FV (n fv0 : Dbl) (i P M A : ℝ) (l : Nat)
    (hi1 : 1 / 2 ^ 100 ≤ i) (hi2 : i ≤ 2 ^ 100)
    (hA : pow (1.0 + Dbl.fin i) n = Dbl.fin A) (hA1 : 1 ≤ A) (hA2 : A ≤ 2 ^ 100)
    (hP : |P| ≤ 2 ^ 100) (hM : |M| ≤ 2 ^ 100) :
    ∃ fv r : ℝ,
      tvm_compute_variable (⟨n, Dbl.fin i, Dbl.fin P, Dbl.fin M, fv0⟩ : FinancialState Dbl)
          "FV".toList l
        = .ok ⟨n, Dbl.fin i, Dbl.fin P, Dbl.fin M, Dbl.fin fv⟩
            [⟨"FV = %.2f\n", Dbl.fin fv⟩] ∧
      fn (⟨n, Dbl.fin i, Dbl.fin P, Dbl.fin M, Dbl.fin fv⟩ : FinancialState Dbl) n
        = Dbl.fin r ∧
      |r| ≤ 1 / 2 ^ 47 * ((|P| + |M| / i) * A + |fv|) + 1 / 2 ^ 700 := by
  have hi0 : 0 < i := lt_of_lt_of_le (by positivity) hi1
  have hq : M / i * i = M := div_mul_cancel₀ M hi0.ne'
  obtain ⟨e, c1⟩ := roundNearest_cond (A + -1)
  obtain ⟨s2, c2⟩ := roundNearest_cond (M * e)
  obtain ⟨s3, c3⟩ := roundNearest_cond (s2 / i)
  obtain ⟨s1, c4⟩ := roundNearest_cond (-P * A)
  obtain ⟨fv, c5⟩ := roundNearest_cond (s1 + -s3)
  obtain ⟨b1, b2, b3, b4, b5, hfv, hres⟩ :=
    residual_stage_FV i A P M (M / i) e s2 s3 s1 fv hi1 hi2 hA1 hA2 hP hM hq
      (fun h => (c1 h).2) (fun h => (c2 h).2) (fun h => (c3 h).2) (fun h => (c4 h).2)
      (fun h => (c5 h).2)
  obtain ⟨r, hr, herr⟩ := dbl_fn_residual n i P M fv A hi1 hA hA1 hA2
    (le_trans hP (by norm_num))
    (abs_div_le_of_range M i hi1 (le_trans hM (by norm_num))) hfv
  refine ⟨fv, r, ?_, hr, ?_⟩
  · have e1 : (Dbl.fin (-P) * Dbl.fin A : Dbl) = Dbl.fin s1 := by rw [dbl_mul]; exact (c4 b4).1
    have e2 : (Dbl.fin A - (1.0 : Dbl)) = Dbl.fin e := by
      rw [dbl_lit_one, dbl_sub]; exact (c1 b1).1
    have e3 : (Dbl.fin M * Dbl.fin e : Dbl) = Dbl.fin s2 := by rw [dbl_mul]; exact (c2 b2).1
    have e4 : (Dbl.fin s2 / Dbl.fin i : Dbl) = Dbl.fin s3 := by
      rw [dbl_div _ _ hi0.ne']; exact (c3 b3).1
    have e5 : (Dbl.fin s1 - Dbl.fin s3 : Dbl) = Dbl.fin fv := by
      rw [dbl_sub]; exact (c5 b5).1
    rw [compute_FV_any_arithmetic _ _ (dbl_i_pos _ _ _ _ i hi0)]
    simp only [hA, dbl_neg, e1, e2, e3, e4, e5]
  · have hMi : |M / i| = |M| / i := by rw [abs_div, abs_of_pos hi0]
    rw [hMi] at hres herr
    have h := abs_le_of_err r _ _ herr
    have hN0 : 0 ≤ (|P| + |M| / i) * A :=
      mul_nonneg (add_nonneg (abs_nonneg P) (div_nonneg (abs_nonneg M) hi0.le)) (by linarith)
    have hc0 : 0 ≤ |fv| := abs_nonneg fv
    have t1 : (1 : ℝ) / 2 ^ 970 + 1 / 2 ^ 860 ≤ 1 / 2 ^ 700 := by norm_num
    generalize (|P| + |M| / i) * A = N at *
    generalize (1 : ℝ) / 2 ^ 970 = τ1 at *
    generalize (1 : ℝ) / 2 ^ 860 = τ2 at *
    generalize (1 : ℝ) / 2 ^ 700 = τ3 at *
    linarith

/-- After `compute PV` on doubles, in a state with `2^-100 ≤ i ≤ 2^100`,
`1 ≤ A = pow(1.0 + i, n) ≤ 2^100`, `D = pow(1.0 + i, -n)` with `|A * D - 1| ≤ 2^-50`, and
`|PMT|`, `|FV|` at most `2^100`: the command succeeds and in the state it leaves `fn(n)`
is finite, of magnitude at most `2^-47 * ((|PV| + |PMT| / i) * A + |FV|) + 2^-700`. -/
theorem dbl_residual_PV (n pv0 : Dbl) (i M F A D : ℝ) (l : Nat)
    (hi1 : 1 / 2 ^ 100 ≤ i) (hi2 : i ≤ 2 ^ 100)
    (hA : pow (1.0 + Dbl.fin i) n = Dbl.fin A) (hA1 : 1 ≤ A) (hA2 : A ≤ 2 ^ 100)
    (hD : pow (1.0 + Dbl.fin i) (-n) = Dbl.fin D) (hAD : |A * D - 1| ≤ 1 / 2 ^ 50)
    (hM : |M| ≤ 2 ^ 100) (hF : |F| ≤ 2 ^ 100) :
    ∃ pv r : ℝ,
      tvm_compute_variable (⟨n, Dbl.fin i, pv0, Dbl.fin M, Dbl.fin F⟩ : FinancialState Dbl)
          "PV".toList l
        = .ok ⟨n, Dbl.fin i, Dbl.fin pv, Dbl.fin M, Dbl.fin F⟩
            [⟨"PV = %.2f\n", Dbl.fin pv⟩] ∧
      fn (⟨n, Dbl.fin i, Dbl.fin pv, Dbl.fin M, Dbl.fin F⟩ : FinancialState Dbl) n
        = Dbl.fin r ∧
      |r| ≤ 1 / 2 ^ 47 * ((|pv| + |M| / i) * A + |F|) + 1 / 2 ^ 700 := by
  have hi0 : 0 < i := lt_of_lt_of_le (by positivity) hi1
  have hq : M / i * i = M := div_mul_cancel₀ M hi0.ne'
  obtain ⟨g1, c1⟩ := roundNearest_cond (1 + -D)
  obtain ⟨g2, c2⟩ := roundNearest_cond (-M * g1)
  obtain ⟨g3, c3⟩ := roundNearest_cond (g2 / i)
  obtain ⟨g4, c4⟩ := roundNearest_cond (F * D)
  obtain ⟨pv, c5⟩ := roundNearest_cond (g3 + -g4)
  obtain ⟨b1, b2, b3, b4, b5, hpv, hres⟩ :=
    residual_stage_PV i A D M (M / i) F g1 g2 g3 g4 pv hi1 hi2 hA1 hA2 hAD hM hF hq
      (fun h => (c1 h).2) (fun h => (c2 h).2) (fun h => (c3 h).2) (fun h => (c4 h).2)
      (fun h => (c5 h).2)
  obtain ⟨r, hr, herr⟩ := dbl_fn_residual n i pv M F A hi1 hA hA1 hA2 hpv
    (abs_div_le_of_range M i hi1 (le_trans hM (by norm_num))) (le_trans hF (by norm_num))
  refine ⟨pv, r, ?_, hr, ?_⟩
  · have e1 : ((1.0 : Dbl) - Dbl.fin D) = Dbl.fin g1 := by
      rw [dbl_lit_one, dbl_sub]; exact (c1 b1).1
    have e2 : (Dbl.fin (-M) * Dbl.fin g1 : Dbl) = Dbl.fin g2 := by
      rw [dbl_mul]; exact (c2 b2).1
    have e3 : (Dbl.fin g2 / Dbl.fin i : Dbl) = Dbl.fin g3 := by
      rw [dbl_div _ _ hi0.ne']; exact (c3 b3).1
    have e4 : (Dbl.fin F * Dbl.fin D : Dbl) = Dbl.fin g4 := by
      rw [dbl_mul]; exact (c4 b4).1
    have e5 : (Dbl.fin g3 - Dbl.fin g4 : Dbl) = Dbl.fin pv := by
      rw [dbl_sub]; exact (c5 b5).1
    rw [compute_PV_any_arithmetic _ _ (dbl_i_pos _ _ _ _ i hi0)]
    simp only [hD, dbl_neg, e1, e2, e3, e4, e5]
  · have hMi : |M / i| = |M| / i := by rw [abs_div, abs_of_pos hi0]
    rw [hMi] at hres herr
    have h := abs_le_of_err r _ _ herr
    have hA0 : 0 ≤ A := by linarith
    have hb0 : 0 ≤ |M| / i := div_nonneg (abs_nonneg M) hi0.le
    have hN1 : |M| / i * A ≤ (|pv| + |M| / i) * A :=
      mul_le_mul_of_nonneg_right (by linarith [abs_nonneg pv]) hA0
    have hN0 : 0 ≤ |M| / i * A := mul_nonneg hb0 hA0
    have hc0 : 0 ≤ |F| := abs_nonneg F
    have t1 : (1 : ℝ) / 2 ^ 970 + 1 / 2 ^ 760 ≤ 1 / 2 ^ 700 := by norm_num
    generalize (|pv| + |M| / i) * A = N at *
    generalize |M| / i * A = N' at *
    generalize (1 : ℝ) / 2 ^ 970 = τ1 at *
    generalize (1 : ℝ) / 2 ^ 760 = τ2 at *
    generalize (1 : ℝ) / 2 ^ 700 = τ3 at *
    linarith

/-- After `compute PMT` on doubles, in a state with `2^-100 ≤ i ≤ 2^100`,
`1 + 2^-52 ≤ A = pow(1.0 + i, n) ≤ 2^100` and `|PV|`, `|FV|` at most `2^100`: the command
succeeds and in the state it leaves `fn(n)` is finite, of magnitude at most
`2^-47 * ((|PV| + |PMT| / i) * A + |FV|) + 2^-700`. -/
theorem dbl_residual_PMT (n pmt0 : Dbl) (i P F A : ℝ) (l : Nat)
    (hi1 : 1 / 2 ^ 100 ≤ i) (hi2 : i ≤ 2 ^ 100)
    (hA : pow (1.0 + Dbl.fin i) n = Dbl.fin A) (hA1 : 1 + 1 / 2 ^ 52 ≤ A)
    (hA2 : A ≤ 2 ^ 100) (hP : |P| ≤ 2 ^ 100) (hF : |F| ≤ 2 ^ 100) :
    ∃ pm r : ℝ,
      tvm_compute_variable (⟨n, Dbl.fin i, Dbl.fin P, pmt0, Dbl.fin F⟩ : FinancialState Dbl)
          "PMT".toList l
        = .ok ⟨n, Dbl.fin i, Dbl.fin P, Dbl.fin pm, Dbl.fin F⟩
            [⟨"PMT = %.2f\n", Dbl.fin pm⟩] ∧
      fn (⟨n, Dbl.fin i, Dbl.fin P, Dbl.fin pm, Dbl.fin F⟩ : FinancialState Dbl) n
        = Dbl.fin r ∧
      |r| ≤ 1 / 2 ^ 47 * ((|P| + |pm| / i) * A + |F|) + 1 / 2 ^ 700 := by
  have hi0 : 0 < i := lt_of_lt_of_le (by positivity) hi1
  have hA1' : 1 ≤ A := by linarith [show (0 : ℝ) < 1 / 2 ^ 52 by positivity]
  obtain ⟨t1, c1⟩ := roundNearest_cond (P * A)
  obtain ⟨t2, c2⟩ := roundNearest_cond (t1 + F)
  obtain ⟨t3, c3⟩ := roundNearest_cond (i * t2)
  obtain ⟨d, c4⟩ := roundNearest_cond (1 + -A)
  obtain ⟨pm, c5⟩ := roundNearest_cond (t3 / d)
  have hq : pm / i * i = pm := div_mul_cancel₀ pm hi0.ne'
  obtain ⟨b1, b2, b3, b4, b5, hd0, hpm, hres⟩ :=
    residual_stage_PMT i A P F t1 t2 t3 d pm (pm / i) hi1 hi2 hA1 hA2 hP hF hq
      (fun h => (c1 h).2) (fun h => (c2 h).2) (fun h => (c3 h).2) (fun h => (c4 h).2)
      (fun h => (c5 h).2)
  obtain ⟨r, hr, herr⟩ := dbl_fn_residual n i P pm F A hi1 hA hA1' hA2
    (le_trans hP (by norm_num)) (abs_div_le_of_range pm i hi1 hpm)
    (le_trans hF (by norm_num))
  refine ⟨pm, r, ?_, hr, ?_⟩
  · have e1 : (Dbl.fin P * Dbl.fin A : Dbl) = Dbl.fin t1 := by rw [dbl_mul]; exact (c1 b1).1
    have e2 : (Dbl.fin t1 + Dbl.fin F : Dbl) = Dbl.fin t2 := by rw [dbl_add]; exact (c2 b2).1
    have e3 : (Dbl.fin i * Dbl.fin t2 : Dbl) = Dbl.fin t3 := by rw [dbl_mul]; exact (c3 b3).1
    have e4 : ((1.0 : Dbl) - Dbl.fin A) = Dbl.fin d := by
      rw [dbl_lit_one, dbl_sub]; exact (c4 b4).1
    have e5 : (Dbl.fin t3 / Dbl.fin d : Dbl) = Dbl.fin pm := by
      rw [dbl_div _ _ hd0]; exact (c5 b5).1
    have e6 : ((Dbl.fin d : Dbl) == 0.0) = false := by
      rw [dbl_lit_zero, dbl_beq]; exact decide_eq_false hd0
    rw [compute_PMT_any_arithmetic _ _ (dbl_i_pos _ _ _ _ i hi0)]
    simp only [hA, e1, e2, e3, e4, e5, e6, Bool.false_eq_true, if_false]
  · have hMi : |pm / i| = |pm| / i := by rw [abs_div, abs_of_pos hi0]
    rw [hMi] at herr
    have h := abs_le_of_err r _ _ herr
    have hA0 : 0 ≤ A := by linarith
    have hb0 : 0 ≤ |pm| / i := div_nonneg (abs_nonneg pm) hi0.le
    have hN1 : |P| * A ≤ (|P| + |pm| / i) * A :=
      mul_le_mul_of_nonneg_right (by linarith [abs_nonneg P]) hA0
    have hN0 : 0 ≤ |P| * A := mul_nonneg (abs_nonneg P) hA0
    have hc0 : 0 ≤ |F| := abs_nonneg F
    have t1 : (1 : ℝ) / 2 ^ 970 + 1 / 2 ^ 860 ≤ 1 / 2 ^ 700 := by norm_num
    generalize (|P| + |pm| / i) * A = N at *
    generalize |P| * A = N' at *
    generalize (1 : ℝ) / 2 ^ 970 = τ1 at *
    generalize (1 : ℝ) / 2 ^ 860 = τ2 at *
    generalize (1 : ℝ) / 2 ^ 700 = τ3 at *
    linarith

/-- C19 (amended): the closed forms and the solver equation on doubles.  In a state of
finite values with `2^-100 ≤ i ≤ 2^100`, in which `pow` returns a finite
`A = pow(1.0 + i, n)` with `1 ≤ A ≤ 2^100`, and with `|PV|`, `|PMT|`, `|FV|` at most
`2^100`: the line `compute FV` succeeds; `compute PV` succeeds when `pow(1.0 + i, -n)`
returns a finite `D` with `|A * D - 1| ≤ 2^-50`; `compute PMT` succeeds when
`A ≥ 1 + 2^-52`.  Each prints and stores its variable, whatever that variable held, and
leaves the others unchanged; in the state it leaves, the value `fn(n)` that the program
computes is finite and `|fn(n)| ≤ 2^-47 * ((|PV| + |PMT| / i) * A + |FV|) + 2^-700`, with
the variables of that state.  As formulas over the real numbers (`i > 0`) each closed
form makes `(PV + PMT/i) * (1+i)^n - PMT/i + FV` exactly zero. -/
theorem closed_forms_solve_equation (n x0 : Dbl) (i P M F A : ℝ) (l : Nat)
    (hi1 : 1 / 2 ^ 100 ≤ i) (hi2 : i ≤ 2 ^ 100)
    (hA : pow (1.0 + Dbl.fin i) n = Dbl.fin A) (hA1 : 1 ≤ A) (hA2 : A ≤ 2 ^ 100)
    (hP : |P| ≤ 2 ^ 100) (hM : |M| ≤ 2 ^ 100) (hF : |F| ≤ 2 ^ 100) :
    (∃ fv r : ℝ,
      tvm_process_command (⟨n, Dbl.fin i, Dbl.fin P, Dbl.fin M, x0⟩ : FinancialState Dbl)
          "compute FV".toList l
        = .ok ⟨n, Dbl.fin i, Dbl.fin P, Dbl.fin M, Dbl.fin fv⟩
            [⟨"FV = %.2f\n", Dbl.fin fv⟩] ∧
      fn (⟨n, Dbl.fin i, Dbl.fin P, Dbl.fin M, Dbl.fin fv⟩ : FinancialState Dbl) n
        = Dbl.fin r ∧
      |r| ≤ 1 / 2 ^ 47 * ((|P| + |M| / i) * A + |fv|) + 1 / 2 ^ 700) ∧
    (∀ D : ℝ, pow (1.0 + Dbl.fin i) (-n) = Dbl.fin D → |A * D - 1| ≤ 1 / 2 ^ 50 →
      ∃ pv r : ℝ,
        tvm_process_command (⟨n, Dbl.fin i, x0, Dbl.fin M, Dbl.fin F⟩ : FinancialState Dbl)
            "compute PV".toList l
          = .ok ⟨n, Dbl.fin i, Dbl.fin pv, Dbl.fin M, Dbl.fin F⟩
              [⟨"PV = %.2f\n", Dbl.fin pv⟩] ∧
        fn (⟨n, Dbl.fin i, Dbl.fin pv, Dbl.fin M, Dbl.fin F⟩ : FinancialState Dbl) n
          = Dbl.fin r ∧
        |r| ≤ 1 / 2 ^ 47 * ((|pv| + |M| / i) * A + |F|) + 1 / 2 ^ 700) ∧
    (1 + 1 / 2 ^ 52 ≤ A →
      ∃ pm r : ℝ,
        tvm_process_command (⟨n, Dbl.fin i, Dbl.fin P, x0, Dbl.fin F⟩ : FinancialState Dbl)
            "compute PMT".toList l
          = .ok ⟨n, Dbl.fin i, Dbl.fin P, Dbl.fin pm, Dbl.fin F⟩
              [⟨"PMT = %.2f\n", Dbl.fin pm⟩] ∧
        fn (⟨n, Dbl.fin i, Dbl.fin P, Dbl.fin pm, Dbl.fin F⟩ : FinancialState Dbl) n
          = Dbl.fin r ∧
        |r| ≤ 1 / 2 ^ 47 * ((|P| + |pm| / i) * A + |F|) + 1 / 2 ^ 700) ∧
    (∀ m j PV PMT FV : ℝ, 0 < j →
      ((-PMT * (1 - (1 + j) ^ (-m)) / j - FV * (1 + j) ^ (-m)) + PMT / j) * (1 + j) ^ m
          - PMT / j + FV = 0 ∧
      (PV + PMT / j) * (1 + j) ^ m - PMT / j
          + (-PV * (1 + j) ^ m - PMT * ((1 + j) ^ m - 1) / j) = 0 ∧
      (1 - (1 + j) ^ m ≠ 0 →
        (PV + j * (PV * (1 + j) ^ m + FV) / (1 - (1 + j) ^ m) / j) * (1 + j) ^ m
          - j * (PV * (1 + j) ^ m + FV) / (1 - (1 + j) ^ m) / j + FV = 0)) := by
  refine ⟨?_, ?_, ?_, fun m j PV PMT FV hj => closed_forms_are_roots m j PV PMT FV hj⟩
  · obtain ⟨fv, r, h1, h2, h3⟩ := dbl_residual_FV n x0 i P M A l hi1 hi2 hA hA1 hA2 hP hM
    refine ⟨fv, r, ?_, h2, h3⟩
    rw [process_compute _ _ "FV".toList l (by decide)]; exact h1
  · intro D hD hAD
    obtain ⟨pv, r, h1, h2, h3⟩ :=
      dbl_residual_PV n x0 i M F A D l hi1 hi2 hA hA1 hA2 hD hAD hM hF
    refine ⟨pv, r, ?_, h2, h3⟩
    rw [process_compute _ _ "PV".toList l (by decide)]; exact h1
  · intro hA52
    obtain ⟨pm, r, h1, h2, h3⟩ := dbl_residual_PMT n x0 i P F A l hi1 hi2 hA hA52 hA2 hP hF
    refine ⟨pm, r, ?_, h2, h3⟩
    rw [process_compute _ _ "PMT".toList l (by decide)]; exact h1

/-- The state `n = 60`, `i = 1`, `PV = 100`, `FV = 50` on doubles, where `A = 2^60`:
`compute PMT` succeeds and the value `fn(n)` in the state it leaves (150, with
`PMT = -100`) is within the bound. -/
theorem closed_forms_solve_equation_witness :
    pow ((1.0 : Dbl) + Dbl.fin 1) (Dbl.fin 60) = Dbl.fin (2 ^ 60) ∧
    ∃ pm r : ℝ,
      tvm_process_command (⟨Dbl.fin 60, Dbl.fin 1, Dbl.fin 100, Dbl.fin 0, Dbl.fin 50⟩ :
          FinancialState Dbl) "compute PMT".toList 5
        = .ok ⟨Dbl.fin 60, Dbl.fin 1, Dbl.fin 100, Dbl.fin pm, Dbl.fin 50⟩
            [⟨"PMT = %.2f\n", Dbl.fin pm⟩] ∧
      fn (⟨Dbl.fin 60, Dbl.fin 1, Dbl.fin 100, Dbl.fin pm, Dbl.fin 50⟩ :
          FinancialState Dbl) (Dbl.fin 60) = Dbl.fin r ∧
      |r| ≤ 1 / 2 ^ 47 * ((|(100 : ℝ)| + |pm| / 1) * 2 ^ 60 + |(50 : ℝ)|) + 1 / 2 ^ 700 := by
  have hA : pow ((1.0 : Dbl) + Dbl.fin 1) (Dbl.fin 60) = Dbl.fin (2 ^ 60) := by
    rw [dbl_one_add_one, dbl_pow 2 60 (by norm_num) (by norm_num) (by norm_num),
      show (60 : ℝ) = ((60 : ℕ) : ℝ) by norm_num, Real.rpow_natCast]
    exact roundNearest_of_exact _ 1 60 (by norm_num) (by decide) (by decide) (by norm_num)
  exact ⟨hA,
    (closed_forms_solve_equation (Dbl.fin 60) (Dbl.fin 0) 1 100 0 50 (2 ^ 60) 5
      (by norm_num) (by norm_num) hA (by norm_num) (by norm_num) (by norm_num)
      (by norm_num) (by norm_num)).2.2.1 (by norm_num)⟩

end TVM
